import Mathlib

/-!
Dependency resolution of the package-manager CLI (`DependenciesFlow.cpp`).

A shallow embedding of `AppInstaller::CLI::Workflow` dependency handling:
the resolver lambda and `BuildPackageDependenciesGraph` from
`DependenciesFlow.cpp`, the test source and test context of `WorkFlow.cpp`,
and the `DependencyGraph` they drive.  Parts of the repository that the
sources only use (the `DependencyGraph` class, `DependencyList`, version
comparison, the pipeline operator, `Terminate`) are modelled from the
specification and marked as such.
-/

namespace AppInstaller

/-! ## Manifest data -/

/-- Kinds of dependency (`DependencyType`). -/
inductive DependencyType where
  | WindowsFeature
  | WindowsLibrary
  | Package
  | External
  deriving DecidableEq

/-- ASCII lower-casing of one character. -/
def lowerChar (c : Char) : Char :=
  if 65 ≤ c.toNat ∧ c.toNat ≤ 90 then Char.ofNat (c.toNat + 32) else c

/-- Modelled from the spec: the normalisation of a package Id (the helper is not part of the
sources).  Section 3 makes identity "case-insensitive on Id" and keys graph nodes "by normalized
Id"; the normal form is the ASCII lower-cased Id. -/
def normalizeId (s : String) : String := String.mk (s.data.map lowerChar)

/-- Cut a character sequence at every dot. -/
def splitOnDot : List Char → List (List Char)
  | [] => [[]]
  | c :: cs =>
    if c = '.' then [] :: splitOnDot cs
    else
      match splitOnDot cs with
      | [] => [[c]]
      | part :: parts => (c :: part) :: parts

/-- A version segment is numeric when it is a non-empty run of decimal digits. -/
def isNumericPart (p : List Char) : Bool := !p.isEmpty && p.all Char.isDigit

/-- Decimal value of a numeric segment. -/
def partValue (p : List Char) : Nat := p.foldl (fun acc c => 10 * acc + (c.toNat - 48)) 0

/-- Lexicographic comparison of two segments by character code. -/
def lexCompare : List Char → List Char → Ordering
  | [], [] => Ordering.eq
  | [], _ :: _ => Ordering.lt
  | _ :: _, [] => Ordering.gt
  | a :: as, b :: bs =>
    if a.toNat < b.toNat then Ordering.lt
    else if b.toNat < a.toNat then Ordering.gt
    else lexCompare as bs

/-- Compare two segments: numerically when both are numeric, lexicographically otherwise. -/
def comparePart (a b : List Char) : Ordering :=
  if isNumericPart a && isNumericPart b then compare (partValue a) (partValue b)
  else lexCompare a b

/-- Compare the missing segments of a shorter version, each counting as `0`, with the segments
that the longer version has left. -/
def zeroAgainstParts : List (List Char) → Ordering
  | [] => Ordering.eq
  | b :: bs =>
    match comparePart ['0'] b with
    | Ordering.eq => zeroAgainstParts bs
    | o => o

/-- Compare the segments that the longer version has left with the missing segments of the
shorter one, each counting as `0`. -/
def partsAgainstZero : List (List Char) → Ordering
  | [] => Ordering.eq
  | a :: as =>
    match comparePart a ['0'] with
    | Ordering.eq => partsAgainstZero as
    | o => o

/-- Compare segment lists from the left; a missing segment counts as `0`. -/
def compareParts : List (List Char) → List (List Char) → Ordering
  | [], bs => zeroAgainstParts bs
  | a :: as, [] => partsAgainstZero (a :: as)
  | a :: as, b :: bs =>
    match comparePart a b with
    | Ordering.eq => compareParts as bs
    | o => o

/-- Modelled from the spec: version comparison (`Utility::Version` is not part of the sources).
Section 3: "dot-separated numeric-segment comparison (non-numeric segments compare
lexicographically as fallback)". -/
def compareVersion (a b : String) : Ordering :=
  compareParts (splitOnDot a.data) (splitOnDot b.data)

/-- The test `a ≤ b` on versions. -/
def versionLe (a b : String) : Bool :=
  match compareVersion a b with
  | Ordering.gt => false
  | _ => true

/-- A typed requirement with an optional minimum version (`Manifest::Dependency`). -/
structure Dependency where
  Kind : DependencyType
  Id : String
  MinVersion : Option String
  deriving DecidableEq

/-- Modelled from the spec: `Dependency::IsVersionOk` (the struct is declared outside the sources).
Section 3: "true iff MinVersion is absent or candidate ≥ MinVersion". -/
def Dependency.IsVersionOk (d : Dependency) (candidate : String) : Bool :=
  match d.MinVersion with
  | none => true
  | some minVersion => versionLe minVersion candidate

/-- Modelled from the spec: identity of a dependency for set membership, section 3: "(Kind, Id),
case-insensitive on Id for Package kind". -/
def Dependency.sameIdentity (a b : Dependency) : Bool :=
  a.Kind == b.Kind &&
    (if a.Kind = DependencyType.Package then normalizeId a.Id == normalizeId b.Id
     else a.Id == b.Id)

/-- The stricter of two optional minimum versions (an absent one demands nothing). -/
def stricterMinVersion : Option String → Option String → Option String
  | none, b => b
  | some a, none => some a
  | some a, some b => if versionLe a b then some b else some a

/-- Modelled from the spec: `DependencyList` (declared outside the sources), an ordered sequence
of dependencies, unique per identity. -/
abbrev DependencyList := List Dependency

/-- Modelled from the spec: `DependencyList::Add(Dependency)`; merging two entries with the same
identity "keeps the stricter (maximum) MinVersion". -/
def DependencyList.Add (list : DependencyList) (d : Dependency) : DependencyList :=
  if list.any (fun e => e.sameIdentity d) then
    list.map (fun e =>
      if e.sameIdentity d then { e with MinVersion := stricterMinVersion e.MinVersion d.MinVersion }
      else e)
  else list ++ [d]

/-- Modelled from the spec: `DependencyList::Empty()`. -/
def DependencyList.Empty (list : DependencyList) : Bool := list.isEmpty

/-- Modelled from the spec: `DependencyList::Clear()`. -/
def DependencyList.Clear (_list : DependencyList) : DependencyList := []

/-- Modelled from the spec: `DependencyList::HasAny()`. -/
def DependencyList.HasAny (list : DependencyList) : Bool := !list.isEmpty

/-- Modelled from the spec: `DependencyList::HasAnyOf(kind)`. -/
def DependencyList.HasAnyOf (list : DependencyList) (kind : DependencyType) : Bool :=
  list.any (fun d => d.Kind == kind)

/-- Modelled from the spec: `DependencyList::ApplyToType(kind, fn)` visits the entries of one
kind, in order; the visited entries are returned. -/
def DependencyList.ApplyToType (list : DependencyList) (kind : DependencyType) : List Dependency :=
  list.filter (fun d => d.Kind == kind)

/-- One installer of a manifest (`ManifestInstaller`), with the fields the flow reads. -/
structure ManifestInstaller where
  ProductId : String
  Dependencies : DependencyList
  deriving DecidableEq

/-- A package manifest, with the fields the flow reads. -/
structure Manifest where
  Id : String
  Moniker : String
  Version : String
  Channel : String
  Installers : List ManifestInstaller
  deriving DecidableEq

/-! ## Sources and search -/

/-- One version of a package (`IPackageVersion`); `GetManifest()` is the field. -/
structure PackageVersion where
  GetManifest : Manifest
  deriving DecidableEq

/-- A package of a source (`IPackage`). -/
structure Package where
  GetInstalledVersion : Option PackageVersion
  GetLatestAvailableVersion : Option PackageVersion
  deriving DecidableEq

/-- Field a filter matches on. -/
inductive PackageMatchField where
  | Id
  | Name
  | Moniker
  deriving DecidableEq

/-- How a filter compares. -/
inductive MatchType where
  | Exact
  | CaseInsensitive
  deriving DecidableEq

/-- A search filter (`PackageMatchFilter`). -/
structure PackageMatchFilter where
  Field : PackageMatchField
  MatchType : MatchType
  Value : String
  deriving DecidableEq

/-- A search request: optional query, inclusions and filters. -/
structure SearchRequest where
  Query : Option PackageMatchFilter
  Inclusions : List PackageMatchFilter
  Filters : List PackageMatchFilter
  deriving DecidableEq

/-- One search hit (`ResultMatch`). -/
structure ResultMatch where
  Package : Package
  MatchCriteria : PackageMatchFilter
  deriving DecidableEq

/-- Result of a search. -/
structure SearchResult where
  Matches : List ResultMatch
  deriving DecidableEq

/-- A package source (`ISource`): its only operation used here is `Search`. -/
structure Source where
  Search : SearchRequest → SearchResult

/-! ## The dependency graph -/

/-- Key of a graph node: the normalised Id (section 3, "keyed by normalized Id"). -/
def Dependency.key (d : Dependency) : String := normalizeId d.Id

/-- Modelled from the spec: a `DependencyGraph` node (the class is not part of the sources; only
its use in `BuildPackageDependenciesGraph` is).  Section 3: the node carries the tightest
MinVersion seen, kept in `dependency`, and "an adjacency list of child Dependency edges". -/
structure DependencyGraphNode where
  dependency : Dependency
  adjacents : DependencyList
  deriving DecidableEq

/-- Modelled from the spec: the `DependencyGraph` object: the root, the node table in insertion
order (the root's node first) and the frontier of discovered edges still to process. -/
structure DependencyGraph where
  m_root : Dependency
  nodes : List DependencyGraphNode
  toCheck : List Dependency
  deriving DecidableEq

/-- Modelled from the spec: the `DependencyGraph(root, rootDependencies, resolver)` constructor,
section 4.3 step 1: "Seed the frontier with the root's direct dependencies as edges root→child".
The resolver is handed to `BuildGraph`. -/
def DependencyGraph.create (root : Dependency) (rootDependencies : DependencyList) :
    DependencyGraph :=
  { m_root := root, nodes := [{ dependency := root, adjacents := rootDependencies }],
    toCheck := rootDependencies }

/-- Modelled from the spec: `HasNode`, whether the node table has a node with the key of `d`. -/
def DependencyGraph.HasNode (graph : DependencyGraph) (d : Dependency) : Bool :=
  graph.nodes.any (fun n => n.dependency.key == d.key)

/-- Modelled from the spec: tightening, section 4.3 step 2: the MinVersion demanded by an edge is
"tightened against any prior demand" on the node with the same key. -/
def tightenNodes (nodes : List DependencyGraphNode) (d : Dependency) : List DependencyGraphNode :=
  nodes.map (fun n =>
    if n.dependency.key == d.key then
      { n with dependency :=
          { n.dependency with
            MinVersion := stricterMinVersion n.dependency.MinVersion d.MinVersion } }
    else n)

/-- Modelled from the spec: the frontier loop of `BuildGraph`, section 4.3 steps 2 to 5.  The
first pending edge is taken: a child whose key is already in the node table is only tightened;
a new child is inserted, the resolver is invoked for it, and the dependencies it returns become
the node's adjacents and are queued behind the pending edges.  `calls` records the resolver
invocations and `written` the text the resolver wrote.  The loop need not end for a resolver
that keeps inventing new Ids, hence the fuel. -/
def DependencyGraph.expand (getDependencies : Dependency → DependencyList × String) :
    Nat → DependencyGraph → List Dependency → String →
      Option (DependencyGraph × List Dependency × String)
  | fuel, graph, calls, written =>
    match graph.toCheck, fuel with
    | [], _ => some (graph, calls, written)
    | _ :: _, 0 => none
    | child :: rest, fuel + 1 =>
      if graph.HasNode child then
        DependencyGraph.expand getDependencies fuel
          { graph with nodes := tightenNodes graph.nodes child, toCheck := rest } calls written
      else
        DependencyGraph.expand getDependencies fuel
          { graph with
            nodes := graph.nodes ++
              [{ dependency := child, adjacents := (getDependencies child).1 }],
            toCheck := rest ++ (getDependencies child).1 }
          (calls ++ [child]) (written ++ (getDependencies child).2)

/-- Modelled from the spec: `DependencyGraph::BuildGraph()`, section 4.3.  The result is the
built graph, the dependencies the resolver was invoked for (in order) and the text it wrote. -/
def DependencyGraph.BuildGraph (getDependencies : Dependency → DependencyList × String)
    (fuel : Nat) (graph : DependencyGraph) :
    Option (DependencyGraph × List Dependency × String) :=
  DependencyGraph.expand getDependencies fuel graph [] ""

/-- The node stored under a key. -/
def DependencyGraph.findNode (graph : DependencyGraph) (k : String) :
    Option DependencyGraphNode :=
  graph.nodes.find? (fun n => n.dependency.key == k)

/-- Keys of the dependencies recorded for the node with key `k`, in declared order. -/
def DependencyGraph.adjacentKeys (graph : DependencyGraph) (k : String) : List String :=
  match graph.findNode k with
  | some n => n.adjacents.map Dependency.key
  | none => []

/-- Every key the graph mentions: the root, the nodes and their adjacents. -/
def DependencyGraph.allKeys (graph : DependencyGraph) : List String :=
  graph.m_root.key ::
    (graph.nodes.map (fun n => n.dependency.key :: n.adjacents.map Dependency.key)).flatten

/-- Loop over the adjacents of a node: visit each in turn, stop at the first loop found. -/
def visitAdjacents (visit : List String → String → Option (Bool × List String)) :
    List String → List String → Option (Bool × List String)
  | order, [] => some (false, order)
  | order, adjacent :: rest =>
    match visit order adjacent with
    | none => none
    | some (true, order1) => some (true, order1)
    | some (false, order1) => visitAdjacents visit order1 rest

/-- Modelled from the spec: `hasLoopDFS(visited, node, dependencyGraph, order)`, declared in
`DependenciesFlow.h` and defined outside the sources.  Section 4.3: "depth-first traversal with
a three-state mark {white, gray, black} per node; encountering a gray node while traversing from
another gray node denotes a cycle; returns true on first cycle found".  Gray nodes are those in
`visited` (the path from the root), black nodes those in `order` (finished, in the order they
were finished), all others are white.  The recursion depth is bounded by `fuel`. -/
def hasLoopDFS (adjacents : String → List String) :
    Nat → List String → String → List String → Option (Bool × List String)
  | 0, _, _, _ => none
  | fuel + 1, visited, node, order =>
    if node ∈ visited then some (true, order)
    else if node ∈ order then some (false, order)
    else
      match visitAdjacents (fun o a => hasLoopDFS adjacents fuel (node :: visited) a o)
          order (adjacents node) with
      | none => none
      | some (true, order1) => some (true, order1)
      | some (false, order1) => some (false, order1 ++ [node])

/-- Modelled from the spec: `graphHasLoop(dependencyGraph, root, order)`, declared in
`DependenciesFlow.h`: the traversal from the root with no node marked; it yields the loop flag
and the finishing order.  The depth allowance exceeds the number of keys of the graph. -/
def graphHasLoop (graph : DependencyGraph) : Option (Bool × List String) :=
  hasLoopDFS graph.adjacentKeys (graph.allKeys.length + 1) [] graph.m_root.key []

/-- Modelled from the spec: `DependencyGraph::HasLoop()`. -/
def DependencyGraph.HasLoop (graph : DependencyGraph) : Option Bool :=
  (graphHasLoop graph).map Prod.fst

/-- Modelled from the spec: `DependencyGraph::GetInstallationOrder()`, section 4.3: "post-order
depth-first traversal from the root".  For a root that declares no dependency the order is
empty, section 8: "a root with an empty declared DependencyList yields an empty installation
order".  For every other root the nodes are listed as stored in the node table, in the order
the traversal finished them, which ends with the root: section 8 and the tests
(`order: B, C, StackOrderIsOk,`) list the root last, after its dependencies. -/
def DependencyGraph.GetInstallationOrder (graph : DependencyGraph) : Option (List Dependency) :=
  if (graph.adjacentKeys graph.m_root.key).isEmpty then some []
  else
    (graphHasLoop graph).map
      (fun r => r.2.filterMap (fun k => (graph.findNode k).map (fun n => n.dependency)))

/-! ## Execution context and pipeline -/

/-- Termination codes.  `AppInstallerErrors.h` is not part of the sources, so the codes are kept
symbolic. -/
inductive HRESULT where
  | S_OK
  | APPINSTALLER_CLI_ERROR_INTERNAL_ERROR
  | other (code : Nat)
  deriving DecidableEq

/-- What an entry of the `dependenciesInstallers` table holds; the fields are those of the
constructor call left in the resolver lambda (`DependenciesFlow.cpp`, line 194). -/
structure PackagesAndInstallers where
  Installer : ManifestInstaller
  PackageVersion : PackageVersion
  Version : String
  Channel : String
  deriving DecidableEq

/-- Value of the `PackageVersion` slot: the version and the source `GetSource()` yields. -/
structure PackageVersionData where
  version : PackageVersion
  GetSource : Source

/-- The `Execution::Context` object: the data slots the flow uses (`none` when never set), the
text written to the reporter stream, the termination state (`none` while running) and the
flags. -/
structure Context where
  Manifest : Option Manifest
  Installer : Option (Option ManifestInstaller)
  Dependencies : Option DependencyList
  DependencySource : Option Source
  PackageVersion : Option PackageVersionData
  Source : Option Source
  Reporter : String
  terminationHR : Option HRESULT
  flags : Nat

/-- Identity of a workflow task: a function or a name (`WorkflowTask`). -/
inductive WorkflowTask where
  | func (name : String)
  | named (name : String)
  deriving DecidableEq

/-- A registered override (`WorkflowTaskOverride`, `WorkFlow.cpp`). -/
structure WorkflowTaskOverride where
  Used : Bool
  Target : WorkflowTask
  Override : Context → Context

/-- The test context (`TestContext`, `WorkFlow.cpp`): a context with a table of overrides.  The
workflow functions take it for their `Execution::Context&` argument; a context of the product is
one whose table is empty, so that `ShouldExecuteWorkflowTask` always answers true. -/
structure TestContext extends Context where
  m_overrides : List WorkflowTaskOverride
  m_isClone : Bool

/-- Mark the first override that targets the task as used. -/
def markUsed : List WorkflowTaskOverride → WorkflowTask → List WorkflowTaskOverride
  | [], _ => []
  | wto :: rest, task =>
    if wto.Target = task then { wto with Used := true } :: rest
    else wto :: markUsed rest task

/-- The hook `TestContext::ShouldExecuteWorkflowTask` (`WorkFlow.cpp`, lines 460 to 474): the
answer together with the context after the hook ran. -/
def TestContext.ShouldExecuteWorkflowTask (context : TestContext) (task : WorkflowTask) :
    Bool × TestContext :=
  match context.m_overrides.find? (fun wto => wto.Target == task) with
  | none => (true, context)
  | some wto =>
    (false, { context with
                toContext := wto.Override context.toContext,
                m_overrides := markUsed context.m_overrides task })

/-- Whether the context is terminated (`IsTerminated()`). -/
def TestContext.IsTerminated (context : TestContext) : Bool := context.terminationHR.isSome

/-- Modelled from the spec: `Context::Terminate` (defined outside the sources), section 4.2:
"transitions Running → Terminated(code); idempotent — a second call does not overwrite the
recorded code". -/
def TestContext.Terminate (context : TestContext) (hr : HRESULT) : TestContext :=
  match context.terminationHR with
  | some _ => context
  | none => { context with terminationHR := some hr }

/-- Writing text to the reporter stream (`info << text`). -/
def TestContext.write (context : TestContext) (text : String) : TestContext :=
  { context with Reporter := context.Reporter ++ text }

/-- Modelled from the spec: the pipeline operator `context << task` (defined outside the
sources), section 4.2: a terminated context runs no further step, and the interception hook may
"substitute a replacement behavior and skip the original". -/
def TestContext.run (context : TestContext) (task : WorkflowTask)
    (body : TestContext → TestContext) : TestContext :=
  if context.IsTerminated then context
  else
    match context.ShouldExecuteWorkflowTask task with
    | (true, context1) => body context1
    | (false, context1) => context1

/-- The collaborators that `DependenciesFlow.cpp` calls and the sources do not define: the tasks
`OpenSource` and `OpenCompositeSource`, and `InstallPackages`, which reports whether all
installations succeeded. -/
structure Environment where
  OpenSource : TestContext → TestContext
  OpenCompositeSource : TestContext → TestContext
  InstallPackages : TestContext → List (Option PackagesAndInstallers) → Bool × TestContext

/-- The task `OpenDependencySource` (`DependenciesFlow.cpp`, lines 95 to 110). -/
def OpenDependencySource (env : Environment) (context : TestContext) : TestContext :=
  match context.PackageVersion with
  | some packageVersion => { context with DependencySource := some packageVersion.GetSource }
  | none =>
    (context.run (WorkflowTask.named "OpenSource") env.OpenSource).run
      (WorkflowTask.named "OpenCompositeSource") env.OpenCompositeSource

/-! ## The orchestrator -/

/-- The search request the resolver builds (lines 144 and 145): one case-insensitive filter on
the Id of the node. -/
def idSearchRequest (node : Dependency) : SearchRequest :=
  { Query := none, Inclusions := [],
    Filters := [{ Field := PackageMatchField.Id, MatchType := MatchType.CaseInsensitive,
                  Value := node.Id }] }

/-- The condition of line 158: the package has an installed version and that version satisfies
`node.IsVersionOk`. -/
def installedVersionOk (node : Dependency) (package : Package) : Bool :=
  match package.GetInstalledVersion with
  | some installed => node.IsVersionOk installed.GetManifest.Version
  | none => false

/-- The resolver lambda of `BuildPackageDependenciesGraph` (`DependenciesFlow.cpp`, lines 141 to
203): the dependency list it returns and the text it writes to the reporter. -/
def resolver (source : Source) (node : Dependency) : DependencyList × String :=
  match (source.Search (idSearchRequest node)).Matches with
  | [] => ([], "No matches")
  | first :: others =>
    if (first :: others).length > 1 then ([], "Too many matches")
    else
      let package := first.Package
      if installedVersionOk node package then ([], "")
      else
        match package.GetLatestAvailableVersion with
        | none => ([], "No package version found")
        | some latestVersion =>
          let manifest := latestVersion.GetManifest
          match manifest.Installers with
          | [] => ([], "No installers found")
          | installer :: _ =>
            if !node.IsVersionOk manifest.Version then
              ([], "Minimum required version not available")
            else (installer.Dependencies, "")

/-- What can stop the flow short of returning: a slot read before it was written, an empty
optional dereferenced, or the fuel of the model used up. -/
inductive Fault where
  | MissingData
  | EmptyOptional
  | OutOfFuel
  deriving DecidableEq

/-- The calls `BuildPackageDependenciesGraph` makes, as recorded in its trace. -/
inductive Call where
  | OpenDependencySource
  | BuildGraph
  | Resolver (node : Dependency)
  | HasLoop
  | LogWrite (text : String)
  | GetInstallationOrder
  | InstallPackages (installers : List (Option PackagesAndInstallers))
  deriving DecidableEq

/-- The debugging line of `BuildPackageDependenciesGraph` (lines 222 to 228): `order: ` and then
each node Id followed by a comma and a blank. -/
def reportOrder (installationOrder : List Dependency) : String :=
  installationOrder.foldl (fun text node => text ++ node.Id ++ ", ") "order: "

/-- The installers gathered by the loop at lines 223 to 227: for each node of the order,
`dependenciesInstallers.find(node.Id)->second`.  A lookup that finds no entry yields `none`:
it marks a read through the end iterator, which is undefined behaviour, so that what the model
has the flow do after such a read is nothing the code guarantees. -/
def collectInstallers (dependenciesInstallers : List (String × PackagesAndInstallers))
    (installationOrder : List Dependency) : List (Option PackagesAndInstallers) :=
  installationOrder.map (fun node => dependenciesInstallers.lookup node.Id)

/-- Where the first part of `BuildPackageDependenciesGraph` (lines 115 to 228) ends: it has
returned, or it is about to call `InstallPackages` on the installers gathered for the order. -/
inductive Prepared where
  | returned (context : TestContext) (calls : List Call)
  | install (context : TestContext) (installationOrder : List Dependency)
      (installers : List (Option PackagesAndInstallers)) (calls : List Call)

/-- Line 121 of `BuildPackageDependenciesGraph`: `context.Add<Dependencies>(rootDependencies)`. -/
def rootDependenciesAdded (context : TestContext) (rootDependencies : DependencyList) :
    TestContext :=
  { context with Dependencies := some rootDependencies }

/-- Line 130 of `BuildPackageDependenciesGraph`: `context << OpenDependencySource`. -/
def dependencySourceOpened (env : Environment) (context : TestContext) : TestContext :=
  context.run (WorkflowTask.func "OpenDependencySource") (OpenDependencySource env)

/-- The Dependency the flow makes of the root manifest (line 117). -/
def rootAsDependency (rootManifest : Manifest) : Dependency :=
  { Kind := DependencyType.Package, Id := rootManifest.Id,
    MinVersion := some rootManifest.Version }

/-- Lines 115 to 228 of `BuildPackageDependenciesGraph`: everything up to the call of
`InstallPackages`.  The table `dependenciesInstallers` is declared empty at line 138 and nothing
writes to it.  `AICLI_TERMINATE_CONTEXT` (a macro defined outside the sources) terminates the
context and returns.  The fuel is that of `BuildGraph`. -/
def prepareDependencies (env : Environment) (fuel : Nat) (context : TestContext) :
    Except Fault Prepared :=
  match context.Manifest with
  | none => Except.error Fault.MissingData
  | some rootManifest =>
    match context.Installer with
    | none => Except.error Fault.MissingData
    | some none => Except.error Fault.EmptyOptional
    | some (some installer) =>
      let rootDependencies := installer.Dependencies
      let context1 := rootDependenciesAdded context rootDependencies
      if rootDependencies.Empty then Except.ok (Prepared.returned context1 [])
      else
        let context2 := dependencySourceOpened env context1
        match context2.DependencySource with
        | none =>
          Except.ok (Prepared.returned
            ((context2.write "dependency source not found\n").Terminate
              HRESULT.APPINSTALLER_CLI_ERROR_INTERNAL_ERROR)
            [Call.OpenDependencySource])
        | some source =>
          let dependenciesInstallers : List (String × PackagesAndInstallers) := []
          match (DependencyGraph.create (rootAsDependency rootManifest) rootDependencies).BuildGraph
              (resolver source) fuel with
          | none => Except.error Fault.OutOfFuel
          | some (dependencyGraph, resolved, written) =>
            let context3 := context2.write written
            let calls := [Call.OpenDependencySource, Call.BuildGraph] ++
              resolved.map Call.Resolver ++ [Call.HasLoop]
            match dependencyGraph.HasLoop with
            | none => Except.error Fault.OutOfFuel
            | some true =>
              Except.ok (Prepared.returned (context3.write "has loop\n")
                (calls ++ [Call.LogWrite "Dependency loop found"]))
            | some false =>
              match dependencyGraph.GetInstallationOrder with
              | none => Except.error Fault.OutOfFuel
              | some installationOrder =>
                Except.ok (Prepared.install
                  (context3.write (reportOrder installationOrder ++ "\n"))
                  installationOrder
                  (collectInstallers dependenciesInstallers installationOrder)
                  (calls ++ [Call.GetInstallationOrder]))

/-- Lines 230 to 235 of `BuildPackageDependenciesGraph`: the call of `InstallPackages` and the
termination when it reports a failure.  `AICLI_TERMINATE_CONTEXT` (a macro defined outside the
sources) terminates the context and returns. -/
def installDependencies (env : Environment) (context : TestContext)
    (installers : List (Option PackagesAndInstallers)) : TestContext :=
  match env.InstallPackages context installers with
  | (true, context1) => context1
  | (false, context1) =>
    (context1.write "error installing dependencies\n").Terminate
      HRESULT.APPINSTALLER_CLI_ERROR_INTERNAL_ERROR

/-- The task `BuildPackageDependenciesGraph` (`DependenciesFlow.cpp`, lines 113 to 236): the
context it leaves and the calls it made, in order. -/
def BuildPackageDependenciesGraph (env : Environment) (fuel : Nat) (context : TestContext) :
    Except Fault (TestContext × List Call) :=
  match prepareDependencies env fuel context with
  | Except.error fault => Except.error fault
  | Except.ok (Prepared.returned context1 calls) => Except.ok (context1, calls)
  | Except.ok (Prepared.install context1 _ installers calls) =>
    Except.ok (installDependencies env context1 installers,
      calls ++ [Call.InstallPackages installers])

/-! ## The test source -/

/-- Modelled from the spec: `TestPackage::Make` (`TestSource.h` is not part of the sources): a
package with the given installed manifest, if any, whose latest available version is the first
of the available manifests.  Section 8 has `installed1` "already installed" on this basis. -/
def TestPackage.Make (installed : Option Manifest) (available : List Manifest) : Package :=
  { GetInstalledVersion := installed.map PackageVersion.mk,
    GetLatestAvailableVersion := available.head?.map PackageVersion.mk }

/-- A package dependency without a minimum version. -/
def packageDependency (id : String) : Dependency :=
  { Kind := DependencyType.Package, Id := id, MinVersion := none }

/-- The search of `DependenciesTestSource` (`WorkFlow.cpp`, lines 241 to 403).  `yaml` is the
parsed test file `Installer_Exe_Dependencies.yaml`, which is not part of the sources; its first
installer is the one the search rewrites. -/
def DependenciesTestSource.Search (yaml : Manifest) (request : SearchRequest) : SearchResult :=
  let input : String :=
    match request.Query with
    | some query => query.Value
    | none =>
      match request.Inclusions with
      | inclusion :: _ => inclusion.Value
      | [] =>
        match request.Filters with
        | filter :: _ => filter.Value
        | [] => ""
  let d0 : DependencyList := DependencyList.Clear []
  let d1 := if input = "C" then d0.Add (packageDependency "B") else d0
  let d2 := if input = "D" then d1.Add (packageDependency "E") else d1
  let d3 := if input = "E" then d2.Add (packageDependency "D") else d2
  let d4 := if input = "F" then d3.Add (packageDependency "B") else d3
  let d5 := if input = "G" then d4.Add (packageDependency "C") else d4
  let d6 := if input = "H" then (d5.Add (packageDependency "G")).Add (packageDependency "B") else d5
  let installed : Bool := input = "installed1"
  let d7 := if input = "installed1" then d6.Add (packageDependency "installed1Dep") else d6
  let id1 := if input = "minVersion1.0" then "minVersion" else input
  let version1 := if input = "minVersion1.0" then "1.0" else yaml.Version
  let id2 := if input = "minVersion1.5" then "minVersion" else id1
  let version2 := if input = "minVersion1.5" then "1.5" else version1
  let d8 := if input = "requires1.5" then
      d7.Add { Kind := DependencyType.Package, Id := "minVersion", MinVersion := some "1.5" }
    else d7
  let d9 := if input = "StackOrderIsOk" then d8.Add (packageDependency "C") else d8
  let d10 := if input = "NeedsToInstallBFirst" then
      (d9.Add (packageDependency "B")).Add (packageDependency "C")
    else d9
  let d11 := if input = "EasyToSeeLoop" then d10.Add (packageDependency "D") else d10
  let d12 := if input = "DependencyAlreadyInStackButNoLoop" then
      (d11.Add (packageDependency "C")).Add (packageDependency "F")
    else d11
  let d13 := if input = "PathBetweenBranchesButNoLoop" then
      (d12.Add (packageDependency "C")).Add (packageDependency "H")
    else d12
  let d14 := if input = "DependenciesInstalled" then d13.Add (packageDependency "installed1")
    else d13
  let d15 := if input = "DependenciesValidMinVersions" then
      d14.Add { Kind := DependencyType.Package, Id := "minVersion", MinVersion := some "1.0" }
    else d14
  let d16 := if input = "DependenciesValidMinVersionsMultiple" then
      (d15.Add { Kind := DependencyType.Package, Id := "minVersion", MinVersion := some "1.0" }).Add
        (packageDependency "requires1.5")
    else d15
  let manifest : Manifest :=
    { yaml with
      Id := id2, Moniker := input, Version := version2,
      Installers := yaml.Installers.modifyHead
        (fun installer => { installer with ProductId := input, Dependencies := d16 }) }
  let criteria : PackageMatchFilter :=
    { Field := PackageMatchField.Id, MatchType := MatchType.CaseInsensitive, Value := manifest.Id }
  if installed then
    { Matches := [{ Package := TestPackage.Make (some manifest) [manifest],
                    MatchCriteria := criteria }] }
  else
    { Matches := [{ Package := TestPackage.Make none [manifest], MatchCriteria := criteria }] }

/-- The source object `DependenciesTestSource`. -/
def DependenciesTestSource (yaml : Manifest) : Source :=
  { Search := DependenciesTestSource.Search yaml }

/-- The constructor `TestContext(out, in)` (`WorkFlow.cpp`, lines 426 to 440): no slot set,
running, one override for `RemoveInstaller`, marked used. -/
def TestContext.create : TestContext :=
  { Manifest := none, Installer := none, Dependencies := none, DependencySource := none,
    PackageVersion := none, Source := none, Reporter := "", terminationHR := none, flags := 0,
    m_overrides := [{ Used := true, Target := WorkflowTask.func "RemoveInstaller",
                      Override := fun context => context }],
    m_isClone := false }

/-- The method `TestContext::Override` (`WorkFlow.cpp`, lines 476 to 479). -/
def TestContext.Override (context : TestContext) (wto : WorkflowTaskOverride) : TestContext :=
  { context with m_overrides := context.m_overrides ++ [wto] }

/-- The helper `OverrideOpenSourceForDependencies` (`WorkFlow.cpp`, lines 529 to 540). -/
def OverrideOpenSourceForDependencies (yaml : Manifest) (context : TestContext) : TestContext :=
  (context.Override
    { Used := false, Target := WorkflowTask.named "OpenSource",
      Override := fun c => { c with Source := some (DependenciesTestSource yaml) } }).Override
    { Used := false, Target := WorkflowTask.func "OpenDependencySource",
      Override := fun c => { c with DependencySource := some (DependenciesTestSource yaml) } }

/-- A test file with one installer, standing for `Installer_Exe_Dependencies.yaml`. -/
def testYaml : Manifest :=
  { Id := "AppInstallerCliTest.TestExeInstaller.Dependencies", Moniker := "AICLITestExe",
    Version := "1.0.0.0", Channel := "",
    Installers := [{ ProductId := "", Dependencies := [] }] }

/-- The context in which an install of `query` from the test source reaches
`BuildPackageDependenciesGraph`: the test context of the dependency-graph tests, with the
manifest and first installer of the package found for the query in their slots. -/
def dependencyTestContext (query : String) : TestContext :=
  let found := (DependenciesTestSource.Search testYaml
    { Query := some { Field := PackageMatchField.Id, MatchType := MatchType.CaseInsensitive,
                      Value := query },
      Inclusions := [], Filters := [] }).Matches.head?
  let latest := found.bind (fun m => m.Package.GetLatestAvailableVersion)
  { OverrideOpenSourceForDependencies testYaml TestContext.create with
    Manifest := latest.map (fun v => v.GetManifest),
    Installer := latest.map (fun v => v.GetManifest.Installers.head?),
    PackageVersion := latest.map (fun v => { version := v, GetSource := DependenciesTestSource testYaml }) }

/-! ## Notions used to state the properties -/

/-- Edge relation of an adjacency function: `b` is listed among the adjacents of `a`. -/
def Edge (adjacents : String → List String) (a b : String) : Prop := b ∈ adjacents a

/-- A list, read from its last entry backwards, in which every entry is new and has all its
adjacents among the entries before it. -/
def TopoRev (adjacents : String → List String) : List String → Prop
  | [] => True
  | b :: l => b ∉ l ∧ (∀ c ∈ adjacents b, c ∈ l) ∧ TopoRev adjacents l

/-- Every entry of the list is new and comes after all of its adjacents. -/
def Topo (adjacents : String → List String) (o : List String) : Prop :=
  TopoRev adjacents o.reverse

/-- What a visit that found no loop guarantees: a valid finished list that contains the visited
node, keeps the entries it had, and has gained none of the nodes on the path. -/
def GoodVisit (adjacents : String → List String) (visited : List String) (o o1 : List String)
    (c : String) : Prop :=
  Topo adjacents o →
    Topo adjacents o1 ∧ c ∈ o1 ∧ (∀ x ∈ o, x ∈ o1) ∧ ∀ x ∈ visited, x ∈ o1 → x ∈ o

/-- List the dependencies of a node one after the other, in declared order. -/
def listAll (list : List String → String → Option (List String)) :
    List String → List String → Option (List String)
  | listed, [] => some listed
  | listed, d :: rest =>
    match list listed d with
    | none => none
    | some listed1 => listAll list listed1 rest

/-- The depth-first post-order as the order claim words it: a node already listed is skipped;
otherwise its dependencies are listed first, in their declared order, and then the node. -/
def postOrder (adjacents : String → List String) : Nat → String → List String →
    Option (List String)
  | 0, _, _ => none
  | fuel + 1, node, listed =>
    if node ∈ listed then some listed
    else
      match listAll (fun l d => postOrder adjacents fuel d l) listed (adjacents node) with
      | none => none
      | some listed1 => some (listed1 ++ [node])

/-- Keys of the node table. -/
def DependencyGraph.nodeKeys (graph : DependencyGraph) : List String :=
  graph.nodes.map (fun n => n.dependency.key)

/-- The invariant of the frontier loop of `BuildGraph`, for a graph seeded with
`rootDependencies` and the resolver invocations `calls` made so far. -/
structure BuildInv (getDependencies : Dependency → DependencyList × String)
    (rootDependencies : DependencyList) (graph : DependencyGraph) (calls : List Dependency) :
    Prop where
  nodup : graph.nodeKeys.Nodup
  rootFirst : graph.nodes.head?.map (fun n => n.dependency.Id) = some graph.m_root.Id
  closed : ∀ n ∈ graph.nodes, ∀ c ∈ n.adjacents, c.key ∈ graph.nodeKeys ∨ c ∈ graph.toCheck
  reach : ∀ n ∈ graph.nodes,
    Relation.ReflTransGen (Edge graph.adjacentKeys) graph.m_root.key n.dependency.key
  pending : ∀ f ∈ graph.toCheck, ∃ p ∈ graph.nodes, f ∈ p.adjacents
  resolved : ∀ d ∈ calls, ∃ n ∈ graph.nodes,
    n.dependency.key = d.key ∧ n.adjacents = (getDependencies d).1
  discovered : ∀ d ∈ calls,
    d ∈ rootDependencies ∨ ∃ p ∈ calls, d ∈ (getDependencies p).1
  pendingDiscovered : ∀ f ∈ graph.toCheck,
    f ∈ rootDependencies ∨ ∃ p ∈ calls, f ∈ (getDependencies p).1
  rootAdjacents : ∃ n ∈ graph.nodes,
    n.dependency.key = graph.m_root.key ∧ n.adjacents = rootDependencies

/-- The context a prepared flow holds. -/
def Prepared.context : Prepared → TestContext
  | Prepared.returned context _ => context
  | Prepared.install context _ _ _ => context

/-- The calls a prepared flow has made. -/
def Prepared.calls : Prepared → List Call
  | Prepared.returned _ calls => calls
  | Prepared.install _ _ _ calls => calls

/-- The text on the reporter stream when the first part of the flow ends. -/
def reportedText (r : Except Fault Prepared) : Option String :=
  match r with
  | Except.ok p => some p.context.Reporter
  | Except.error _ => none

/-- The calls made when the first part of the flow ends. -/
def callsMade (r : Except Fault Prepared) : Option (List Call) :=
  match r with
  | Except.ok p => some p.calls
  | Except.error _ => none

/-- The Ids of the installation order with which the flow reaches `InstallPackages`. -/
def plannedOrder (r : Except Fault Prepared) : Option (List String) :=
  match r with
  | Except.ok (Prepared.install _ installationOrder _ _) =>
    some (installationOrder.map (fun d => d.Id))
  | _ => none

/-- Whether the characters of `pattern` open the sequence `text`. -/
def startsWith : List Char → List Char → Bool
  | [], _ => true
  | _ :: _, [] => false
  | p :: ps, t :: ts => p == t && startsWith ps ts

/-- Whether `pattern` occurs in `text` (`std::string::find` succeeds). -/
def occursIn (pattern text : String) : Bool :=
  text.data.tails.any (startsWith pattern.data)

/-- The graph `BuildGraph` makes for an install of `query` from the test source. -/
def dependencyTestGraph (fuel : Nat) (query : String) : Option DependencyGraph :=
  match (dependencyTestContext query).Manifest, (dependencyTestContext query).Installer with
  | some rootManifest, some (some installer) =>
    ((DependencyGraph.create (rootAsDependency rootManifest) installer.Dependencies).BuildGraph
      (resolver (DependenciesTestSource testYaml)) fuel).map (fun r => r.1)
  | _, _ => none

/-- The manifest the test source yields for `EasyToSeeLoop`. -/
def easyToSeeLoopManifest : Manifest :=
  { Id := "EasyToSeeLoop", Moniker := "EasyToSeeLoop", Version := "1.0.0.0", Channel := "",
    Installers := [{ ProductId := "EasyToSeeLoop", Dependencies := [packageDependency "D"] }] }

/-- The graph of `EasyToSeeLoop`: the root requires `D`, `D` requires `E`, `E` requires `D`. -/
def easyToSeeLoopGraph : DependencyGraph :=
  { m_root := rootAsDependency easyToSeeLoopManifest,
    nodes := [{ dependency := rootAsDependency easyToSeeLoopManifest,
                adjacents := [packageDependency "D"] },
              { dependency := packageDependency "D", adjacents := [packageDependency "E"] },
              { dependency := packageDependency "E", adjacents := [packageDependency "D"] }],
    toCheck := [] }

/-- The manifest the test source yields for `PathBetweenBranchesButNoLoop`. -/
def pathBetweenBranchesManifest : Manifest :=
  { Id := "PathBetweenBranchesButNoLoop", Moniker := "PathBetweenBranchesButNoLoop",
    Version := "1.0.0.0", Channel := "",
    Installers := [{ ProductId := "PathBetweenBranchesButNoLoop",
                     Dependencies := [packageDependency "C", packageDependency "H"] }] }

/-- The graph of `PathBetweenBranchesButNoLoop`: the root requires `C` and `H`, `C` requires
`B`, `H` requires `G` and `B`, `G` requires `C`. -/
def pathBetweenBranchesGraph : DependencyGraph :=
  { m_root := rootAsDependency pathBetweenBranchesManifest,
    nodes := [{ dependency := rootAsDependency pathBetweenBranchesManifest,
                adjacents := [packageDependency "C", packageDependency "H"] },
              { dependency := packageDependency "C", adjacents := [packageDependency "B"] },
              { dependency := packageDependency "H",
                adjacents := [packageDependency "G", packageDependency "B"] },
              { dependency := packageDependency "B", adjacents := [] },
              { dependency := packageDependency "G", adjacents := [packageDependency "C"] }],
    toCheck := [] }

/-- The manifest the test source yields for `DependencyAlreadyInStackButNoLoop`. -/
def alreadyInStackManifest : Manifest :=
  { Id := "DependencyAlreadyInStackButNoLoop", Moniker := "DependencyAlreadyInStackButNoLoop",
    Version := "1.0.0.0", Channel := "",
    Installers := [{ ProductId := "DependencyAlreadyInStackButNoLoop",
                     Dependencies := [packageDependency "C", packageDependency "F"] }] }

/-- The graph of `DependencyAlreadyInStackButNoLoop`: the root requires `C` and `F`, and both
require `B`. -/
def alreadyInStackGraph : DependencyGraph :=
  { m_root := rootAsDependency alreadyInStackManifest,
    nodes := [{ dependency := rootAsDependency alreadyInStackManifest,
                adjacents := [packageDependency "C", packageDependency "F"] },
              { dependency := packageDependency "C", adjacents := [packageDependency "B"] },
              { dependency := packageDependency "F", adjacents := [packageDependency "B"] },
              { dependency := packageDependency "B", adjacents := [] }],
    toCheck := [] }

/-- The manifest the test source yields for `DependenciesInstalled`. -/
def dependenciesInstalledManifest : Manifest :=
  { Id := "DependenciesInstalled", Moniker := "DependenciesInstalled", Version := "1.0.0.0",
    Channel := "",
    Installers := [{ ProductId := "DependenciesInstalled",
                     Dependencies := [packageDependency "installed1"] }] }

/-- The graph of `DependenciesInstalled`: the root requires `installed1`, which is kept without
adjacents. -/
def dependenciesInstalledGraph : DependencyGraph :=
  { m_root := rootAsDependency dependenciesInstalledManifest,
    nodes := [{ dependency := rootAsDependency dependenciesInstalledManifest,
                adjacents := [packageDependency "installed1"] },
              { dependency := packageDependency "installed1", adjacents := [] }],
    toCheck := [] }

/-- A source that finds nothing. -/
def noMatchSource : Source := { Search := fun _ => { Matches := [] } }

/-- A source that finds the same two packages for every request. -/
def twoMatchSource : Source :=
  { Search := fun request =>
      { Matches := (DependenciesTestSource.Search testYaml request).Matches ++
          (DependenciesTestSource.Search testYaml request).Matches } }

/-- A concrete environment: the source tasks do nothing and `InstallPackages` reports the given
outcome, leaving the context as it is. -/
def plainEnvironment (allSucceeded : Bool) : Environment :=
  { OpenSource := fun context => context, OpenCompositeSource := fun context => context,
    InstallPackages := fun context _ => (allSucceeded, context) }


/-! ## The feature-gated tasks -/

/-- Modelled from the spec: `DependencyList::Add(DependencyList)`, section 4.1: "merge", entry by
entry, of another list into this one. -/
def DependencyList.AddList (list other : DependencyList) : DependencyList :=
  other.foldl DependencyList.Add list

/-- The localized titles `ReportDependencies` prints before each kind (`Resource::String`; the
resource table is not part of the sources). -/
structure DependencyTitles where
  WindowsFeaturesDependencies : String
  WindowsLibrariesDependencies : String
  PackageDependencies : String
  ExternalDependencies : String

/-- The line `ReportDependencies` prints for a dependency that is not a package (lines 31, 37
and 54). -/
def plainDependencyLine (dependency : Dependency) : String :=
  "      " ++ dependency.Id ++ "\n"

/-- The line `ReportDependencies` prints for a package dependency (lines 45 to 47). -/
def packageDependencyLine (dependency : Dependency) : String :=
  match dependency.MinVersion with
  | some minVersion => "      " ++ dependency.Id ++ " [>= " ++ minVersion ++ "]" ++ "\n"
  | none => "      " ++ dependency.Id ++ "\n"

/-- One section of `ReportDependencies`: when the list has a dependency of the kind, the title
line and then one line for each dependency of that kind. -/
def writeDependencySection (context : TestContext) (dependencies : DependencyList)
    (kind : DependencyType) (title : String) (line : Dependency → String) : TestContext :=
  if dependencies.HasAnyOf kind then
    (dependencies.ApplyToType kind).foldl (fun c dependency => c.write (line dependency))
      (context.write ("  - " ++ title ++ "\n"))
  else context

/-- The task `ReportDependencies` (`DependenciesFlow.cpp`, lines 15 to 57).  `enabled` is the
answer of `ExperimentalFeature::IsEnabled(Feature::Dependencies)`, `message` the text of
`m_messageId`. -/
def ReportDependencies (enabled : Bool) (titles : DependencyTitles) (message : String)
    (context : TestContext) : Except Fault TestContext :=
  if !enabled then Except.ok context
  else
    match context.Dependencies with
    | none => Except.error Fault.MissingData
    | some dependencies =>
      if dependencies.HasAny then
        let context1 := context.write (message ++ "\n")
        let context2 := writeDependencySection context1 dependencies
          DependencyType.WindowsFeature titles.WindowsFeaturesDependencies plainDependencyLine
        let context3 := writeDependencySection context2 dependencies
          DependencyType.WindowsLibrary titles.WindowsLibrariesDependencies plainDependencyLine
        let context4 := writeDependencySection context3 dependencies
          DependencyType.Package titles.PackageDependencies packageDependencyLine
        Except.ok (writeDependencySection context4 dependencies
          DependencyType.External titles.ExternalDependencies plainDependencyLine)
      else Except.ok context

/-- The task `GetInstallersDependenciesFromManifest` (lines 59 to 72). -/
def GetInstallersDependenciesFromManifest (enabled : Bool) (context : TestContext) :
    Except Fault TestContext :=
  if enabled then
    match context.Manifest with
    | none => Except.error Fault.MissingData
    | some manifest =>
      Except.ok { context with
        Dependencies := some (manifest.Installers.foldl
          (fun allDependencies installer => allDependencies.AddList installer.Dependencies) []) }
  else Except.ok context

/-- The task `GetDependenciesFromInstaller` (lines 74 to 84). -/
def GetDependenciesFromInstaller (enabled : Bool) (context : TestContext) :
    Except Fault TestContext :=
  if enabled then
    match context.Installer with
    | none => Except.error Fault.MissingData
    | some none => Except.ok context
    | some (some installer) =>
      Except.ok { context with Dependencies := some installer.Dependencies }
  else Except.ok context

/-- The task `GetDependenciesInfoForUninstall` (lines 86 to 93). -/
def GetDependenciesInfoForUninstall (enabled : Bool) (context : TestContext) :
    Except Fault TestContext :=
  if enabled then Except.ok { context with Dependencies := some [] }
  else Except.ok context

/-! ## Chains of steps -/

/-- A step of a chain: the task and what it does when it is executed. -/
structure WorkflowStep where
  task : WorkflowTask
  body : TestContext → TestContext

/-- Modelled from the spec: a chained sequence `context << step1 << step2 ...` (the operator is
defined outside the sources), section 4.2.  The result is the final context and the tasks for
which the operator went past the termination check, that is, whose body or override ran. -/
def runChain : List WorkflowStep → TestContext → TestContext × List WorkflowTask
  | [], context => (context, [])
  | step :: rest, context =>
    ((runChain rest (context.run step.task step.body)).1,
      (if context.IsTerminated then [] else [step.task]) ++
        (runChain rest (context.run step.task step.body)).2)

/-- A step that terminates the context with the internal error. -/
def failingStep (name : String) : WorkflowStep :=
  { task := WorkflowTask.named name,
    body := fun context => context.Terminate HRESULT.APPINSTALLER_CLI_ERROR_INTERNAL_ERROR }

/-- A step that writes its name to the reporter. -/
def writingStep (name : String) : WorkflowStep :=
  { task := WorkflowTask.named name, body := fun context => context.write name }

/-! ## A test context and its clone -/

/-- Modelled from the spec: the `Context(out, in)` base constructor (defined outside the
sources), section 4.2: a new context starts "with empty data slots and Running state".  The
reporter writes to `out`. -/
def Context.create (out : String) : Context :=
  { Manifest := none, Installer := none, Dependencies := none, DependencySource := none,
    PackageVersion := none, Source := none, Reporter := out, terminationHR := none, flags := 0 }

/-- A `TestContext` object as `WorkFlow.cpp` declares it (lines 424 to 493): its `Context`
part, the pointer `m_overrides` to a vector of overrides, and `m_isClone`. -/
structure TestContextObject where
  base : Context
  m_overrides : Nat
  m_isClone : Bool

/-- The memory the test contexts live in: the `TestContext` objects, a reference to one being
its index in `objects`, and the vectors of overrides the `shared_ptr`s point to, a pointer
being an index in `tables`. -/
structure TestMemory where
  objects : List TestContextObject
  tables : List (List WorkflowTaskOverride)

/-- The object behind a reference. -/
def TestMemory.object (memory : TestMemory) (reference : Nat) : TestContextObject :=
  memory.objects.getD reference
    { base := Context.create "", m_overrides := 0, m_isClone := false }

/-- The vector behind the pointer of an object (`*m_overrides`). -/
def TestMemory.overrides (memory : TestMemory) (reference : Nat) : List WorkflowTaskOverride :=
  memory.tables.getD (memory.object reference).m_overrides []

/-- The test context a reference stands for: the `Context` part of the object together with
the vector its pointer leads to. -/
def TestMemory.context (memory : TestMemory) (reference : Nat) : TestContext :=
  { (memory.object reference).base with
    m_overrides := memory.overrides reference,
    m_isClone := (memory.object reference).m_isClone }

/-- The constructor `TestContext(out, in)` (`WorkFlow.cpp`, lines 426 to 440) in memory: a new
vector is made by `make_shared`, the override for `RemoveInstaller`, marked used, is put into
it, and the new object points to it.  The result is the memory and the reference of the new
object. -/
def TestMemory.create (memory : TestMemory) (out : String) : TestMemory × Nat :=
  ({ objects := memory.objects ++
       [{ base := Context.create out, m_overrides := memory.tables.length, m_isClone := false }],
     tables := memory.tables ++
       [[{ Used := true, Target := WorkflowTask.func "RemoveInstaller",
           Override := fun context => context }]] },
   memory.objects.length)

/-- The method `TestContext::Override` (lines 476 to 479) in memory:
`m_overrides->emplace_back(wto)` appends to the vector the pointer of the object leads to. -/
def TestMemory.Override (memory : TestMemory) (reference : Nat) (wto : WorkflowTaskOverride) :
    TestMemory :=
  { memory with
    tables := memory.tables.set (memory.object reference).m_overrides
      (memory.overrides reference ++ [wto]) }

/-- The hook `TestContext::ShouldExecuteWorkflowTask` (lines 460 to 474) in memory: `find_if`
runs over the vector the pointer leads to, `itr->Used = true` writes into that vector, and the
override runs on this object. -/
def TestMemory.ShouldExecuteWorkflowTask (memory : TestMemory) (reference : Nat)
    (task : WorkflowTask) : Bool × TestMemory :=
  match (memory.overrides reference).find? (fun wto => wto.Target == task) with
  | none => (true, memory)
  | some wto =>
    (false,
      { objects := memory.objects.set reference
          { memory.object reference with base := wto.Override (memory.object reference).base },
        tables := memory.tables.set (memory.object reference).m_overrides
          (markUsed (memory.overrides reference) task) })

/-- The edges `BuildGraph` discovers, in the order it takes them from the frontier: the
dependencies of the root, then those the resolver returned for each dependency it was invoked
for, in turn. -/
def discoveredEdges (getDependencies : Dependency → DependencyList × String)
    (rootDependencies : DependencyList) (calls : List Dependency) : List Dependency :=
  rootDependencies ++ (calls.map (fun c => (getDependencies c).1)).flatten

/-- The minimum versions that the edges towards the node with key `k` demand, in order. -/
def demandsOn (edges : List Dependency) (k : String) : List (Option String) :=
  (edges.filter (fun d => d.key == k)).map (fun d => d.MinVersion)

/-- Tightening a minimum version by successive demands. -/
def tightenAll (initial : Option String) (demands : List (Option String)) : Option String :=
  demands.foldl stricterMinVersion initial

/-- The minimum version a node starts from: that of the root for the root's node, none for a
node that a discovered edge inserts. -/
def initialMinVersion (graph : DependencyGraph) (k : String) : Option String :=
  if k = graph.m_root.key then graph.m_root.MinVersion else none

/-- The second invariant of the frontier loop of `BuildGraph`: the resolver invocations have
distinct keys, all in the node table, and every node carries the tightening of the demands of
the edges processed so far. -/
structure DemandInv (getDependencies : Dependency → DependencyList × String)
    (rootDependencies : DependencyList) (graph : DependencyGraph) (calls : List Dependency)
    (processed : List Dependency) : Prop where
  callKeysNodup : (calls.map Dependency.key).Nodup
  callKeys : ∀ d ∈ calls, d.key ∈ graph.nodeKeys
  edges : processed ++ graph.toCheck = discoveredEdges getDependencies rootDependencies calls
  processedKeys : ∀ d ∈ processed, d.key ∈ graph.nodeKeys
  inserted : ∀ n ∈ graph.nodes,
    n.dependency.key = graph.m_root.key ∨ ∃ d ∈ processed, d.key = n.dependency.key
  tightened : ∀ n ∈ graph.nodes,
    n.dependency.MinVersion
      = tightenAll (initialMinVersion graph n.dependency.key)
          (demandsOn processed n.dependency.key)

/-- The installation order with which the flow reaches `InstallPackages`, each node Id next to
the entry handed over for it. -/
def handedOver (r : Except Fault Prepared) :
    Option (List (String × Option PackagesAndInstallers)) :=
  match r with
  | Except.ok (Prepared.install _ installationOrder installers _) =>
    some ((installationOrder.map (fun d => d.Id)).zip installers)
  | _ => none

/-- The manifest the test source yields for `StackOrderIsOk`. -/
def stackOrderIsOkManifest : Manifest :=
  { Id := "StackOrderIsOk", Moniker := "StackOrderIsOk", Version := "1.0.0.0", Channel := "",
    Installers := [{ ProductId := "StackOrderIsOk", Dependencies := [packageDependency "C"] }] }

/-- The graph of `StackOrderIsOk`: the root requires `C`, which requires `B`. -/
def stackOrderIsOkGraph : DependencyGraph :=
  { m_root := rootAsDependency stackOrderIsOkManifest,
    nodes := [{ dependency := rootAsDependency stackOrderIsOkManifest,
                adjacents := [packageDependency "C"] },
              { dependency := packageDependency "C", adjacents := [packageDependency "B"] },
              { dependency := packageDependency "B", adjacents := [] }],
    toCheck := [] }

/-- A package dependency on `minVersion` with a minimum version. -/
def minVersionDependency (minVersion : String) : Dependency :=
  { Kind := DependencyType.Package, Id := "minVersion", MinVersion := some minVersion }

/-- The manifest the test source yields for `DependenciesValidMinVersionsMultiple`. -/
def minVersionsMultipleManifest : Manifest :=
  { Id := "DependenciesValidMinVersionsMultiple",
    Moniker := "DependenciesValidMinVersionsMultiple", Version := "1.0.0.0", Channel := "",
    Installers := [{ ProductId := "DependenciesValidMinVersionsMultiple",
                     Dependencies := [minVersionDependency "1.0",
                                      packageDependency "requires1.5"] }] }

/-- The graph of `DependenciesValidMinVersionsMultiple`: the root requires `minVersion` from
1.0 on and `requires1.5`, which requires `minVersion` from 1.5 on; the node `minVersion`
carries 1.5. -/
def minVersionsMultipleGraph : DependencyGraph :=
  { m_root := rootAsDependency minVersionsMultipleManifest,
    nodes := [{ dependency := rootAsDependency minVersionsMultipleManifest,
                adjacents := [minVersionDependency "1.0", packageDependency "requires1.5"] },
              { dependency := minVersionDependency "1.5", adjacents := [] },
              { dependency := packageDependency "requires1.5",
                adjacents := [minVersionDependency "1.5"] }],
    toCheck := [] }

/-- The graph built when the root demands `minVersion` from 1.5 on first and from 1.0 on
second: the node still carries 1.5. -/
def minVersionsReversedGraph : DependencyGraph :=
  { m_root := rootAsDependency minVersionsMultipleManifest,
    nodes := [{ dependency := rootAsDependency minVersionsMultipleManifest,
                adjacents := [minVersionDependency "1.5", minVersionDependency "1.0"] },
              { dependency := minVersionDependency "1.5", adjacents := [] }],
    toCheck := [] }

/-! ## The report, the table of installers and further test data -/

/-- Lines written one after the other. -/
def joinLines : List String → String
  | [] => ""
  | line :: rest => line ++ joinLines rest

/-- The text of one section of the report: nothing when the list has no dependency of the kind,
otherwise the title line followed by one line for each dependency of that kind, in the order of
the list. -/
def sectionText (dependencies : DependencyList) (kind : DependencyType) (title : String)
    (line : Dependency → String) : String :=
  if dependencies.HasAnyOf kind then
    "  - " ++ title ++ "\n" ++ joinLines ((dependencies.filter (fun d => d.Kind = kind)).map line)
  else ""

/-- What follows the Id on a reported line, as the report claim words it: the minimum version in
brackets for a package dependency that has one, nothing in every other case. -/
def minVersionSuffix (dependency : Dependency) : String :=
  if dependency.Kind = DependencyType.Package then
    match dependency.MinVersion with
    | some minVersion => " [>= " ++ minVersion ++ "]"
    | none => ""
  else ""

/-- The line of a dependency as the report claim words it: the Id, then the suffix. -/
def reportedLine (dependency : Dependency) : String :=
  "      " ++ dependency.Id ++ minVersionSuffix dependency ++ "\n"

/-- The whole report as the report claim words it: the message line, then the sections of the
four kinds in the fixed order, every line made by `reportedLine`. -/
def reportText (titles : DependencyTitles) (message : String) (dependencies : DependencyList) :
    String :=
  message ++ "\n" ++
    sectionText dependencies DependencyType.WindowsFeature titles.WindowsFeaturesDependencies
      reportedLine ++
    sectionText dependencies DependencyType.WindowsLibrary titles.WindowsLibrariesDependencies
      reportedLine ++
    sectionText dependencies DependencyType.Package titles.PackageDependencies reportedLine ++
    sectionText dependencies DependencyType.External titles.ExternalDependencies reportedLine

/-- Titles standing for the localized resource strings. -/
def sampleTitles : DependencyTitles :=
  { WindowsFeaturesDependencies := "Windows Features",
    WindowsLibrariesDependencies := "Windows Libraries",
    PackageDependencies := "Package Dependencies",
    ExternalDependencies := "External Dependencies" }

/-- A list with dependencies of all four kinds, under the Ids the validate test looks for.  The
first package dependency has the minimum version 1.0 and the second has none; the external
dependency carries a minimum version as well. -/
def allDependencyTypes : DependencyList :=
  [{ Kind := DependencyType.External, Id := "ExternalDep", MinVersion := some "3.0" },
   { Kind := DependencyType.Package, Id := "Package.Dep1-x64", MinVersion := some "1.0" },
   { Kind := DependencyType.WindowsLibrary, Id := "WindowsLibrariesDep", MinVersion := none },
   { Kind := DependencyType.Package, Id := "Package.Dep2-x64", MinVersion := none },
   { Kind := DependencyType.WindowsFeature, Id := "WindowsFeaturesDep", MinVersion := none }]

/-- A test context whose `Dependencies` slot holds the given list. -/
def reportTestContext (dependencies : DependencyList) : TestContext :=
  { TestContext.create with Dependencies := some dependencies }

/-- The text on the reporter stream after a task that may fail. -/
def reporterAfter (r : Except Fault TestContext) : Option String :=
  match r with
  | Except.ok context => some context.Reporter
  | Except.error _ => none

/-- A manifest of the package `Library` with one installer. -/
def libraryManifest (version : String) (dependencies : DependencyList) : Manifest :=
  { Id := "Library", Moniker := "Library", Version := version, Channel := "",
    Installers := [{ ProductId := "Library", Dependencies := dependencies }] }

/-- A package installed at version 1.0 whose latest available version 2.0 requires `B`. -/
def outdatedPackage : Package :=
  { GetInstalledVersion := some { GetManifest := libraryManifest "1.0" [] },
    GetLatestAvailableVersion :=
      some { GetManifest := libraryManifest "2.0" [packageDependency "B"] } }

/-- The same package when it is not installed. -/
def availablePackage : Package :=
  { GetInstalledVersion := none,
    GetLatestAvailableVersion :=
      some { GetManifest := libraryManifest "2.0" [packageDependency "B"] } }

/-- A source that answers every search with the one given package. -/
def packageSource (package : Package) : Source :=
  { Search := fun _ =>
      { Matches := [{ Package := package,
                      MatchCriteria := { Field := PackageMatchField.Id,
                                         MatchType := MatchType.CaseInsensitive,
                                         Value := "Library" } }] } }

/-- A dependency on `Library` from version 1.5 on. -/
def libraryDependency : Dependency :=
  { Kind := DependencyType.Package, Id := "Library", MinVersion := some "1.5" }

/-- The context of an install of `StackOrderIsOk` from a manifest file: the manifest and its
installer are set, no package version is, and nothing overrides the source tasks. -/
def manifestInstallContext : TestContext :=
  { TestContext.create with
    Manifest := some stackOrderIsOkManifest,
    Installer := some (some { ProductId := "StackOrderIsOk",
                              Dependencies := [packageDependency "C"] }) }


/-- The graph of `StackOrderIsOk` built over the source without matches: the root requires
`C`, and `C`, which was not found, is kept without adjacents. -/
def unresolvedDependencyGraph : DependencyGraph :=
  { m_root := rootAsDependency stackOrderIsOkManifest,
    nodes := [{ dependency := rootAsDependency stackOrderIsOkManifest,
                adjacents := [packageDependency "C"] },
              { dependency := packageDependency "C", adjacents := [] }],
    toCheck := [] }

/-! ## Declared dependencies and further test data -/

/-- The keys of the dependencies declared for the node with key `k`: those of the root's list
for the root, those of the list the resolver returned for a dependency it was invoked for, none
for any other key. -/
def declaredKeys (getDependencies : Dependency → DependencyList × String) (root : Dependency)
    (rootDependencies : DependencyList) (resolved : List Dependency) (k : String) :
    List String :=
  if k = root.key then rootDependencies.map Dependency.key
  else
    match resolved.find? (fun node => node.key == k) with
    | some node => (getDependencies node).1.map Dependency.key
    | none => []

/-- The manifest the test source yields for `NeedsToInstallBFirst`. -/
def needsToInstallBFirstManifest : Manifest :=
  { Id := "NeedsToInstallBFirst", Moniker := "NeedsToInstallBFirst", Version := "1.0.0.0",
    Channel := "",
    Installers := [{ ProductId := "NeedsToInstallBFirst",
                     Dependencies := [packageDependency "B", packageDependency "C"] }] }

/-- The graph of `NeedsToInstallBFirst`: the root requires `B` and `C`, and `C` requires `B`. -/
def needsToInstallBFirstGraph : DependencyGraph :=
  { m_root := rootAsDependency needsToInstallBFirstManifest,
    nodes := [{ dependency := rootAsDependency needsToInstallBFirstManifest,
                adjacents := [packageDependency "B", packageDependency "C"] },
              { dependency := packageDependency "B", adjacents := [] },
              { dependency := packageDependency "C", adjacents := [packageDependency "B"] }],
    toCheck := [] }

/-- A resolver for which `first` requires `minVersion` from 10 on, `second` requires it from
1a on, and nothing else has dependencies. -/
def demandsResolver (node : Dependency) : DependencyList × String :=
  if node.Id = "first" then ([minVersionDependency "10"], "")
  else if node.Id = "second" then ([minVersionDependency "1a"], "")
  else ([], "")

/-- The minimum version that the node with key `k` carries in the graph a build returned. -/
def carriedMinVersion (built : Option (DependencyGraph × List Dependency × String))
    (k : String) : Option (Option String) :=
  (built.bind (fun r => r.1.findNode k)).map (fun n => n.dependency.MinVersion)

/-- The termination state in which a task that may fault leaves the context. -/
def terminationAfter (r : Except Fault (TestContext × List Call)) : Option (Option HRESULT) :=
  match r with
  | Except.ok (context, _) => some context.terminationHR
  | Except.error _ => none

/-- The calls a task that may fault has made. -/
def callsAfter (r : Except Fault (TestContext × List Call)) : Option (List Call) :=
  match r with
  | Except.ok (_, calls) => some calls
  | Except.error _ => none

/-- An environment whose `OpenSource` fails: it terminates the context with a code of its own
and sets no slot. -/
def failingSourceEnvironment : Environment :=
  { OpenSource := fun context => context.Terminate (HRESULT.other 7),
    OpenCompositeSource := fun context => context,
    InstallPackages := fun context _ => (true, context) }

/-- An environment whose `InstallPackages` reports a failure and hands the context back
terminated with a code of its own. -/
def abortedInstallEnvironment : Environment :=
  { OpenSource := fun context => context, OpenCompositeSource := fun context => context,
    InstallPackages := fun context _ => (false, context.Terminate (HRESULT.other 9)) }

/-! ## The traversal -/

theorem Topo_nil (adj : String → List String) : Topo adj [] := by
  simp [Topo, TopoRev]

theorem Topo_concat (adj : String → List String) (o : List String) (n : String) :
    Topo adj (o ++ [n]) ↔ n ∉ o ∧ (∀ c ∈ adj n, c ∈ o) ∧ Topo adj o := by
  simp [Topo, TopoRev]

theorem Topo_index (adj : String → List String) (o : List String) :
    Topo adj o → ∀ b ∈ o, ∀ c ∈ adj b, c ∈ o ∧ o.indexOf c < o.indexOf b := by
  induction o using List.reverseRecOn with
  | nil => intro _ b hb; simp at hb
  | append_singleton l n ih =>
    intro h b hb c hc
    rw [Topo_concat] at h
    obtain ⟨hn, hadj, hl⟩ := h
    by_cases hbl : b ∈ l
    · obtain ⟨hcl, hlt⟩ := ih hl b hbl c hc
      refine ⟨List.mem_append_left _ hcl, ?_⟩
      rw [List.indexOf_append_of_mem hcl, List.indexOf_append_of_mem hbl]
      exact hlt
    · have hbn : b = n := by
        rcases List.mem_append.mp hb with h1 | h1
        · exact absurd h1 hbl
        · simpa using h1
      subst hbn
      have hcl : c ∈ l := hadj c hc
      refine ⟨List.mem_append_left _ hcl, ?_⟩
      rw [List.indexOf_append_of_mem hcl, List.indexOf_append_of_not_mem hbl]
      have := List.indexOf_lt_length.mpr hcl
      omega

theorem visitAdjacents_true (visit : List String → String → Option (Bool × List String))
    (cs : List String) : ∀ (o r : List String), visitAdjacents visit o cs = some (true, r) →
      ∃ c ∈ cs, ∃ o1, visit o1 c = some (true, r) := by
  induction cs with
  | nil => intro o r h; simp [visitAdjacents] at h
  | cons c cs ih =>
    intro o r h
    unfold visitAdjacents at h
    split at h
    · exact absurd h (by simp)
    · rename_i o1 heq
      simp only [Option.some.injEq, Prod.mk.injEq, true_and] at h
      subst h
      exact ⟨c, List.mem_cons_self _ _, o, heq⟩
    · obtain ⟨c1, hc1, o2, h2⟩ := ih _ _ h
      exact ⟨c1, List.mem_cons_of_mem _ hc1, o2, h2⟩

theorem hasLoopDFS_true (adj : String → List String) (fuel : Nat) :
    ∀ (visited : List String) (node : String) (o r : List String),
      (∀ x ∈ visited, Relation.TransGen (Edge adj) x node) →
      hasLoopDFS adj fuel visited node o = some (true, r) →
      ∃ m, Relation.ReflTransGen (Edge adj) node m ∧ Relation.TransGen (Edge adj) m m := by
  induction fuel with
  | zero => intro visited node o r _ h; simp [hasLoopDFS] at h
  | succ fuel ih =>
    intro visited node o r hv h
    unfold hasLoopDFS at h
    split at h
    · rename_i hmem
      exact ⟨node, Relation.ReflTransGen.refl, hv node hmem⟩
    · split at h
      · simp at h
      · split at h
        · simp at h
        · rename_i o1 heq
          obtain ⟨c, hc, o2, h2⟩ := visitAdjacents_true _ _ _ _ heq
          have hv2 : ∀ x ∈ node :: visited, Relation.TransGen (Edge adj) x c := by
            intro x hx
            rcases List.mem_cons.mp hx with hx | hx
            · subst hx; exact Relation.TransGen.single hc
            · exact Relation.TransGen.tail (hv x hx) hc
          obtain ⟨m, hm1, hm2⟩ := ih _ _ _ _ hv2 h2
          exact ⟨m, Relation.ReflTransGen.head hc hm1, hm2⟩
        · simp at h

theorem visitAdjacents_false (adj : String → List String) (visited : List String)
    (visit : List String → String → Option (Bool × List String)) (cs : List String)
    (hvisit : ∀ c ∈ cs, ∀ o o1, visit o c = some (false, o1) → GoodVisit adj visited o o1 c) :
    ∀ (o r : List String), visitAdjacents visit o cs = some (false, r) → Topo adj o →
      Topo adj r ∧ (∀ c ∈ cs, c ∈ r) ∧ (∀ x ∈ o, x ∈ r) ∧ ∀ x ∈ visited, x ∈ r → x ∈ o := by
  induction cs with
  | nil =>
    intro o r h ht
    simp only [visitAdjacents, Option.some.injEq, Prod.mk.injEq, true_and] at h
    subst h
    exact ⟨ht, by simp, fun x hx => hx, fun x _ hx => hx⟩
  | cons c cs ih =>
    intro o r h ht
    unfold visitAdjacents at h
    split at h
    · exact absurd h (by simp)
    · simp at h
    · rename_i o1 heq
      obtain ⟨ht1, hc1, hsub1, hv1⟩ := hvisit c (List.mem_cons_self _ _) o o1 heq ht
      obtain ⟨ht2, hcs2, hsub2, hv2⟩ :=
        ih (fun c2 hc2 => hvisit c2 (List.mem_cons_of_mem _ hc2)) o1 r h ht1
      refine ⟨ht2, ?_, fun x hx => hsub2 x (hsub1 x hx), fun x hx hxr => hv1 x hx (hv2 x hx hxr)⟩
      intro c2 hc2
      rcases List.mem_cons.mp hc2 with h3 | h3
      · subst h3; exact hsub2 _ hc1
      · exact hcs2 c2 h3

theorem hasLoopDFS_false (adj : String → List String) (fuel : Nat) :
    ∀ (visited : List String) (node : String) (o o1 : List String),
      hasLoopDFS adj fuel visited node o = some (false, o1) → GoodVisit adj visited o o1 node := by
  induction fuel with
  | zero => intro visited node o o1 h; simp [hasLoopDFS] at h
  | succ fuel ih =>
    intro visited node o o1 h ht
    unfold hasLoopDFS at h
    split at h
    · simp at h
    · rename_i hnv
      split at h
      · rename_i hno
        simp only [Option.some.injEq, Prod.mk.injEq, true_and] at h
        subst h
        exact ⟨ht, hno, fun x hx => hx, fun x _ hx => hx⟩
      · rename_i hno
        split at h
        · simp at h
        · simp at h
        · rename_i r heq
          simp only [Option.some.injEq, Prod.mk.injEq, true_and] at h
          subst h
          obtain ⟨ht1, hcs, hsub, hv⟩ :=
            visitAdjacents_false adj (node :: visited) _ (adj node)
              (fun c _ o2 o3 h3 => ih (node :: visited) c o2 o3 h3) o r heq ht
          have hnr : node ∉ r := fun hmem => hno (hv node (List.mem_cons_self _ _) hmem)
          refine ⟨(Topo_concat adj r node).mpr ⟨hnr, hcs, ht1⟩, by simp, ?_, ?_⟩
          · intro x hx; exact List.mem_append_left _ (hsub x hx)
          · intro x hx hxr
            rcases List.mem_append.mp hxr with h4 | h4
            · exact hv x (List.mem_cons_of_mem _ hx) h4
            · have : x = node := by simpa using h4
              subst this
              exact absurd hx hnv

theorem Topo_closed (adj : String → List String) (o : List String) (ht : Topo adj o)
    (a b : String) (hab : Relation.ReflTransGen (Edge adj) a b) : a ∈ o → b ∈ o := by
  induction hab with
  | refl => exact id
  | tail _ hbc ih => intro ha; exact (Topo_index adj o ht _ (ih ha) _ hbc).1

theorem Topo_transGen_index (adj : String → List String) (o : List String) (ht : Topo adj o)
    (a b : String) (hab : Relation.TransGen (Edge adj) a b) :
    a ∈ o → b ∈ o ∧ o.indexOf b < o.indexOf a := by
  induction hab with
  | single hab => intro ha; exact Topo_index adj o ht _ ha _ hab
  | tail _ hbc ih =>
    intro ha
    obtain ⟨hb, hlt⟩ := ih ha
    obtain ⟨hc, hlt2⟩ := Topo_index adj o ht _ hb _ hbc
    exact ⟨hc, lt_trans hlt2 hlt⟩

theorem visitAdjacents_isSome (visit : List String → String → Option (Bool × List String))
    (cs : List String) (hvisit : ∀ c ∈ cs, ∀ o, (visit o c).isSome = true) :
    ∀ o, (visitAdjacents visit o cs).isSome = true := by
  induction cs with
  | nil => intro o; simp [visitAdjacents]
  | cons c cs ih =>
    intro o
    unfold visitAdjacents
    have h1 := hvisit c (List.mem_cons_self _ _) o
    split
    · rename_i heq; rw [heq] at h1; simp at h1
    · simp
    · exact ih (fun c2 hc2 => hvisit c2 (List.mem_cons_of_mem _ hc2)) _

theorem hasLoopDFS_isSome (adj : String → List String) (U : List String)
    (hU : ∀ k, ∀ c ∈ adj k, c ∈ U) (fuel : Nat) :
    ∀ (visited : List String) (node : String) (o : List String), node ∈ U →
      (U.toFinset \ visited.toFinset).card < fuel →
      (hasLoopDFS adj fuel visited node o).isSome = true := by
  induction fuel with
  | zero => intro visited node o _ h; omega
  | succ fuel ih =>
    intro visited node o hn hcard
    unfold hasLoopDFS
    split
    · simp
    · rename_i hnv
      split
      · simp
      · have hlt : (U.toFinset \ (node :: visited).toFinset).card
            < (U.toFinset \ visited.toFinset).card := by
          apply Finset.card_lt_card
          rw [Finset.ssubset_iff_of_subset]
          · refine ⟨node, ?_, ?_⟩
            · simp [hn, hnv]
            · simp
          · intro x hx
            simp only [Finset.mem_sdiff, List.mem_toFinset, List.mem_cons, not_or] at hx ⊢
            exact ⟨hx.1, hx.2.2⟩
        have hall := visitAdjacents_isSome
          (fun o a => hasLoopDFS adj fuel (node :: visited) a o) (adj node)
          (fun c hc o2 => ih (node :: visited) c o2 (hU node c hc) (by omega)) o
        split
        · rename_i heq; rw [heq] at hall; simp at hall
        · simp
        · simp

theorem Topo_nodup (adj : String → List String) (o : List String) : Topo adj o → o.Nodup := by
  induction o using List.reverseRecOn with
  | nil => intro _; exact List.nodup_nil
  | append_singleton l n ih =>
    intro h
    rw [Topo_concat] at h
    obtain ⟨hn, _, hl⟩ := h
    rw [List.nodup_append]
    refine ⟨ih hl, List.nodup_singleton n, ?_⟩
    intro a ha hb
    have : a = n := by simpa using hb
    subst this
    exact hn ha

theorem visitAdjacents_preserves (P : List String → Prop)
    (visit : List String → String → Option (Bool × List String)) (cs : List String)
    (hvisit : ∀ c ∈ cs, ∀ o b o1, P o → visit o c = some (b, o1) → P o1) :
    ∀ (o : List String) (b : Bool) (r : List String), P o →
      visitAdjacents visit o cs = some (b, r) → P r := by
  induction cs with
  | nil =>
    intro o b r hP h
    simp only [visitAdjacents, Option.some.injEq, Prod.mk.injEq] at h
    rw [← h.2]; exact hP
  | cons c cs ih =>
    intro o b r hP h
    unfold visitAdjacents at h
    split at h
    · exact absurd h (by simp)
    · rename_i o1 heq
      simp only [Option.some.injEq, Prod.mk.injEq] at h
      rw [← h.2]
      exact hvisit c (List.mem_cons_self _ _) o true o1 hP heq
    · rename_i o1 heq
      exact ih (fun c2 hc2 => hvisit c2 (List.mem_cons_of_mem _ hc2)) o1 b r
        (hvisit c (List.mem_cons_self _ _) o false o1 hP heq) h

theorem hasLoopDFS_subset (adj : String → List String) (S : List String)
    (hS : ∀ k ∈ S, ∀ c ∈ adj k, c ∈ S) (fuel : Nat) :
    ∀ (visited : List String) (node : String) (o : List String) (b : Bool) (o1 : List String),
      node ∈ S → (∀ x ∈ o, x ∈ S) →
      hasLoopDFS adj fuel visited node o = some (b, o1) → ∀ x ∈ o1, x ∈ S := by
  induction fuel with
  | zero => intro visited node o b o1 _ _ h; simp [hasLoopDFS] at h
  | succ fuel ih =>
    intro visited node o b o1 hn ho h
    unfold hasLoopDFS at h
    split at h
    · simp only [Option.some.injEq, Prod.mk.injEq] at h
      rw [← h.2]; exact ho
    · split at h
      · simp only [Option.some.injEq, Prod.mk.injEq] at h
        rw [← h.2]; exact ho
      · have key := visitAdjacents_preserves (fun l => ∀ x ∈ l, x ∈ S)
          (fun o a => hasLoopDFS adj fuel (node :: visited) a o) (adj node)
          (fun c hc o2 b2 o3 hP h3 => ih (node :: visited) c o2 b2 o3 (hS node hn c hc) hP h3)
        split at h
        · exact absurd h (by simp)
        · rename_i r heq
          simp only [Option.some.injEq, Prod.mk.injEq] at h
          rw [← h.2]
          exact key o true r ho heq
        · rename_i r heq
          simp only [Option.some.injEq, Prod.mk.injEq] at h
          rw [← h.2]
          intro x hx
          rcases List.mem_append.mp hx with h4 | h4
          · exact key o false r ho heq x h4
          · have : x = node := by simpa using h4
            rw [this]; exact hn

theorem listAll_of_visitAdjacents (visit : List String → String → Option (Bool × List String))
    (list : List String → String → Option (List String)) (cs : List String)
    (hvisit : ∀ c ∈ cs, ∀ o o1, visit o c = some (false, o1) → list o c = some o1) :
    ∀ (o r : List String), visitAdjacents visit o cs = some (false, r) →
      listAll list o cs = some r := by
  induction cs with
  | nil =>
    intro o r h
    simp only [visitAdjacents, Option.some.injEq, Prod.mk.injEq, true_and] at h
    simp [listAll, h]
  | cons c cs ih =>
    intro o r h
    unfold visitAdjacents at h
    split at h
    · exact absurd h (by simp)
    · simp at h
    · rename_i o1 heq
      unfold listAll
      rw [hvisit c (List.mem_cons_self _ _) o o1 heq]
      exact ih (fun c2 hc2 => hvisit c2 (List.mem_cons_of_mem _ hc2)) o1 r h

theorem postOrder_of_hasLoopDFS (adj : String → List String) (fuel : Nat) :
    ∀ (visited : List String) (node : String) (o o1 : List String),
      hasLoopDFS adj fuel visited node o = some (false, o1) →
      postOrder adj fuel node o = some o1 := by
  induction fuel with
  | zero => intro visited node o o1 h; simp [hasLoopDFS] at h
  | succ fuel ih =>
    intro visited node o o1 h
    unfold hasLoopDFS at h
    unfold postOrder
    split at h
    · simp at h
    · split at h
      · rename_i hno
        simp only [Option.some.injEq, Prod.mk.injEq, true_and] at h
        rw [if_pos hno, h]
      · rename_i hno
        rw [if_neg hno]
        split at h
        · simp at h
        · simp at h
        · rename_i r heq
          simp only [Option.some.injEq, Prod.mk.injEq, true_and] at h
          rw [listAll_of_visitAdjacents _ (fun l d => postOrder adj fuel d l) (adj node)
            (fun c _ o2 o3 h3 => ih (node :: visited) c o2 o3 h3) o r heq]
          simp [h]

theorem hasLoopDFS_root_last (adj : String → List String) (fuel : Nat) (root : String)
    (o : List String) (h : hasLoopDFS adj fuel [] root [] = some (false, o)) :
    ∃ r, o = r ++ [root] := by
  cases fuel with
  | zero => simp [hasLoopDFS] at h
  | succ fuel =>
    unfold hasLoopDFS at h
    simp only [List.not_mem_nil, if_false] at h
    split at h
    · simp at h
    · simp at h
    · rename_i r _
      simp only [Option.some.injEq, Prod.mk.injEq, true_and] at h
      exact ⟨r, h.symm⟩

/-! ## The node table -/

theorem HasNode_iff (graph : DependencyGraph) (d : Dependency) :
    graph.HasNode d = true ↔ d.key ∈ graph.nodeKeys := by
  simp only [DependencyGraph.HasNode, DependencyGraph.nodeKeys, List.any_eq_true, beq_iff_eq,
    List.mem_map]

theorem tightenNodes_keys (nodes : List DependencyGraphNode) (d : Dependency) :
    (tightenNodes nodes d).map (fun n => n.dependency.key) =
      nodes.map (fun n => n.dependency.key) := by
  simp only [tightenNodes, List.map_map]
  apply List.map_congr_left
  intro n _
  simp only [Function.comp]
  split <;> rfl

theorem tightenNodes_mem (nodes : List DependencyGraphNode) (d : Dependency)
    (m : DependencyGraphNode) (hm : m ∈ tightenNodes nodes d) :
    ∃ n ∈ nodes, m.dependency.key = n.dependency.key ∧ m.adjacents = n.adjacents := by
  simp only [tightenNodes, List.mem_map] at hm
  obtain ⟨n, hn, rfl⟩ := hm
  refine ⟨n, hn, ?_⟩
  split <;> exact ⟨rfl, rfl⟩

theorem mem_tightenNodes (nodes : List DependencyGraphNode) (d : Dependency)
    (n : DependencyGraphNode) (hn : n ∈ nodes) :
    ∃ m ∈ tightenNodes nodes d, m.dependency.key = n.dependency.key ∧
      m.adjacents = n.adjacents := by
  refine ⟨_, List.mem_map_of_mem _ hn, ?_⟩
  split <;> exact ⟨rfl, rfl⟩

theorem find_of_nodup (nodes : List DependencyGraphNode)
    (hnd : (nodes.map (fun n => n.dependency.key)).Nodup) (n : DependencyGraphNode)
    (hn : n ∈ nodes) :
    nodes.find? (fun m => m.dependency.key == n.dependency.key) = some n := by
  induction nodes with
  | nil => simp at hn
  | cons a l ih =>
    simp only [List.map_cons, List.nodup_cons, List.mem_map, not_exists, not_and] at hnd
    rcases List.mem_cons.mp hn with h | h
    · subst h; simp [List.find?]
    · have hne : a.dependency.key ≠ n.dependency.key := fun e => hnd.1 n h e.symm
      rw [List.find?_cons_of_neg _ (by simpa using hne)]
      exact ih hnd.2 h

theorem adjacentKeys_of_mem (graph : DependencyGraph) (hnd : graph.nodeKeys.Nodup)
    (n : DependencyGraphNode) (hn : n ∈ graph.nodes) :
    graph.adjacentKeys n.dependency.key = n.adjacents.map Dependency.key := by
  unfold DependencyGraph.adjacentKeys DependencyGraph.findNode
  rw [find_of_nodup graph.nodes hnd n hn]

theorem findNode_key (graph : DependencyGraph) (k : String) (n : DependencyGraphNode)
    (h : graph.findNode k = some n) : n ∈ graph.nodes ∧ n.dependency.key = k := by
  unfold DependencyGraph.findNode at h
  refine ⟨List.mem_of_find?_eq_some h, ?_⟩
  have := List.find?_some h
  simpa using this

theorem findNode_isSome (graph : DependencyGraph) (k : String) (hk : k ∈ graph.nodeKeys) :
    ∃ n, graph.findNode k = some n := by
  unfold DependencyGraph.nodeKeys at hk
  obtain ⟨n, hn, rfl⟩ := List.mem_map.mp hk
  cases h : graph.findNode n.dependency.key with
  | some m => exact ⟨m, rfl⟩
  | none =>
    unfold DependencyGraph.findNode at h
    rw [List.find?_eq_none] at h
    have := h n hn
    simp at this

theorem edge_source_mem (graph : DependencyGraph) (a b : String)
    (h : Edge graph.adjacentKeys a b) :
    ∃ n ∈ graph.nodes, n.dependency.key = a ∧ b ∈ n.adjacents.map Dependency.key := by
  unfold Edge DependencyGraph.adjacentKeys at h
  cases hf : graph.findNode a with
  | none => rw [hf] at h; simp at h
  | some n =>
    rw [hf] at h
    obtain ⟨hn, hk⟩ := findNode_key graph a n hf
    exact ⟨n, hn, hk, h⟩

/-! ## The frontier loop -/

theorem edge_mono (g g1 : DependencyGraph) (hnd : g1.nodeKeys.Nodup)
    (hsub : ∀ n ∈ g.nodes, ∃ m ∈ g1.nodes,
      m.dependency.key = n.dependency.key ∧ m.adjacents = n.adjacents)
    (a b : String) (h : Edge g.adjacentKeys a b) : Edge g1.adjacentKeys a b := by
  obtain ⟨n, hn, hk, hb⟩ := edge_source_mem g a b h
  obtain ⟨m, hm, hmk, hma⟩ := hsub n hn
  unfold Edge
  rw [← hk, ← hmk, adjacentKeys_of_mem g1 hnd m hm, hma]
  exact hb

theorem reach_mono (g g1 : DependencyGraph) (hnd : g1.nodeKeys.Nodup)
    (hsub : ∀ n ∈ g.nodes, ∃ m ∈ g1.nodes,
      m.dependency.key = n.dependency.key ∧ m.adjacents = n.adjacents)
    (a b : String) (h : Relation.ReflTransGen (Edge g.adjacentKeys) a b) :
    Relation.ReflTransGen (Edge g1.adjacentKeys) a b :=
  Relation.ReflTransGen.mono (fun x y hxy => edge_mono g g1 hnd hsub x y hxy) h

theorem BuildInv_create (getDeps : Dependency → DependencyList × String) (root : Dependency)
    (rootDeps : DependencyList) :
    BuildInv getDeps rootDeps (DependencyGraph.create root rootDeps) [] where
  nodup := by simp [DependencyGraph.create, DependencyGraph.nodeKeys]
  rootFirst := by simp [DependencyGraph.create]
  closed := by
    intro n hn c hc
    simp only [DependencyGraph.create, List.mem_singleton] at hn
    subst hn
    exact Or.inr hc
  reach := by
    intro n hn
    simp only [DependencyGraph.create, List.mem_singleton] at hn
    subst hn
    exact Relation.ReflTransGen.refl
  pending := by
    intro f hf
    exact ⟨{ dependency := root, adjacents := rootDeps },
      by simp [DependencyGraph.create], hf⟩
  resolved := by intro d hd; simp at hd
  discovered := by intro d hd; simp at hd
  pendingDiscovered := by intro f hf; exact Or.inl hf
  rootAdjacents :=
    ⟨{ dependency := root, adjacents := rootDeps }, by simp [DependencyGraph.create], rfl, rfl⟩

theorem BuildInv_tighten (getDeps : Dependency → DependencyList × String)
    (rootDeps : DependencyList) (g : DependencyGraph) (calls : List Dependency)
    (child : Dependency) (rest : List Dependency)
    (hinv : BuildInv getDeps rootDeps g calls) (htc : g.toCheck = child :: rest)
    (hhas : g.HasNode child = true) (g1 : DependencyGraph) (hroot : g1.m_root = g.m_root)
    (hnodes : g1.nodes = tightenNodes g.nodes child) (hcheck : g1.toCheck = rest) :
    BuildInv getDeps rootDeps g1 calls := by
  have hkeys : g1.nodeKeys = g.nodeKeys := by
    unfold DependencyGraph.nodeKeys
    rw [hnodes]
    exact tightenNodes_keys g.nodes child
  have hnd : g1.nodeKeys.Nodup := by rw [hkeys]; exact hinv.nodup
  have hsub : ∀ n ∈ g.nodes, ∃ m ∈ g1.nodes,
      m.dependency.key = n.dependency.key ∧ m.adjacents = n.adjacents := by
    intro n hn
    rw [hnodes]
    exact mem_tightenNodes g.nodes child n hn
  rw [hnodes] at hsub
  refine ⟨hnd, ?_, ?_, ?_, ?_, ?_, hinv.discovered, ?_, ?_⟩
  · have h0 := hinv.rootFirst
    rw [hnodes, hroot]
    cases hg : g.nodes with
    | nil => rw [hg] at h0; simp at h0
    | cons a l =>
      rw [hg] at h0
      simp only [tightenNodes, List.map_cons, List.head?_cons, Option.map_some'] at h0 ⊢
      rw [← h0]
      split <;> rfl
  · intro m hm c hc
    rw [hnodes] at hm
    obtain ⟨n, hn, _, hma⟩ := tightenNodes_mem g.nodes child m hm
    rw [hkeys, hcheck]
    rw [hma] at hc
    rcases hinv.closed n hn c hc with h | h
    · exact Or.inl h
    · rw [htc] at h
      rcases List.mem_cons.mp h with h1 | h1
      · subst h1; exact Or.inl ((HasNode_iff g c).mp hhas)
      · exact Or.inr h1
  · intro m hm
    rw [hnodes] at hm
    obtain ⟨n, hn, hmk, _⟩ := tightenNodes_mem g.nodes child m hm
    rw [hmk, hroot]
    exact reach_mono g g1 hnd (by rw [hnodes]; exact hsub) _ _ (hinv.reach n hn)
  · intro f hf
    rw [hcheck] at hf
    obtain ⟨p, hp, hfp⟩ := hinv.pending f (by rw [htc]; exact List.mem_cons_of_mem _ hf)
    obtain ⟨m, hm, _, hma⟩ := mem_tightenNodes g.nodes child p hp
    exact ⟨m, by rw [hnodes]; exact hm, by rw [hma]; exact hfp⟩
  · intro d hd
    obtain ⟨n, hn, hnk, hna⟩ := hinv.resolved d hd
    obtain ⟨m, hm, hmk, hma⟩ := mem_tightenNodes g.nodes child n hn
    exact ⟨m, by rw [hnodes]; exact hm, by rw [hmk, hnk], by rw [hma, hna]⟩
  · intro f hf
    rw [hcheck] at hf
    exact hinv.pendingDiscovered f (by rw [htc]; exact List.mem_cons_of_mem _ hf)
  · obtain ⟨n, hn, hnk, hna⟩ := hinv.rootAdjacents
    obtain ⟨m, hm, hmk, hma⟩ := mem_tightenNodes g.nodes child n hn
    exact ⟨m, by rw [hnodes]; exact hm, by rw [hmk, hnk, hroot], by rw [hma, hna]⟩

theorem BuildInv_insert (getDeps : Dependency → DependencyList × String)
    (rootDeps : DependencyList) (g : DependencyGraph) (calls : List Dependency)
    (child : Dependency) (rest : List Dependency)
    (hinv : BuildInv getDeps rootDeps g calls) (htc : g.toCheck = child :: rest)
    (hnew : ¬ g.HasNode child = true) (g1 : DependencyGraph) (hroot : g1.m_root = g.m_root)
    (hnodes : g1.nodes = g.nodes ++ [{ dependency := child, adjacents := (getDeps child).1 }])
    (hcheck : g1.toCheck = rest ++ (getDeps child).1) :
    BuildInv getDeps rootDeps g1 (calls ++ [child]) := by
  have hkeys : g1.nodeKeys = g.nodeKeys ++ [child.key] := by
    simp [DependencyGraph.nodeKeys, hnodes]
  have hnk : child.key ∉ g.nodeKeys := fun h => hnew ((HasNode_iff g child).mpr h)
  have hnd : g1.nodeKeys.Nodup := by
    rw [hkeys, List.nodup_append]
    refine ⟨hinv.nodup, List.nodup_singleton _, ?_⟩
    intro a ha hb
    have : a = child.key := by simpa using hb
    subst this
    exact hnk ha
  have hsub : ∀ n ∈ g.nodes, ∃ m ∈ g1.nodes,
      m.dependency.key = n.dependency.key ∧ m.adjacents = n.adjacents := by
    intro n hn
    exact ⟨n, by rw [hnodes]; exact List.mem_append_left _ hn, rfl, rfl⟩
  refine ⟨hnd, ?_, ?_, ?_, ?_, ?_, ?_, ?_, ?_⟩
  · have h0 := hinv.rootFirst
    rw [hnodes, hroot]
    cases hg : g.nodes with
    | nil => rw [hg] at h0; simp at h0
    | cons a l => rw [hg] at h0; simpa using h0
  · intro m hm c hc
    rw [hkeys, hcheck]
    rw [hnodes] at hm
    rcases List.mem_append.mp hm with h | h
    · rcases hinv.closed m h c hc with h1 | h1
      · exact Or.inl (List.mem_append_left _ h1)
      · rw [htc] at h1
        rcases List.mem_cons.mp h1 with h2 | h2
        · subst h2; exact Or.inl (by simp)
        · exact Or.inr (List.mem_append_left _ h2)
    · have : m = { dependency := child, adjacents := (getDeps child).1 } := by simpa using h
      subst this
      exact Or.inr (List.mem_append_right _ hc)
  · intro m hm
    rw [hroot]
    rw [hnodes] at hm
    rcases List.mem_append.mp hm with h | h
    · exact reach_mono g g1 hnd hsub _ _ (hinv.reach m h)
    · have : m = { dependency := child, adjacents := (getDeps child).1 } := by simpa using h
      subst this
      obtain ⟨p, hp, hcp⟩ := hinv.pending child (by rw [htc]; exact List.mem_cons_self _ _)
      refine Relation.ReflTransGen.tail (reach_mono g g1 hnd hsub _ _ (hinv.reach p hp)) ?_
      unfold Edge
      rw [adjacentKeys_of_mem g1 hnd p (by rw [hnodes]; exact List.mem_append_left _ hp)]
      exact List.mem_map_of_mem _ hcp
  · intro f hf
    rw [hcheck] at hf
    rw [hnodes]
    rcases List.mem_append.mp hf with h | h
    · obtain ⟨p, hp, hfp⟩ := hinv.pending f (by rw [htc]; exact List.mem_cons_of_mem _ h)
      exact ⟨p, List.mem_append_left _ hp, hfp⟩
    · exact ⟨{ dependency := child, adjacents := (getDeps child).1 },
        List.mem_append_right _ (List.mem_singleton_self _), h⟩
  · intro d hd
    rw [hnodes]
    rcases List.mem_append.mp hd with h | h
    · obtain ⟨n, hn, hnk2, hna⟩ := hinv.resolved d h
      exact ⟨n, List.mem_append_left _ hn, hnk2, hna⟩
    · have : d = child := by simpa using h
      subst this
      exact ⟨{ dependency := d, adjacents := (getDeps d).1 },
        List.mem_append_right _ (List.mem_singleton_self _), rfl, rfl⟩
  · intro d hd
    rcases List.mem_append.mp hd with h | h
    · rcases hinv.discovered d h with h1 | ⟨p, hp, h1⟩
      · exact Or.inl h1
      · exact Or.inr ⟨p, List.mem_append_left _ hp, h1⟩
    · have : d = child := by simpa using h
      subst this
      rcases hinv.pendingDiscovered d (by rw [htc]; exact List.mem_cons_self _ _) with
        h1 | ⟨p, hp, h1⟩
      · exact Or.inl h1
      · exact Or.inr ⟨p, List.mem_append_left _ hp, h1⟩
  · intro f hf
    rw [hcheck] at hf
    rcases List.mem_append.mp hf with h | h
    · rcases hinv.pendingDiscovered f (by rw [htc]; exact List.mem_cons_of_mem _ h) with
        h1 | ⟨p, hp, h1⟩
      · exact Or.inl h1
      · exact Or.inr ⟨p, List.mem_append_left _ hp, h1⟩
    · exact Or.inr ⟨child, List.mem_append_right _ (List.mem_singleton_self _), h⟩
  · obtain ⟨n, hn, hnk2, hna⟩ := hinv.rootAdjacents
    exact ⟨n, by rw [hnodes]; exact List.mem_append_left _ hn, by rw [hnk2, hroot], hna⟩

theorem expand_inv (getDeps : Dependency → DependencyList × String)
    (rootDeps : DependencyList) (fuel : Nat) :
    ∀ (g : DependencyGraph) (calls : List Dependency) (written : String)
      (g1 : DependencyGraph) (calls1 : List Dependency) (written1 : String),
      DependencyGraph.expand getDeps fuel g calls written = some (g1, calls1, written1) →
      BuildInv getDeps rootDeps g calls →
      BuildInv getDeps rootDeps g1 calls1 ∧ g1.toCheck = [] ∧ g1.m_root = g.m_root := by
  induction fuel with
  | zero =>
    intro g calls written g1 calls1 written1 h hinv
    unfold DependencyGraph.expand at h
    split at h
    · rename_i htc
      simp only [Option.some.injEq, Prod.mk.injEq] at h
      obtain ⟨h1, h2, _⟩ := h
      subst h1; subst h2
      exact ⟨hinv, htc, rfl⟩
    · simp at h
    · rename_i hf; simp at hf
  | succ fuel ih =>
    intro g calls written g1 calls1 written1 h hinv
    unfold DependencyGraph.expand at h
    split at h
    · rename_i htc
      simp only [Option.some.injEq, Prod.mk.injEq] at h
      obtain ⟨h1, h2, _⟩ := h
      subst h1; subst h2
      exact ⟨hinv, htc, rfl⟩
    · rename_i hf; simp at hf
    · rename_i child rest fuel2 htc hf
      have hfe : fuel2 = fuel := by omega
      subst hfe
      split at h
      · rename_i hhas
        obtain ⟨r1, r2, r3⟩ := ih _ _ _ _ _ _ h
          (BuildInv_tighten getDeps rootDeps g calls child rest hinv htc hhas _ rfl rfl rfl)
        exact ⟨r1, r2, r3⟩
      · rename_i hnew
        obtain ⟨r1, r2, r3⟩ := ih _ _ _ _ _ _ h
          (BuildInv_insert getDeps rootDeps g calls child rest hinv htc hnew _ rfl rfl rfl)
        exact ⟨r1, r2, r3⟩

/-- More fuel does not change what the frontier loop returns. -/
theorem expand_fuel_mono (getDeps : Dependency → DependencyList × String) (fuel : Nat) :
    ∀ (g : DependencyGraph) (calls : List Dependency) (written : String)
      (r : DependencyGraph × List Dependency × String),
      DependencyGraph.expand getDeps fuel g calls written = some r →
      ∀ extra, DependencyGraph.expand getDeps (fuel + extra) g calls written = some r := by
  induction fuel with
  | zero =>
    intro g calls written r h extra
    unfold DependencyGraph.expand at h
    split at h
    · rename_i htc
      unfold DependencyGraph.expand
      simp only [htc]
      exact h
    · simp at h
    · rename_i hf; simp at hf
  | succ fuel ih =>
    intro g calls written r h extra
    unfold DependencyGraph.expand at h
    split at h
    · rename_i htc
      unfold DependencyGraph.expand
      simp only [htc]
      exact h
    · rename_i hf; simp at hf
    · rename_i child rest fuel2 htc hf
      have hfe : fuel2 = fuel := by omega
      subst hfe
      have hsucc : fuel2 + 1 + extra = (fuel2 + extra) + 1 := by omega
      rw [hsucc]
      unfold DependencyGraph.expand
      simp only [htc]
      split at h
      · rename_i hhas
        rw [if_pos hhas]
        exact ih _ _ _ _ h extra
      · rename_i hnew
        rw [if_neg hnew]
        exact ih _ _ _ _ h extra

theorem BuildGraph_inv (getDeps : Dependency → DependencyList × String) (fuel : Nat)
    (root : Dependency) (rootDeps : DependencyList) (g : DependencyGraph)
    (calls : List Dependency) (written : String)
    (h : (DependencyGraph.create root rootDeps).BuildGraph getDeps fuel
      = some (g, calls, written)) :
    BuildInv getDeps rootDeps g calls ∧ g.toCheck = [] ∧ g.m_root = root :=
  expand_inv getDeps rootDeps fuel _ _ _ _ _ _ h (BuildInv_create getDeps root rootDeps)

theorem expand_nodeKeys (getDeps : Dependency → DependencyList × String) (fuel : Nat) :
    ∀ (g : DependencyGraph) (calls : List Dependency) (written : String)
      (g1 : DependencyGraph) (calls1 : List Dependency) (written1 : String),
      DependencyGraph.expand getDeps fuel g calls written = some (g1, calls1, written1) →
      g.nodeKeys = g.m_root.key :: calls.map Dependency.key →
      g1.nodeKeys = g1.m_root.key :: calls1.map Dependency.key := by
  induction fuel with
  | zero =>
    intro g calls written g1 calls1 written1 h hk
    unfold DependencyGraph.expand at h
    split at h
    · simp only [Option.some.injEq, Prod.mk.injEq] at h
      obtain ⟨h1, h2, _⟩ := h
      subst h1; subst h2
      exact hk
    · simp at h
    · rename_i hf; simp at hf
  | succ fuel ih =>
    intro g calls written g1 calls1 written1 h hk
    unfold DependencyGraph.expand at h
    split at h
    · simp only [Option.some.injEq, Prod.mk.injEq] at h
      obtain ⟨h1, h2, _⟩ := h
      subst h1; subst h2
      exact hk
    · rename_i hf; simp at hf
    · rename_i child rest fuel2 htc hf
      have hfe : fuel2 = fuel := by omega
      subst hfe
      split at h
      · refine ih _ _ _ _ _ _ h ?_
        show (tightenNodes g.nodes child).map (fun n => n.dependency.key) = _
        rw [tightenNodes_keys]
        exact hk
      · refine ih _ _ _ _ _ _ h ?_
        show (g.nodes ++
            [({ dependency := child, adjacents := (getDeps child).1 } : DependencyGraphNode)]).map
          (fun n => n.dependency.key) = g.m_root.key :: (calls ++ [child]).map Dependency.key
        rw [List.map_append, List.map_append]
        show g.nodeKeys ++ [child.key] = _
        rw [hk]
        rfl

/-- The nodes of a graph that `BuildGraph` produced are the root and the dependencies the
resolver was invoked for, in this order. -/
theorem BuildGraph_nodeKeys (getDeps : Dependency → DependencyList × String) (fuel : Nat)
    (root : Dependency) (rootDeps : DependencyList) (g : DependencyGraph)
    (calls : List Dependency) (written : String)
    (h : (DependencyGraph.create root rootDeps).BuildGraph getDeps fuel
      = some (g, calls, written)) :
    g.nodeKeys = g.m_root.key :: calls.map Dependency.key :=
  expand_nodeKeys getDeps fuel _ _ _ _ _ _ h rfl

/-! ## The built graph and its installation order -/

theorem HasLoop_eq_some (graph : DependencyGraph) (b : Bool) (h : graph.HasLoop = some b) :
    ∃ o, graphHasLoop graph = some (b, o) := by
  unfold DependencyGraph.HasLoop at h
  cases hg : graphHasLoop graph with
  | none => rw [hg] at h; simp at h
  | some r =>
    rw [hg] at h
    simp only [Option.map_some', Option.some.injEq] at h
    exact ⟨r.2, by rw [← h]⟩

theorem allKeys_closed (graph : DependencyGraph) (k : String) (c : String)
    (hc : c ∈ graph.adjacentKeys k) : c ∈ graph.allKeys := by
  obtain ⟨n, hn, _, hcn⟩ := edge_source_mem graph k c hc
  unfold DependencyGraph.allKeys
  refine List.mem_cons_of_mem _ ?_
  rw [List.mem_flatten]
  exact ⟨_, List.mem_map_of_mem _ hn, List.mem_cons_of_mem _ hcn⟩

theorem graphHasLoop_isSome (graph : DependencyGraph) : (graphHasLoop graph).isSome = true := by
  unfold graphHasLoop
  apply hasLoopDFS_isSome graph.adjacentKeys graph.allKeys (allKeys_closed graph)
  · simp [DependencyGraph.allKeys]
  · have h1 : (graph.allKeys.toFinset \ ([] : List String).toFinset).card
        ≤ graph.allKeys.toFinset.card := Finset.card_le_card (Finset.sdiff_subset)
    have h2 := List.toFinset_card_le graph.allKeys
    omega

theorem lookup_keys (graph : DependencyGraph) (o : List String)
    (ho : ∀ k ∈ o, k ∈ graph.nodeKeys) :
    (o.filterMap (fun k => (graph.findNode k).map (fun n => n.dependency))).map Dependency.key
      = o := by
  induction o with
  | nil => rfl
  | cons k l ih =>
    obtain ⟨n, hn⟩ := findNode_isSome graph k (ho k (List.mem_cons_self _ _))
    have hk := (findNode_key graph k n hn).2
    rw [List.filterMap_cons, hn]
    simp only [Option.map_some', List.map_cons]
    rw [ih (fun k2 hk2 => ho k2 (List.mem_cons_of_mem _ hk2)), hk]

theorem key_eq_of_Id_eq (a b : Dependency) (h : a.Id = b.Id) : a.key = b.key := by
  unfold Dependency.key
  rw [h]

theorem root_lookup (graph : DependencyGraph)
    (hroot : graph.nodes.head?.map (fun n => n.dependency.Id) = some graph.m_root.Id) :
    ∃ n, graph.findNode graph.m_root.key = some n ∧ n.dependency.Id = graph.m_root.Id := by
  unfold DependencyGraph.findNode
  cases hg : graph.nodes with
  | nil => rw [hg] at hroot; simp at hroot
  | cons a l =>
    rw [hg] at hroot
    simp only [List.head?_cons, Option.map_some', Option.some.injEq] at hroot
    refine ⟨a, ?_, hroot⟩
    rw [List.find?_cons_of_pos]
    simpa using key_eq_of_Id_eq _ _ hroot

/-- The adjacents of the root in a graph that `BuildGraph` produced are its declared
dependencies. -/
theorem root_adjacentKeys (getDeps : Dependency → DependencyList × String) (fuel : Nat)
    (root : Dependency) (rootDeps : DependencyList) (g : DependencyGraph)
    (calls : List Dependency) (written : String)
    (hbuild : (DependencyGraph.create root rootDeps).BuildGraph getDeps fuel
      = some (g, calls, written)) :
    g.adjacentKeys g.m_root.key = rootDeps.map Dependency.key := by
  obtain ⟨hinv, _, _⟩ := BuildGraph_inv getDeps fuel root rootDeps g calls written hbuild
  obtain ⟨n, hn, hnk, hna⟩ := hinv.rootAdjacents
  rw [← hnk, adjacentKeys_of_mem g hinv.nodup n hn, hna]

/-- A root without dependencies: the frontier is empty from the start. -/
theorem BuildGraph_of_no_dependencies (getDeps : Dependency → DependencyList × String)
    (fuel : Nat) (root : Dependency) :
    (DependencyGraph.create root []).BuildGraph getDeps fuel
      = some (DependencyGraph.create root [], [], "") := by
  unfold DependencyGraph.BuildGraph DependencyGraph.expand
  rfl

theorem GetInstallationOrder_of_no_dependencies (root : Dependency) :
    (DependencyGraph.create root []).GetInstallationOrder = some [] := by
  simp [DependencyGraph.GetInstallationOrder, DependencyGraph.create,
    DependencyGraph.adjacentKeys, DependencyGraph.findNode]

/-- Facts about a graph that `BuildGraph` produced from a root with dependencies and in which no
loop was found. -/
theorem built_graph_order (getDeps : Dependency → DependencyList × String) (fuel : Nat)
    (root : Dependency) (rootDeps : DependencyList) (g : DependencyGraph)
    (calls : List Dependency) (written : String)
    (hbuild : (DependencyGraph.create root rootDeps).BuildGraph getDeps fuel
      = some (g, calls, written))
    (hacyclic : g.HasLoop = some false) (hdeps : rootDeps ≠ []) :
    ∃ o order, graphHasLoop g = some (false, o) ∧ g.GetInstallationOrder = some order ∧
      order.map Dependency.key = o ∧ Topo g.adjacentKeys o ∧
      (∀ n ∈ g.nodes, n.dependency.key ∈ o) ∧
      order.getLast?.map (fun d => d.Id) = some root.Id := by
  obtain ⟨hinv, hdone, hroot⟩ := BuildGraph_inv getDeps fuel root rootDeps g calls written hbuild
  obtain ⟨o, ho⟩ := HasLoop_eq_some g false hacyclic
  have hgood := hasLoopDFS_false g.adjacentKeys _ [] g.m_root.key [] o ho (Topo_nil _)
  obtain ⟨htopo, hrootmem, _, _⟩ := hgood
  obtain ⟨rn, hrn, hrid⟩ := root_lookup g hinv.rootFirst
  have hrootkey : g.m_root.key ∈ g.nodeKeys := by
    obtain ⟨h1, h2⟩ := findNode_key g _ rn hrn
    rw [← h2]
    exact List.mem_map_of_mem _ h1
  have hclosed : ∀ k ∈ g.nodeKeys, ∀ c ∈ g.adjacentKeys k, c ∈ g.nodeKeys := by
    intro k _ c hc
    obtain ⟨n, hn, _, hcn⟩ := edge_source_mem g k c hc
    obtain ⟨d, hd, rfl⟩ := List.mem_map.mp hcn
    rcases hinv.closed n hn d hd with h | h
    · exact h
    · rw [hdone] at h; simp at h
  have hsub : ∀ k ∈ o, k ∈ g.nodeKeys :=
    hasLoopDFS_subset g.adjacentKeys g.nodeKeys hclosed _ [] g.m_root.key [] false o hrootkey
      (by simp) ho
  have hnot : (g.adjacentKeys g.m_root.key).isEmpty = false := by
    rw [root_adjacentKeys getDeps fuel root rootDeps g calls written hbuild]
    cases rootDeps with
    | nil => exact absurd rfl hdeps
    | cons d rest => rfl
  refine ⟨o, _, ho, ?_, lookup_keys g o hsub, htopo, ?_, ?_⟩
  · unfold DependencyGraph.GetInstallationOrder
    simp only [hnot, Bool.false_eq_true, if_false]
    rw [ho]
    rfl
  · intro n hn
    exact Topo_closed g.adjacentKeys o htopo _ _ (hinv.reach n hn) hrootmem
  · obtain ⟨r, hr⟩ := hasLoopDFS_root_last g.adjacentKeys _ g.m_root.key o ho
    rw [hr, List.filterMap_append]
    simp only [List.filterMap_cons, hrn, Option.map_some', List.filterMap_nil]
    rw [List.getLast?_append]
    simp [hrid, hroot]


theorem built_graph_order_keys (getDeps : Dependency → DependencyList × String) (fuel : Nat)
    (root : Dependency) (rootDeps : DependencyList) (g : DependencyGraph)
    (calls : List Dependency) (written : String)
    (hbuild : (DependencyGraph.create root rootDeps).BuildGraph getDeps fuel
      = some (g, calls, written))
    (b : Bool) (o : List String) (ho : graphHasLoop g = some (b, o)) :
    ∀ k ∈ o, ∃ n ∈ g.nodes, n.dependency.key = k := by
  obtain ⟨hinv, hdone, _⟩ := BuildGraph_inv getDeps fuel root rootDeps g calls written hbuild
  obtain ⟨rn, hrn, _⟩ := root_lookup g hinv.rootFirst
  have hrootkey : g.m_root.key ∈ g.nodeKeys := by
    obtain ⟨h1, h2⟩ := findNode_key g _ rn hrn
    rw [← h2]
    exact List.mem_map_of_mem _ h1
  have hclosed : ∀ k ∈ g.nodeKeys, ∀ c ∈ g.adjacentKeys k, c ∈ g.nodeKeys := by
    intro k _ c hc
    obtain ⟨n, hn, _, hcn⟩ := edge_source_mem g k c hc
    obtain ⟨d, hd, rfl⟩ := List.mem_map.mp hcn
    rcases hinv.closed n hn d hd with h | h
    · exact h
    · rw [hdone] at h; simp at h
  intro k hk
  have hmem := hasLoopDFS_subset g.adjacentKeys g.nodeKeys hclosed _ [] g.m_root.key [] b o
    hrootkey (by simp) ho k hk
  obtain ⟨n, hn, hnk⟩ := List.mem_map.mp hmem
  exact ⟨n, hn, hnk⟩

/-! ## The resolver -/

/-- C4: the resolver returns the empty dependency list when the search for the node's Id yields
no match, or more than one match (whatever the matched packages are), or exactly one match whose
latest available version fails `node.IsVersionOk`. -/
theorem resolver_unresolved_returns_empty (source : Source) (node : Dependency)
    (h : (source.Search (idSearchRequest node)).Matches = [] ∨
      1 < (source.Search (idSearchRequest node)).Matches.length ∨
      ∃ found latest, (source.Search (idSearchRequest node)).Matches = [found] ∧
        found.Package.GetLatestAvailableVersion = some latest ∧
        node.IsVersionOk latest.GetManifest.Version = false) :
    (resolver source node).1 = [] := by
  unfold resolver
  rcases h with h | h | ⟨found, latest, h, hl, hv⟩
  · rw [h]
  · cases hm : (source.Search (idSearchRequest node)).Matches with
    | nil => rfl
    | cons first others =>
      rw [hm] at h
      simp only [if_pos h]
  · rw [h]
    simp only [List.length_singleton, lt_self_iff_false, if_false, hl]
    split
    · rfl
    · split
      · rfl
      · simp [hv]

/-- Witness for C4: a source without matches, a source with two matches, and the test source
asked for `minVersion1.5` by a node that demands version 2.0. -/
theorem resolver_unresolved_returns_empty_witness :
    (resolver noMatchSource (packageDependency "B")).1 = [] ∧
    (resolver twoMatchSource (packageDependency "H")).1 = [] ∧
    (resolver (DependenciesTestSource testYaml)
      { Kind := DependencyType.Package, Id := "minVersion1.5", MinVersion := some "2.0" }).1
        = [] :=
  ⟨resolver_unresolved_returns_empty noMatchSource (packageDependency "B") (Or.inl rfl),
   resolver_unresolved_returns_empty twoMatchSource (packageDependency "H")
     (Or.inr (Or.inl (by decide))),
   resolver_unresolved_returns_empty (DependenciesTestSource testYaml)
     { Kind := DependencyType.Package, Id := "minVersion1.5", MinVersion := some "2.0" }
     (Or.inr (Or.inr ⟨_, _, rfl, rfl, by decide⟩))⟩

/-- The resolver on a node whose single match is installed at a satisfying version. -/
theorem resolver_of_installed (source : Source) (node : Dependency)
    (found : ResultMatch) (installed : PackageVersion)
    (hfound : (source.Search (idSearchRequest node)).Matches = [found])
    (hinstalled : found.Package.GetInstalledVersion = some installed)
    (hok : node.IsVersionOk installed.GetManifest.Version = true) :
    resolver source node = ([], "") := by
  unfold resolver
  rw [hfound]
  simp [installedVersionOk, hinstalled, hok]

/-- C5: when the search yields exactly one match whose package is installed at a version that
satisfies `node.IsVersionOk`, the resolver returns the empty dependency list and writes nothing,
whatever the installers of the package declare and whatever its latest available version is. -/
theorem resolver_installed_returns_empty (source : Source) (node : Dependency)
    (found : ResultMatch) (installed : PackageVersion)
    (hfound : (source.Search (idSearchRequest node)).Matches = [found])
    (hinstalled : found.Package.GetInstalledVersion = some installed)
    (hok : node.IsVersionOk installed.GetManifest.Version = true) :
    resolver source node = ([], "") :=
  resolver_of_installed source node found installed hfound hinstalled hok

/-- Witness for C5: `installed1` of the test source, which is installed and declares the
dependency `installed1Dep`. -/
theorem resolver_installed_returns_empty_witness :
    (∃ found installed,
      ((DependenciesTestSource testYaml).Search
        (idSearchRequest (packageDependency "installed1"))).Matches = [found] ∧
      found.Package.GetInstalledVersion = some installed ∧
      installed.GetManifest.Installers.map (fun i => i.Dependencies)
        = [[packageDependency "installed1Dep"]]) ∧
    resolver (DependenciesTestSource testYaml) (packageDependency "installed1") = ([], "") :=
  ⟨⟨_, _, rfl, rfl, by decide⟩,
   resolver_installed_returns_empty (DependenciesTestSource testYaml)
     (packageDependency "installed1") _ _ rfl rfl (by decide)⟩

/-- C6: when the search yields exactly one match that is not installed at a satisfying version
and whose latest available version has an installer and satisfies `node.IsVersionOk`, the
resolver returns the dependency list of the first installer of that version, whatever the other
installers (`others`) declare, and writes nothing. -/
theorem resolver_returns_first_installer_dependencies (source : Source) (node : Dependency)
    (found : ResultMatch) (latest : PackageVersion) (installer : ManifestInstaller)
    (others : List ManifestInstaller)
    (hfound : (source.Search (idSearchRequest node)).Matches = [found])
    (hinstalled : installedVersionOk node found.Package = false)
    (hlatest : found.Package.GetLatestAvailableVersion = some latest)
    (hinstallers : latest.GetManifest.Installers = installer :: others)
    (hok : node.IsVersionOk latest.GetManifest.Version = true) :
    resolver source node = (installer.Dependencies, "") := by
  unfold resolver
  rw [hfound]
  simp [hinstalled, hlatest, hinstallers, hok]

/-- Witness for C6: `H` of the test source, whose first installer declares `G` and `B`. -/
theorem resolver_returns_first_installer_dependencies_witness :
    resolver (DependenciesTestSource testYaml) (packageDependency "H")
      = ([packageDependency "G", packageDependency "B"], "") :=
  resolver_returns_first_installer_dependencies (DependenciesTestSource testYaml)
    (packageDependency "H") _ _ _ _ rfl (by decide) rfl rfl (by decide)

/-! ## The orchestrator -/

/-- C7: when the dependency list of the root installer is empty, `BuildPackageDependenciesGraph`
returns the context with only the `Dependencies` slot written (set to that empty list) and it
has made no call: `OpenDependencySource` was not run, no graph was built, neither the resolver
nor `InstallPackages` was invoked, and the termination state is as it was. -/
theorem no_dependencies_returns_at_once (env : Environment) (fuel : Nat) (context : TestContext)
    (rootManifest : Manifest) (installer : ManifestInstaller)
    (hmanifest : context.Manifest = some rootManifest)
    (hinstaller : context.Installer = some (some installer))
    (hempty : installer.Dependencies.Empty = true) :
    BuildPackageDependenciesGraph env fuel context
      = Except.ok (({ context with Dependencies := some [] } : TestContext), []) := by
  have hnil : installer.Dependencies = [] := by
    simpa [DependencyList.Empty] using hempty
  unfold BuildPackageDependenciesGraph prepareDependencies
  simp only [hmanifest, hinstaller, hnil, DependencyList.Empty, List.isEmpty, if_true,
    rootDependenciesAdded]

/-- Witness for C7: installing `B` of the test source, which declares no dependency. -/
theorem no_dependencies_returns_at_once_witness :
    BuildPackageDependenciesGraph (plainEnvironment true) 0 (dependencyTestContext "B")
      = Except.ok
          (({ dependencyTestContext "B" with Dependencies := some [] } : TestContext), []) :=
  no_dependencies_returns_at_once (plainEnvironment true) 0 (dependencyTestContext "B") _ _
    rfl rfl (by decide)

/-- C9, counterexample: lines 230 to 235 with an `InstallPackages` that reports a failure and
hands the context back terminated with the code 9: the context stays terminated with 9, not
with `APPINSTALLER_CLI_ERROR_INTERNAL_ERROR`, `Terminate` keeping the code recorded first. -/
theorem install_failure_code_counterexample :
    (abortedInstallEnvironment.InstallPackages manifestInstallContext []).1 = false ∧
    (installDependencies abortedInstallEnvironment manifestInstallContext []).terminationHR
      = some (HRESULT.other 9) ∧
    (installDependencies abortedInstallEnvironment manifestInstallContext []).terminationHR
      ≠ some HRESULT.APPINSTALLER_CLI_ERROR_INTERNAL_ERROR := by
  decide

/-- C9, amended: lines 230 to 235, for every context and list of installers.  If
`InstallPackages` reports a failure, the flow writes the error and calls `Terminate` with
`APPINSTALLER_CLI_ERROR_INTERNAL_ERROR`: the context it returns is terminated, with that code
when `InstallPackages` handed back a running context and with the code recorded before
otherwise.  If `InstallPackages` reports success, the flow returns the context `InstallPackages`
handed back, untouched. -/
theorem install_failure_terminates (env : Environment) (context : TestContext)
    (installers : List (Option PackagesAndInstallers)) :
    (∀ after, env.InstallPackages context installers = (false, after) →
      installDependencies env context installers
        = (after.write "error installing dependencies\n").Terminate
            HRESULT.APPINSTALLER_CLI_ERROR_INTERNAL_ERROR ∧
      (installDependencies env context installers).IsTerminated = true ∧
      (after.terminationHR = none →
        (installDependencies env context installers).terminationHR
          = some HRESULT.APPINSTALLER_CLI_ERROR_INTERNAL_ERROR) ∧
      (∀ hr, after.terminationHR = some hr →
        (installDependencies env context installers).terminationHR = some hr)) ∧
    (∀ after, env.InstallPackages context installers = (true, after) →
      installDependencies env context installers = after) := by
  refine ⟨?_, ?_⟩
  · intro after hafter
    have hrun : installDependencies env context installers
        = (after.write "error installing dependencies\n").Terminate
            HRESULT.APPINSTALLER_CLI_ERROR_INTERNAL_ERROR := by
      simp only [installDependencies, hafter]
    rw [hrun]
    refine ⟨rfl, ?_, ?_, ?_⟩
    · unfold TestContext.Terminate TestContext.IsTerminated
      cases h : (after.write "error installing dependencies\n").terminationHR with
      | none => rfl
      | some hr => simp [h]
    · intro hnone
      have h : (after.write "error installing dependencies\n").terminationHR = none := hnone
      unfold TestContext.Terminate
      rw [h]
    · intro hr hsome
      have h : (after.write "error installing dependencies\n").terminationHR = some hr := hsome
      unfold TestContext.Terminate
      rw [h]
      exact hsome
  · intro after hafter
    simp only [installDependencies, hafter]

/-- Witness for C9: with an `InstallPackages` that fails on a running context the returned
context carries the internal error, and with one that succeeds it is not terminated. -/
theorem install_failure_terminates_witness :
    (installDependencies (plainEnvironment false) manifestInstallContext []).terminationHR
      = some HRESULT.APPINSTALLER_CLI_ERROR_INTERNAL_ERROR ∧
    (installDependencies (plainEnvironment true) manifestInstallContext []).terminationHR
      = none :=
  ⟨((install_failure_terminates (plainEnvironment false) manifestInstallContext []).1
      manifestInstallContext rfl).2.2.1 rfl,
   by rw [(install_failure_terminates (plainEnvironment true) manifestInstallContext []).2
      manifestInstallContext rfl]; rfl⟩

/-! ## The graph -/

/-- C1: in every graph that `BuildGraph` produced and in which `HasLoop()` found no loop,
`GetInstallationOrder` returns a sequence that contains every node that has prerequisites and
each of these prerequisites, and in which every node sits at a strictly greater index than each
of its prerequisites: the adjacents of the node, which for the root are its declared
dependencies and for any other node the dependencies the resolver returned for it. -/
theorem installation_order_respects_prerequisites
    (getDependencies : Dependency → DependencyList × String) (fuel : Nat) (root : Dependency)
    (rootDependencies : DependencyList) (graph : DependencyGraph) (calls : List Dependency)
    (written : String)
    (hbuild : (DependencyGraph.create root rootDependencies).BuildGraph getDependencies fuel
      = some (graph, calls, written))
    (hacyclic : graph.HasLoop = some false) :
    ∃ order, graph.GetInstallationOrder = some order ∧
      (∀ node ∈ graph.nodes, ∀ prerequisite ∈ node.adjacents,
        node.dependency.key ∈ order.map Dependency.key ∧
        prerequisite.key ∈ order.map Dependency.key ∧
        (order.map Dependency.key).indexOf prerequisite.key
          < (order.map Dependency.key).indexOf node.dependency.key) ∧
      (∀ prerequisite ∈ rootDependencies,
        (order.map Dependency.key).indexOf prerequisite.key
          < (order.map Dependency.key).indexOf root.key) ∧
      (∀ node ∈ calls, ∀ prerequisite ∈ (getDependencies node).1,
        (order.map Dependency.key).indexOf prerequisite.key
          < (order.map Dependency.key).indexOf node.key) := by
  by_cases hdeps : rootDependencies = []
  · subst hdeps
    rw [BuildGraph_of_no_dependencies] at hbuild
    simp only [Option.some.injEq, Prod.mk.injEq] at hbuild
    obtain ⟨hg, hc, _⟩ := hbuild
    subst hg
    subst hc
    refine ⟨[], GetInstallationOrder_of_no_dependencies root, ?_, ?_, ?_⟩
    · intro node hn prerequisite hp
      simp only [DependencyGraph.create, List.mem_singleton] at hn
      subst hn
      simp at hp
    · intro prerequisite hp
      simp at hp
    · intro node hc
      simp at hc
  obtain ⟨hinv, _, hroot⟩ :=
    BuildGraph_inv getDependencies fuel root rootDependencies graph calls written hbuild
  obtain ⟨o, order, _, horder, hkeys, htopo, hall, _⟩ :=
    built_graph_order getDependencies fuel root rootDependencies graph calls written hbuild
      hacyclic hdeps
  have hnode : ∀ node ∈ graph.nodes, ∀ prerequisite ∈ node.adjacents,
      node.dependency.key ∈ o ∧ prerequisite.key ∈ o ∧
        o.indexOf prerequisite.key < o.indexOf node.dependency.key := by
    intro node hn prerequisite hp
    have hedge : prerequisite.key ∈ graph.adjacentKeys node.dependency.key := by
      rw [adjacentKeys_of_mem graph hinv.nodup node hn]
      exact List.mem_map_of_mem _ hp
    obtain ⟨h1, h2⟩ := Topo_index graph.adjacentKeys o htopo _ (hall node hn) _ hedge
    exact ⟨hall node hn, h1, h2⟩
  refine ⟨order, horder, ?_, ?_, ?_⟩
  · rw [hkeys]; exact hnode
  · intro prerequisite hp
    obtain ⟨n, hn, hnk, hna⟩ := hinv.rootAdjacents
    rw [hkeys, ← hroot, ← hnk]
    exact (hnode n hn prerequisite (by rw [hna]; exact hp)).2.2
  · intro node hc prerequisite hp
    obtain ⟨n, hn, hnk, hna⟩ := hinv.resolved node hc
    rw [hkeys, ← hnk]
    exact (hnode n hn prerequisite (by rw [hna]; exact hp)).2.2

/-- Witness for C1: the graph of `PathBetweenBranchesButNoLoop`, built from the test source. -/
theorem installation_order_respects_prerequisites_witness :
    (DependencyGraph.create (rootAsDependency pathBetweenBranchesManifest)
        [packageDependency "C", packageDependency "H"]).BuildGraph
      (resolver (DependenciesTestSource testYaml)) 20
        = some (pathBetweenBranchesGraph,
            [packageDependency "C", packageDependency "H", packageDependency "B",
             packageDependency "G"], "") ∧
    pathBetweenBranchesGraph.HasLoop = some false ∧
    ∃ order, pathBetweenBranchesGraph.GetInstallationOrder = some order ∧
      ∀ node ∈ pathBetweenBranchesGraph.nodes, ∀ prerequisite ∈ node.adjacents,
        node.dependency.key ∈ order.map Dependency.key ∧
        prerequisite.key ∈ order.map Dependency.key ∧
        (order.map Dependency.key).indexOf prerequisite.key
          < (order.map Dependency.key).indexOf node.dependency.key :=
  ⟨by decide, by decide,
   match installation_order_respects_prerequisites (resolver (DependenciesTestSource testYaml))
      20 (rootAsDependency pathBetweenBranchesManifest)
      [packageDependency "C", packageDependency "H"] pathBetweenBranchesGraph
      [packageDependency "C", packageDependency "H", packageDependency "B",
       packageDependency "G"] "" (by decide) (by decide) with
   | ⟨order, h1, h2, _, _⟩ => ⟨order, h1, h2⟩⟩

/-- C2: `HasLoop()` answers, for every graph, and it answers true exactly when some node
reachable from the root along dependency edges can reach itself along at least one edge.  It is
true for `EasyToSeeLoop → D → E → D`, and false for `PathBetweenBranchesButNoLoop` and
`DependencyAlreadyInStackButNoLoop`, where nodes are reachable along several paths. -/
theorem hasLoop_iff_reachable_cycle :
    (∀ graph : DependencyGraph,
      (graph.HasLoop = some true ↔
        ∃ n, Relation.ReflTransGen (Edge graph.adjacentKeys) graph.m_root.key n ∧
          Relation.TransGen (Edge graph.adjacentKeys) n n) ∧
      (graph.HasLoop = some false ↔
        ¬ ∃ n, Relation.ReflTransGen (Edge graph.adjacentKeys) graph.m_root.key n ∧
          Relation.TransGen (Edge graph.adjacentKeys) n n)) ∧
    (dependencyTestGraph 20 "EasyToSeeLoop" = some easyToSeeLoopGraph ∧
      easyToSeeLoopGraph.HasLoop = some true) ∧
    (dependencyTestGraph 20 "PathBetweenBranchesButNoLoop" = some pathBetweenBranchesGraph ∧
      pathBetweenBranchesGraph.HasLoop = some false) ∧
    (dependencyTestGraph 20 "DependencyAlreadyInStackButNoLoop" = some alreadyInStackGraph ∧
      alreadyInStackGraph.HasLoop = some false) := by
  refine ⟨?_, ⟨by decide, by decide⟩, ⟨by decide, by decide⟩, ⟨by decide, by decide⟩⟩
  intro graph
  have hsound : graph.HasLoop = some true →
      ∃ n, Relation.ReflTransGen (Edge graph.adjacentKeys) graph.m_root.key n ∧
        Relation.TransGen (Edge graph.adjacentKeys) n n := by
    intro h
    obtain ⟨o, ho⟩ := HasLoop_eq_some graph true h
    exact hasLoopDFS_true graph.adjacentKeys _ [] graph.m_root.key [] o (by simp) ho
  have hcomplete : graph.HasLoop = some false →
      ¬ ∃ n, Relation.ReflTransGen (Edge graph.adjacentKeys) graph.m_root.key n ∧
        Relation.TransGen (Edge graph.adjacentKeys) n n := by
    intro h
    obtain ⟨o, ho⟩ := HasLoop_eq_some graph false h
    obtain ⟨htopo, hrootmem, _, _⟩ :=
      hasLoopDFS_false graph.adjacentKeys _ [] graph.m_root.key [] o ho (Topo_nil _)
    rintro ⟨n, hreach, hcycle⟩
    have hn := Topo_closed graph.adjacentKeys o htopo _ _ hreach hrootmem
    exact lt_irrefl _ (Topo_transGen_index graph.adjacentKeys o htopo n n hcycle hn).2
  have htotal : graph.HasLoop = some true ∨ graph.HasLoop = some false := by
    have h := graphHasLoop_isSome graph
    unfold DependencyGraph.HasLoop
    cases hg : graphHasLoop graph with
    | none => rw [hg] at h; simp at h
    | some r =>
      obtain ⟨b, o⟩ := r
      cases b
      · exact Or.inr rfl
      · exact Or.inl rfl
  constructor
  · constructor
    · exact hsound
    · intro hc
      rcases htotal with h | h
      · exact h
      · exact absurd hc (hcomplete h)
  · constructor
    · exact hcomplete
    · intro hc
      rcases htotal with h | h
      · exact absurd (hsound h) hc
      · exact h

/-- What it takes for the first part of the flow to reach `InstallPackages`. -/
theorem prepareDependencies_install (env : Environment) (fuel : Nat) (context : TestContext)
    (context1 : TestContext) (installationOrder : List Dependency)
    (installers : List (Option PackagesAndInstallers)) (calls : List Call)
    (h : prepareDependencies env fuel context
      = Except.ok (Prepared.install context1 installationOrder installers calls)) :
    ∃ rootManifest installer source graph resolved written,
      context.Manifest = some rootManifest ∧
      context.Installer = some (some installer) ∧
      (dependencySourceOpened env
        (rootDependenciesAdded context installer.Dependencies)).DependencySource = some source ∧
      (DependencyGraph.create (rootAsDependency rootManifest)
        installer.Dependencies).BuildGraph (resolver source) fuel
          = some (graph, resolved, written) ∧
      graph.HasLoop = some false ∧
      graph.GetInstallationOrder = some installationOrder ∧
      context1 = ((dependencySourceOpened env
        (rootDependenciesAdded context installer.Dependencies)).write written).write
          (reportOrder installationOrder ++ "\n") ∧
      installers = collectInstallers [] installationOrder ∧
      calls = [Call.OpenDependencySource, Call.BuildGraph] ++ resolved.map Call.Resolver ++
        [Call.HasLoop] ++ [Call.GetInstallationOrder] ∧
      installer.Dependencies ≠ [] := by
  unfold prepareDependencies at h
  cases hm : context.Manifest with
  | none => simp [hm] at h
  | some rootManifest =>
    cases hi : context.Installer with
    | none => simp [hm, hi] at h
    | some optInstaller =>
      cases optInstaller with
      | none => simp [hm, hi] at h
      | some installer =>
        simp only [hm, hi] at h
        by_cases hE : installer.Dependencies.Empty = true
        · simp [hE] at h
        · simp only [hE] at h
          cases hs : (dependencySourceOpened env
              (rootDependenciesAdded context installer.Dependencies)).DependencySource with
          | none => simp [hs] at h
          | some source =>
            simp only [hs] at h
            cases hb : (DependencyGraph.create (rootAsDependency rootManifest)
                installer.Dependencies).BuildGraph (resolver source) fuel with
            | none => simp [hb] at h
            | some built =>
              obtain ⟨graph, resolved, written⟩ := built
              simp only [hb] at h
              cases hl : graph.HasLoop with
              | none => simp [hl] at h
              | some b =>
                cases b with
                | true => simp [hl] at h
                | false =>
                  simp only [hl] at h
                  cases ho : graph.GetInstallationOrder with
                  | none => simp [ho] at h
                  | some order =>
                    simp only [ho, Bool.false_eq_true, if_false, Except.ok.injEq,
                      Prepared.install.injEq] at h
                    obtain ⟨h1, h2, h3, h4⟩ := h
                    subst h2
                    exact ⟨rootManifest, installer, source, graph, resolved, written, rfl, rfl,
                      hs, hb, hl, ho, h1.symm, h3.symm, h4.symm,
                      fun hnil => hE (by rw [hnil]; rfl)⟩

/-- The adjacents of every key, in a graph that `BuildGraph` produced, are the dependencies
declared for it: the root's list, or the list the resolver returned. -/
theorem adjacentKeys_eq_declaredKeys (getDeps : Dependency → DependencyList × String)
    (fuel : Nat) (root : Dependency) (rootDeps : DependencyList) (g : DependencyGraph)
    (calls : List Dependency) (written : String)
    (hbuild : (DependencyGraph.create root rootDeps).BuildGraph getDeps fuel
      = some (g, calls, written)) (k : String) :
    g.adjacentKeys k = declaredKeys getDeps root rootDeps calls k := by
  obtain ⟨hinv, _, hroot⟩ := BuildGraph_inv getDeps fuel root rootDeps g calls written hbuild
  have hkeys := BuildGraph_nodeKeys getDeps fuel root rootDeps g calls written hbuild
  unfold declaredKeys
  by_cases hk : k = root.key
  · rw [if_pos hk, hk, ← hroot]
    exact root_adjacentKeys getDeps fuel root rootDeps g calls written hbuild
  · rw [if_neg hk]
    cases hf : calls.find? (fun node => node.key == k) with
    | some node =>
      have hmem := List.mem_of_find?_eq_some hf
      have hkey : node.key = k := by simpa using List.find?_some hf
      obtain ⟨n, hn, hnk, hna⟩ := hinv.resolved node hmem
      simp only
      rw [← hkey, ← hnk, adjacentKeys_of_mem g hinv.nodup n hn, hna]
    | none =>
      simp only
      have hnot : k ∉ g.nodeKeys := by
        rw [hkeys, hroot]
        intro hin
        rcases List.mem_cons.mp hin with h | h
        · exact hk h
        · obtain ⟨d, hd, hdk⟩ := List.mem_map.mp h
          have := List.find?_eq_none.mp hf d hd
          simp [hdk] at this
      unfold DependencyGraph.adjacentKeys DependencyGraph.findNode
      have hnone : g.nodes.find? (fun n => n.dependency.key == k) = none := by
        rw [List.find?_eq_none]
        intro n hn hnk
        exact hnot (List.mem_map.mpr ⟨n, hn, by simpa using hnk⟩)
      rw [hnone]

/-- C3: for the graph that `BuildPackageDependenciesGraph` builds (lines 140 to 205: the root
made of the manifest, the dependencies of the root installer, which are not empty there, and the
resolver over the dependency source) and in which no loop is found, the installation order it
obtains at line 217 and prints at lines 222 to 228 is the depth-first post-order from the root
over the declared dependencies: those of the root's list for the root and those the resolver
returned for every other node, visited in their declared order.  The order lists the root and
every dependency the resolver was invoked for, nothing else and nothing twice, and ends with
the root package.  For the roots `NeedsToInstallBFirst`, `DependencyAlreadyInStackButNoLoop` and
`PathBetweenBranchesButNoLoop` of the test source the printed orders are those of the tests. -/
theorem reported_order_is_post_order :
    (∀ (source : Source) (fuel : Nat) (rootManifest : Manifest)
        (rootDependencies : DependencyList) (graph : DependencyGraph)
        (resolved : List Dependency) (written : String),
      rootDependencies ≠ [] →
      (DependencyGraph.create (rootAsDependency rootManifest) rootDependencies).BuildGraph
        (resolver source) fuel = some (graph, resolved, written) →
      graph.HasLoop = some false →
      ∃ installationOrder,
        graph.GetInstallationOrder = some installationOrder ∧
        (∀ k, graph.adjacentKeys k
          = declaredKeys (resolver source) (rootAsDependency rootManifest) rootDependencies
              resolved k) ∧
        postOrder
            (declaredKeys (resolver source) (rootAsDependency rootManifest) rootDependencies
              resolved)
            (graph.allKeys.length + 1) (rootAsDependency rootManifest).key []
          = some (installationOrder.map Dependency.key) ∧
        (installationOrder.map Dependency.key).Nodup ∧
        (rootAsDependency rootManifest).key ∈ installationOrder.map Dependency.key ∧
        (∀ node ∈ resolved, node.key ∈ installationOrder.map Dependency.key) ∧
        (∀ k ∈ installationOrder.map Dependency.key,
          k = (rootAsDependency rootManifest).key ∨ ∃ node ∈ resolved, node.key = k) ∧
        installationOrder.getLast?.map (fun d => d.Id) = some rootManifest.Id) ∧
    ((DependencyGraph.create (rootAsDependency needsToInstallBFirstManifest)
          [packageDependency "B", packageDependency "C"]).BuildGraph
        (resolver (DependenciesTestSource testYaml)) 20
          = some (needsToInstallBFirstGraph, [packageDependency "B", packageDependency "C"],
              "") ∧
      needsToInstallBFirstGraph.GetInstallationOrder.map reportOrder
        = some "order: B, C, NeedsToInstallBFirst, ") ∧
    (dependencyTestGraph 20 "DependencyAlreadyInStackButNoLoop" = some alreadyInStackGraph ∧
      alreadyInStackGraph.GetInstallationOrder.map reportOrder
        = some "order: B, C, F, DependencyAlreadyInStackButNoLoop, ") ∧
    (dependencyTestGraph 20 "PathBetweenBranchesButNoLoop" = some pathBetweenBranchesGraph ∧
      pathBetweenBranchesGraph.GetInstallationOrder.map reportOrder
        = some "order: B, C, G, H, PathBetweenBranchesButNoLoop, ") := by
  refine ⟨?_, ⟨by decide, by decide⟩, ⟨by decide, by decide⟩, ⟨by decide, by decide⟩⟩
  intro source fuel rootManifest rootDependencies graph resolved written hdeps hb hl
  obtain ⟨hinv, _, hroot⟩ :=
    BuildGraph_inv (resolver source) fuel (rootAsDependency rootManifest) rootDependencies
      graph resolved written hb
  obtain ⟨o, order, hdfs, horder, hkeys, htopo, hall, hlast⟩ :=
    built_graph_order (resolver source) fuel (rootAsDependency rootManifest)
      rootDependencies graph resolved written hb hl hdeps
  have hadj : graph.adjacentKeys
      = declaredKeys (resolver source) (rootAsDependency rootManifest) rootDependencies
          resolved :=
    funext (adjacentKeys_eq_declaredKeys (resolver source) fuel (rootAsDependency rootManifest)
      rootDependencies graph resolved written hb)
  have hnodes := BuildGraph_nodeKeys (resolver source) fuel (rootAsDependency rootManifest)
    rootDependencies graph resolved written hb
  have hin : ∀ k ∈ graph.nodeKeys, k ∈ o := by
    intro k hk
    obtain ⟨n, hn, hnk⟩ := List.mem_map.mp hk
    rw [← hnk]
    exact hall n hn
  refine ⟨order, horder, congrFun hadj, ?_, ?_, ?_, ?_, ?_, ?_⟩
  · rw [hkeys, ← hadj, ← hroot]
    exact postOrder_of_hasLoopDFS graph.adjacentKeys _ [] graph.m_root.key [] o hdfs
  · rw [hkeys]
    exact Topo_nodup graph.adjacentKeys o htopo
  · rw [hkeys]
    exact hin _ (by rw [hnodes, hroot]; exact List.mem_cons_self _ _)
  · intro node hnode
    rw [hkeys]
    exact hin _ (by rw [hnodes]; exact List.mem_cons_of_mem _ (List.mem_map_of_mem _ hnode))
  · intro k hk
    rw [hkeys] at hk
    obtain ⟨n, hn, hnk⟩ := built_graph_order_keys (resolver source) fuel
      (rootAsDependency rootManifest) rootDependencies graph resolved written hb false o hdfs
      k hk
    have hmem : k ∈ graph.nodeKeys := by
      rw [← hnk]
      exact List.mem_map_of_mem (fun n => n.dependency.key) hn
    rw [hnodes, hroot] at hmem
    rcases List.mem_cons.mp hmem with h | h
    · exact Or.inl h
    · obtain ⟨d, hd, hdk⟩ := List.mem_map.mp h
      exact Or.inr ⟨d, hd, hdk⟩
  · rw [hlast]
    rfl

/-- Witness for C3: the graph of `NeedsToInstallBFirst`, built from the test source: its order
is the post-order over the declared lists, `B, C` and the root. -/
theorem reported_order_is_post_order_witness :
    ∃ installationOrder,
      needsToInstallBFirstGraph.GetInstallationOrder = some installationOrder ∧
      installationOrder.map (fun d => d.Id) = ["B", "C", "NeedsToInstallBFirst"] ∧
      postOrder
          (declaredKeys (resolver (DependenciesTestSource testYaml))
            (rootAsDependency needsToInstallBFirstManifest)
            [packageDependency "B", packageDependency "C"]
            [packageDependency "B", packageDependency "C"])
          (needsToInstallBFirstGraph.allKeys.length + 1)
          (rootAsDependency needsToInstallBFirstManifest).key []
        = some (installationOrder.map Dependency.key) :=
  match reported_order_is_post_order.1 (DependenciesTestSource testYaml) 20
      needsToInstallBFirstManifest [packageDependency "B", packageDependency "C"]
      needsToInstallBFirstGraph [packageDependency "B", packageDependency "C"] ""
      (by decide) (by decide) (by decide) with
  | ⟨order, h1, _, h3, _⟩ =>
    ⟨order, h1,
      by
        have h : needsToInstallBFirstGraph.GetInstallationOrder
            = some [packageDependency "B", packageDependency "C",
                rootAsDependency needsToInstallBFirstManifest] := by decide
        rw [h] at h1
        rw [← Option.some.inj h1]
        rfl,
      h3⟩

/-- C10: for every dependency the resolver was invoked for and found installed at a satisfying
version, the graph `BuildGraph` produced has a node for it and that node has no adjacents; and
the resolver is only ever invoked for a root dependency or for a dependency the resolver itself
returned, so never on account of what an installed package declares.  For the root
`DependenciesInstalled` of the test source, whose dependency `installed1` is installed and
declares `installed1Dep`, the order is `installed1, DependenciesInstalled`, the resolver is
invoked for `installed1` only, and `installed1Dep` does not occur in the output. -/
theorem installed_dependency_is_not_expanded :
    (∀ (source : Source) (fuel : Nat) (root : Dependency) (rootDependencies : DependencyList)
        (graph : DependencyGraph) (calls : List Dependency) (written : String),
      (DependencyGraph.create root rootDependencies).BuildGraph (resolver source) fuel
        = some (graph, calls, written) →
      (∀ node ∈ calls, ∀ found installed,
        (source.Search (idSearchRequest node)).Matches = [found] →
        found.Package.GetInstalledVersion = some installed →
        node.IsVersionOk installed.GetManifest.Version = true →
        ∃ n ∈ graph.nodes, n.dependency.key = node.key ∧ n.adjacents = []) ∧
      (∀ node ∈ calls,
        node ∈ rootDependencies ∨ ∃ parent ∈ calls, node ∈ (resolver source parent).1)) ∧
    (∀ env : Environment,
      plannedOrder (prepareDependencies env 20 (dependencyTestContext "DependenciesInstalled"))
        = some ["installed1", "DependenciesInstalled"] ∧
      callsMade (prepareDependencies env 20 (dependencyTestContext "DependenciesInstalled"))
        = some [Call.OpenDependencySource, Call.BuildGraph,
            Call.Resolver (packageDependency "installed1"), Call.HasLoop,
            Call.GetInstallationOrder] ∧
      reportedText (prepareDependencies env 20 (dependencyTestContext "DependenciesInstalled"))
        = some "order: installed1, DependenciesInstalled, \n") ∧
    occursIn "installed1Dep" "order: installed1, DependenciesInstalled, \n" = false := by
  refine ⟨?_, fun _ => ⟨rfl, rfl, rfl⟩, by decide⟩
  intro source fuel root rootDependencies graph calls written hbuild
  obtain ⟨hinv, _, _⟩ :=
    BuildGraph_inv (resolver source) fuel root rootDependencies graph calls written hbuild
  refine ⟨?_, hinv.discovered⟩
  intro node hnode found installed hfound hinstalled hok
  obtain ⟨n, hn, hnk, hna⟩ := hinv.resolved node hnode
  refine ⟨n, hn, hnk, ?_⟩
  rw [hna, resolver_of_installed source node found installed hfound hinstalled hok]

/-- Witness for C10: the graph built for `DependenciesInstalled` of the test source keeps the
installed dependency `installed1` as a node without adjacents. -/
theorem installed_dependency_is_not_expanded_witness :
    (DependencyGraph.create (rootAsDependency dependenciesInstalledManifest)
        [packageDependency "installed1"]).BuildGraph
      (resolver (DependenciesTestSource testYaml)) 20
        = some (dependenciesInstalledGraph, [packageDependency "installed1"], "") ∧
    ∃ n ∈ dependenciesInstalledGraph.nodes,
      n.dependency.key = (packageDependency "installed1").key ∧ n.adjacents = [] :=
  ⟨by decide,
   (installed_dependency_is_not_expanded.1 (DependenciesTestSource testYaml) 20
      (rootAsDependency dependenciesInstalledManifest) [packageDependency "installed1"]
      dependenciesInstalledGraph [packageDependency "installed1"] "" (by decide)).1
      (packageDependency "installed1") (by decide) _ _ rfl rfl (by decide)⟩


/-! ## The feature gate -/

/-- C14: with the dependencies feature disabled, `GetInstallersDependenciesFromManifest`,
`GetDependenciesFromInstaller`, `GetDependenciesInfoForUninstall` and `ReportDependencies`
return every context exactly as they received it: no slot is read (none needs to be set) or
written, and nothing is written to the reporter. -/
theorem disabled_feature_tasks_do_nothing (context : TestContext) (titles : DependencyTitles)
    (message : String) :
    GetInstallersDependenciesFromManifest false context = Except.ok context ∧
    GetDependenciesFromInstaller false context = Except.ok context ∧
    GetDependenciesInfoForUninstall false context = Except.ok context ∧
    ReportDependencies false titles message context = Except.ok context := by
  refine ⟨?_, ?_, ?_, ?_⟩
  · simp [GetInstallersDependenciesFromManifest]
  · simp [GetDependenciesFromInstaller]
  · simp [GetDependenciesInfoForUninstall]
  · simp [ReportDependencies]

/-- C15, the code at the failing input: `BuildPackageDependenciesGraph` does not consult the
feature setting.  For the root `StackOrderIsOk`, on which the gated task
`GetDependenciesFromInstaller` does nothing when the feature is disabled, it writes the
`Dependencies` slot, has the resolver invoked for `C` and `B`, and calls `InstallPackages`. -/
theorem buildPackageDependenciesGraph_ignores_feature :
    GetDependenciesFromInstaller false (dependencyTestContext "StackOrderIsOk")
      = Except.ok (dependencyTestContext "StackOrderIsOk") ∧
    (dependencyTestContext "StackOrderIsOk").Dependencies = none ∧
    ∃ final calls,
      BuildPackageDependenciesGraph (plainEnvironment true) 20
        (dependencyTestContext "StackOrderIsOk") = Except.ok (final, calls) ∧
      final.Dependencies = some [packageDependency "C"] ∧
      calls = [Call.OpenDependencySource, Call.BuildGraph,
        Call.Resolver (packageDependency "C"), Call.Resolver (packageDependency "B"),
        Call.HasLoop, Call.GetInstallationOrder, Call.InstallPackages [none, none, none]] :=
  ⟨by simp [GetDependenciesFromInstaller], rfl, _, _, rfl, rfl, rfl⟩

/-! ## Termination and chains -/

/-- C16, counterexample: on a context that is already terminated with another code,
`Terminate(c1)` followed by `Terminate(c2)` does not leave the code `c1`. -/
theorem terminate_twice_counterexample :
    ¬ ∀ (context : TestContext) (c1 c2 : HRESULT),
      ((context.Terminate c1).Terminate c2).terminationHR = some c1 := by
  intro h
  have h1 := h (TestContext.create.Terminate (HRESULT.other 7))
    HRESULT.APPINSTALLER_CLI_ERROR_INTERNAL_ERROR HRESULT.S_OK
  revert h1
  decide

/-- C16, amended: `Terminate` is first-writer-wins.  After `Terminate(c1)` followed by
`Terminate(c2)` the context is terminated; the recorded code is `c1` when the context was
running and the code it already had otherwise, and the second call never changes what the first
left.  A terminated context stays terminated, with its code, under `Terminate`, under writing to
the reporter, under adding a slot and under the pipeline operator, which leaves it as it is. -/
theorem terminate_first_writer_wins (context : TestContext) (c1 c2 : HRESULT) :
    ((context.Terminate c1).Terminate c2).IsTerminated = true ∧
    ((context.Terminate c1).Terminate c2) = context.Terminate c1 ∧
    (context.terminationHR = none →
      ((context.Terminate c1).Terminate c2).terminationHR = some c1) ∧
    (∀ hr, context.terminationHR = some hr →
      ((context.Terminate c1).Terminate c2).terminationHR = some hr ∧
      (context.Terminate c1).terminationHR = some hr ∧
      (∀ text, (context.write text).terminationHR = some hr) ∧
      (∀ dependencies, (rootDependenciesAdded context dependencies).terminationHR = some hr) ∧
      (∀ task body, context.run task body = context)) := by
  have hterm : ∀ (c : TestContext) (hr : HRESULT), c.terminationHR = some hr →
      ∀ code, c.Terminate code = c := by
    intro c hr hc code
    unfold TestContext.Terminate
    rw [hc]
  cases hc : context.terminationHR with
  | none =>
    have h1 : (context.Terminate c1).terminationHR = some c1 := by
      unfold TestContext.Terminate
      rw [hc]
    have h2 := hterm (context.Terminate c1) c1 h1 c2
    refine ⟨?_, h2, ?_, ?_⟩
    · rw [h2]; simp [TestContext.IsTerminated, h1]
    · intro _; rw [h2]; exact h1
    · intro hr h; exact absurd h (by simp)
  | some hr0 =>
    have h1 := hterm context hr0 hc c1
    have h2 : (context.Terminate c1).Terminate c2 = context.Terminate c1 := by
      rw [h1]; exact hterm context hr0 hc c2
    refine ⟨?_, h2, ?_, ?_⟩
    · rw [h2, h1]; simp [TestContext.IsTerminated, hc]
    · intro h; exact absurd h (by simp)
    · intro hr h
      have hhr : hr0 = hr := Option.some.inj h
      subst hhr
      refine ⟨by rw [h2, h1]; exact hc, by rw [h1]; exact hc, fun _ => hc, fun _ => hc, ?_⟩
      intro task body
      unfold TestContext.run TestContext.IsTerminated
      simp [hc]

/-- Witness for C16: the new test context, which is running, and the same context terminated
with another code beforehand. -/
theorem terminate_first_writer_wins_witness :
    ((TestContext.create.Terminate HRESULT.APPINSTALLER_CLI_ERROR_INTERNAL_ERROR).Terminate
      HRESULT.S_OK).terminationHR = some HRESULT.APPINSTALLER_CLI_ERROR_INTERNAL_ERROR ∧
    (((TestContext.create.Terminate (HRESULT.other 7)).Terminate
      HRESULT.APPINSTALLER_CLI_ERROR_INTERNAL_ERROR).Terminate HRESULT.S_OK).terminationHR
        = some (HRESULT.other 7) :=
  ⟨(terminate_first_writer_wins TestContext.create
      HRESULT.APPINSTALLER_CLI_ERROR_INTERNAL_ERROR HRESULT.S_OK).2.2.1 rfl,
   ((terminate_first_writer_wins (TestContext.create.Terminate (HRESULT.other 7))
      HRESULT.APPINSTALLER_CLI_ERROR_INTERNAL_ERROR HRESULT.S_OK).2.2.2
        (HRESULT.other 7) rfl).1⟩

theorem runChain_terminated (steps : List WorkflowStep) :
    ∀ context : TestContext, context.IsTerminated = true →
      runChain steps context = (context, []) := by
  induction steps with
  | nil => intro context _; rfl
  | cons step rest ih =>
    intro context h
    have hrun : context.run step.task step.body = context := by
      unfold TestContext.run
      rw [if_pos h]
    unfold runChain
    rw [hrun, ih context h, if_pos h]
    rfl

theorem runChain_cons (step : WorkflowStep) (rest : List WorkflowStep) (context : TestContext) :
    runChain (step :: rest) context
      = ((runChain rest (context.run step.task step.body)).1,
         (if context.IsTerminated then [] else [step.task]) ++
           (runChain rest (context.run step.task step.body)).2) := rfl

theorem runChain_append (first second : List WorkflowStep) :
    ∀ context : TestContext,
      runChain (first ++ second) context
        = ((runChain second (runChain first context).1).1,
           (runChain first context).2 ++ (runChain second (runChain first context).1).2) := by
  induction first with
  | nil => intro context; simp [runChain]
  | cons step rest ih =>
    intro context
    have h := ih (context.run step.task step.body)
    show runChain (step :: (rest ++ second)) context = _
    simp only [runChain_cons, h, List.append_assoc]

/-- C17: in a chained sequence of steps, once the context is terminated after some step, running
the whole sequence gives exactly what running the sequence up to and including that step gives:
the same final context and the same executed tasks, so none of the later steps is executed. -/
theorem chain_stops_after_termination (before : List WorkflowStep) (step : WorkflowStep)
    (after : List WorkflowStep) (context : TestContext)
    (hterminated : (runChain (before ++ [step]) context).1.IsTerminated = true) :
    runChain (before ++ step :: after) context = runChain (before ++ [step]) context := by
  have hsplit : before ++ step :: after = (before ++ [step]) ++ after := by simp
  rw [hsplit, runChain_append, runChain_terminated after _ hterminated]
  simp

/-- Witness for C17: a writing step, a failing step and two more writing steps, run on the new
test context: only the first two are executed and the reporter holds the text of the first. -/
theorem chain_stops_after_termination_witness :
    (runChain [writingStep "one", failingStep "two", writingStep "three", writingStep "four"]
      TestContext.create).2 = [WorkflowTask.named "one", WorkflowTask.named "two"] ∧
    (runChain [writingStep "one", failingStep "two", writingStep "three", writingStep "four"]
      TestContext.create).1.Reporter = "one" ∧
    runChain ([writingStep "one"] ++ failingStep "two" ::
        [writingStep "three", writingStep "four"]) TestContext.create
      = runChain ([writingStep "one"] ++ [failingStep "two"]) TestContext.create :=
  ⟨by decide, by decide,
   chain_stops_after_termination [writingStep "one"] (failingStep "two")
     [writingStep "three", writingStep "four"] TestContext.create (by decide)⟩

/-! ## Overrides and clones -/

theorem find_first_override (task : WorkflowTask) (wto : WorkflowTaskOverride)
    (after : List WorkflowTaskOverride) (htarget : wto.Target = task) :
    ∀ before : List WorkflowTaskOverride, (∀ o ∈ before, o.Target ≠ task) →
      (before ++ wto :: after).find? (fun o => o.Target == task) = some wto ∧
      markUsed (before ++ wto :: after) task = before ++ { wto with Used := true } :: after := by
  intro before
  induction before with
  | nil =>
    intro _
    constructor
    · simp [List.find?, htarget]
    · simp [markUsed, htarget]
  | cons o rest ih =>
    intro h
    have ho : o.Target ≠ task := h o (List.mem_cons_self _ _)
    obtain ⟨h1, h2⟩ := ih (fun x hx => h x (List.mem_cons_of_mem _ hx))
    constructor
    · rw [List.cons_append, List.find?_cons_of_neg _ (by simpa using ho)]
      exact h1
    · rw [List.cons_append]
      unfold markUsed
      rw [if_neg ho, h2]
      rfl

theorem shouldExecute_false_iff (context : TestContext) (task : WorkflowTask) :
    (context.ShouldExecuteWorkflowTask task).1 = false ↔
      ∃ wto ∈ context.m_overrides, wto.Target = task := by
  unfold TestContext.ShouldExecuteWorkflowTask
  cases h : context.m_overrides.find? (fun wto => wto.Target == task) with
  | none =>
    rw [List.find?_eq_none] at h
    simp only [Bool.true_eq_false, false_iff, not_exists, not_and]
    intro wto hw ht
    exact h wto hw (by simpa using ht)
  | some wto =>
    simp only [true_iff]
    exact ⟨wto, List.mem_of_find?_eq_some h, by simpa using List.find?_some h⟩

/-- C19: `TestContext::ShouldExecuteWorkflowTask(task)` answers false exactly when some
registered override targets the task.  Then the first such override in registration order is
the one that is run, once, on the context, and the one marked `Used`; every other override is
left as it was.  When no override targets the task the answer is true and the context is
unchanged. -/
theorem shouldExecute_runs_first_override (context : TestContext) (task : WorkflowTask) :
    ((context.ShouldExecuteWorkflowTask task).1 = false ↔
      ∃ wto ∈ context.m_overrides, wto.Target = task) ∧
    (∀ before wto after, context.m_overrides = before ++ wto :: after →
      (∀ o ∈ before, o.Target ≠ task) → wto.Target = task →
      context.ShouldExecuteWorkflowTask task
        = (false, { context with
            toContext := wto.Override context.toContext,
            m_overrides := before ++ { wto with Used := true } :: after })) ∧
    ((∀ wto ∈ context.m_overrides, wto.Target ≠ task) →
      context.ShouldExecuteWorkflowTask task = (true, context)) := by
  refine ⟨shouldExecute_false_iff context task, ?_, ?_⟩
  · intro before wto after hov hbefore htarget
    obtain ⟨h1, h2⟩ := find_first_override task wto after htarget before hbefore
    unfold TestContext.ShouldExecuteWorkflowTask
    rw [hov, h1, h2]
  · intro h
    unfold TestContext.ShouldExecuteWorkflowTask
    have hnone : context.m_overrides.find? (fun wto => wto.Target == task) = none := by
      rw [List.find?_eq_none]
      intro wto hw
      simpa using h wto hw
    rw [hnone]

/-- Witness for C19: the test context of the dependency tests, asked about `OpenSource`: the
answer is false, the override has set the `Source` slot, and of the three overrides only the
second has changed to used (the first was used from the start). -/
theorem shouldExecute_runs_first_override_witness :
    ((OverrideOpenSourceForDependencies testYaml TestContext.create).ShouldExecuteWorkflowTask
      (WorkflowTask.named "OpenSource")).1 = false ∧
    ((OverrideOpenSourceForDependencies testYaml TestContext.create).ShouldExecuteWorkflowTask
      (WorkflowTask.named "OpenSource")).2.Source.isSome = true ∧
    ((OverrideOpenSourceForDependencies testYaml TestContext.create).ShouldExecuteWorkflowTask
      (WorkflowTask.named "OpenSource")).2.m_overrides.map (fun wto => wto.Used)
        = [true, true, false] ∧
    ((OverrideOpenSourceForDependencies testYaml TestContext.create).ShouldExecuteWorkflowTask
      (WorkflowTask.named "DownloadInstallerFile"))
        = (true, OverrideOpenSourceForDependencies testYaml TestContext.create) :=
  ⟨by rw [(shouldExecute_runs_first_override
        (OverrideOpenSourceForDependencies testYaml TestContext.create)
        (WorkflowTask.named "OpenSource")).2.1
        [{ Used := true, Target := WorkflowTask.func "RemoveInstaller",
           Override := fun context => context }]
        { Used := false, Target := WorkflowTask.named "OpenSource",
          Override := fun c => { c with Source := some (DependenciesTestSource testYaml) } }
        [{ Used := false, Target := WorkflowTask.func "OpenDependencySource",
           Override := fun c =>
             { c with DependencySource := some (DependenciesTestSource testYaml) } }]
        rfl (by decide) rfl],
   rfl, rfl,
   (shouldExecute_runs_first_override
      (OverrideOpenSourceForDependencies testYaml TestContext.create)
      (WorkflowTask.named "DownloadInstallerFile")).2.2 (by decide)⟩

/-- The hook in memory does to an object what the hook of `TestContext` does to the context
the object stands for. -/
theorem ShouldExecuteWorkflowTask_context (memory : TestMemory) (reference : Nat)
    (task : WorkflowTask) (hreference : reference < memory.objects.length)
    (hvalid : (memory.object reference).m_overrides < memory.tables.length) :
    (memory.ShouldExecuteWorkflowTask reference task).1
      = ((memory.context reference).ShouldExecuteWorkflowTask task).1 ∧
    (memory.ShouldExecuteWorkflowTask reference task).2.context reference
      = ((memory.context reference).ShouldExecuteWorkflowTask task).2 := by
  unfold TestMemory.ShouldExecuteWorkflowTask TestContext.ShouldExecuteWorkflowTask
  have hov : (memory.context reference).m_overrides = memory.overrides reference := rfl
  rw [hov]
  cases (memory.overrides reference).find? (fun wto => wto.Target == task) with
  | none => exact ⟨rfl, rfl⟩
  | some wto =>
    refine ⟨rfl, ?_⟩
    have hv : memory.objects[reference].m_overrides < memory.tables.length := by
      simpa [TestMemory.object, List.getD_eq_getElem?_getD, hreference] using hvalid
    simp [TestMemory.context, TestMemory.object, TestMemory.overrides,
      List.getD_eq_getElem?_getD, hreference, hv]

/-- C11, the code at the failing input: for the root `DependenciesInstalled` the flow reaches
`InstallPackages` with one entry for each node of the reported order, the installed dependency
`installed1` included; both entries are lookups that found nothing in the table. -/
theorem installed_dependency_is_handed_over (env : Environment) :
    reportedText (prepareDependencies env 20 (dependencyTestContext "DependenciesInstalled"))
      = some "order: installed1, DependenciesInstalled, \n" ∧
    handedOver (prepareDependencies env 20 (dependencyTestContext "DependenciesInstalled"))
      = some [("installed1", none), ("DependenciesInstalled", none)] :=
  ⟨rfl, rfl⟩

/-! ## Version comparison -/

theorem lexCompare_swap (a : List Char) :
    ∀ b : List Char, (lexCompare a b).swap = lexCompare b a := by
  induction a with
  | nil => intro b; cases b <;> rfl
  | cons x xs ih =>
    intro b
    cases b with
    | nil => rfl
    | cons y ys =>
      unfold lexCompare
      by_cases h1 : x.toNat < y.toNat
      · have h2 : ¬ y.toNat < x.toNat := by omega
        rw [if_pos h1, if_neg h2, if_pos h1]
        rfl
      · by_cases h2 : y.toNat < x.toNat
        · rw [if_neg h1, if_pos h2, if_pos h2]
          rfl
        · rw [if_neg h1, if_neg h2, if_neg h2, if_neg h1]
          exact ih ys

theorem comparePart_swap (a b : List Char) : (comparePart a b).swap = comparePart b a := by
  unfold comparePart
  rw [Bool.and_comm (isNumericPart b) (isNumericPart a)]
  split
  · exact Nat.compare_swap _ _
  · exact lexCompare_swap a b

theorem zeroAgainstParts_swap (bs : List (List Char)) :
    (zeroAgainstParts bs).swap = partsAgainstZero bs := by
  induction bs with
  | nil => rfl
  | cons b bs ih =>
    unfold zeroAgainstParts partsAgainstZero
    rw [← comparePart_swap ['0'] b]
    cases h : comparePart ['0'] b with
    | lt => rfl
    | eq => exact ih
    | gt => rfl

theorem partsAgainstZero_swap (bs : List (List Char)) :
    (partsAgainstZero bs).swap = zeroAgainstParts bs := by
  rw [← zeroAgainstParts_swap]
  cases zeroAgainstParts bs <;> rfl

theorem compareParts_swap (a : List (List Char)) :
    ∀ b : List (List Char), (compareParts a b).swap = compareParts b a := by
  induction a with
  | nil =>
    intro b
    cases b with
    | nil => rfl
    | cons y ys => exact zeroAgainstParts_swap (y :: ys)
  | cons x xs ih =>
    intro b
    cases b with
    | nil => exact partsAgainstZero_swap (x :: xs)
    | cons y ys =>
      unfold compareParts
      rw [← comparePart_swap x y]
      cases h : comparePart x y with
      | lt => rfl
      | eq => exact ih ys
      | gt => rfl

theorem versionLe_total (a b : String) : versionLe a b = true ∨ versionLe b a = true := by
  unfold versionLe compareVersion
  have h := compareParts_swap (splitOnDot a.data) (splitOnDot b.data)
  cases hc : compareParts (splitOnDot a.data) (splitOnDot b.data) with
  | lt => exact Or.inl rfl
  | eq => exact Or.inl rfl
  | gt =>
    rw [hc] at h
    rw [← h]
    exact Or.inr rfl

theorem versionLe_refl (a : String) : versionLe a a = true := by
  rcases versionLe_total a a with h | h <;> exact h

/-! ## Tightening -/

theorem stricterMinVersion_some_some (x y : String) :
    stricterMinVersion (some x) (some y) = if versionLe x y then some y else some x := rfl

theorem stricterMinVersion_mem (a b : Option String) :
    stricterMinVersion a b = a ∨ stricterMinVersion a b = b := by
  cases a with
  | none => exact Or.inr rfl
  | some x =>
    cases b with
    | none => exact Or.inl rfl
    | some y =>
      rw [stricterMinVersion_some_some]
      split
      · exact Or.inr rfl
      · exact Or.inl rfl

theorem stricterMinVersion_ge_left (x : String) (b : Option String) :
    ∃ w, stricterMinVersion (some x) b = some w ∧ versionLe x w = true := by
  cases b with
  | none => exact ⟨x, rfl, versionLe_refl x⟩
  | some y =>
    rw [stricterMinVersion_some_some]
    by_cases h : versionLe x y = true
    · rw [if_pos h]; exact ⟨y, rfl, h⟩
    · rw [if_neg h]; exact ⟨x, rfl, versionLe_refl x⟩

theorem stricterMinVersion_ge_right (a : Option String) (y : String) :
    ∃ w, stricterMinVersion a (some y) = some w ∧ versionLe y w = true := by
  cases a with
  | none => exact ⟨y, rfl, versionLe_refl y⟩
  | some x =>
    rw [stricterMinVersion_some_some]
    by_cases h : versionLe x y = true
    · rw [if_pos h]; exact ⟨y, rfl, versionLe_refl y⟩
    · rw [if_neg h]
      rcases versionLe_total x y with h1 | h1
      · exact absurd h1 h
      · exact ⟨x, rfl, h1⟩

theorem tightenAll_mem (demands : List (Option String)) :
    ∀ initial : Option String,
      tightenAll initial demands = initial ∨ tightenAll initial demands ∈ demands := by
  induction demands with
  | nil => intro initial; exact Or.inl rfl
  | cons d ds ih =>
    intro initial
    have hstep : tightenAll initial (d :: ds) = tightenAll (stricterMinVersion initial d) ds :=
      rfl
    rw [hstep]
    rcases ih (stricterMinVersion initial d) with h | h
    · rcases stricterMinVersion_mem initial d with h1 | h1
      · exact Or.inl (by rw [h, h1])
      · exact Or.inr (by rw [h, h1]; exact List.mem_cons_self _ _)
    · exact Or.inr (List.mem_cons_of_mem _ h)

theorem tightenAll_none_mem (demands : List (Option String)) (hne : demands ≠ []) :
    tightenAll none demands ∈ demands := by
  cases demands with
  | nil => exact absurd rfl hne
  | cons d ds =>
    have hstep : tightenAll none (d :: ds) = tightenAll d ds := by
      show tightenAll (stricterMinVersion none d) ds = _
      rfl
    rw [hstep]
    rcases tightenAll_mem ds d with h | h
    · rw [h]; exact List.mem_cons_self _ _
    · exact List.mem_cons_of_mem _ h

theorem tightenAll_ge (demands : List (Option String)) :
    ∀ initial : Option String,
      (∀ a b c, some a ∈ initial :: demands → some b ∈ initial :: demands →
        some c ∈ initial :: demands → versionLe a b = true → versionLe b c = true →
        versionLe a c = true) →
      ∀ v, some v ∈ initial :: demands →
        ∃ m, tightenAll initial demands = some m ∧ versionLe v m = true := by
  induction demands with
  | nil =>
    intro initial _ v hv
    have : initial = some v := (List.mem_singleton.mp hv).symm
    exact ⟨v, this, versionLe_refl v⟩
  | cons d ds ih =>
    intro initial htrans v hv
    have hstep : tightenAll initial (d :: ds) = tightenAll (stricterMinVersion initial d) ds :=
      rfl
    have hsub : ∀ x, x ∈ stricterMinVersion initial d :: ds → x ∈ initial :: d :: ds := by
      intro x hx
      rcases List.mem_cons.mp hx with h | h
      · rcases stricterMinVersion_mem initial d with h1 | h1
        · rw [h, h1]; exact List.mem_cons_self _ _
        · rw [h, h1]; exact List.mem_cons_of_mem _ (List.mem_cons_self _ _)
      · exact List.mem_cons_of_mem _ (List.mem_cons_of_mem _ h)
    have htrans2 : ∀ a b c, some a ∈ stricterMinVersion initial d :: ds →
        some b ∈ stricterMinVersion initial d :: ds →
        some c ∈ stricterMinVersion initial d :: ds → versionLe a b = true →
        versionLe b c = true → versionLe a c = true :=
      fun a b c ha hb hc => htrans a b c (hsub _ ha) (hsub _ hb) (hsub _ hc)
    rw [hstep]
    have hfirst : ∀ w, stricterMinVersion initial d = some w → versionLe v w = true →
        ∃ m, tightenAll (stricterMinVersion initial d) ds = some m ∧ versionLe v m = true := by
      intro w hw hvw
      obtain ⟨m, hm, hwm⟩ := ih (stricterMinVersion initial d) htrans2 w
        (by rw [hw]; exact List.mem_cons_self _ _)
      refine ⟨m, hm, htrans v w m hv ?_ ?_ hvw hwm⟩
      · exact hsub _ (by rw [hw]; exact List.mem_cons_self _ _)
      · apply hsub
        rcases tightenAll_mem ds (stricterMinVersion initial d) with h | h
        · rw [← hm, h]; exact List.mem_cons_self _ _
        · rw [← hm]; exact List.mem_cons_of_mem _ h
    rcases List.mem_cons.mp hv with h | h
    · obtain ⟨w, hw, hvw⟩ := stricterMinVersion_ge_left v d
      rw [h] at hw
      exact hfirst w hw hvw
    · rcases List.mem_cons.mp h with h1 | h1
      · obtain ⟨w, hw, hvw⟩ := stricterMinVersion_ge_right initial v
        rw [h1] at hw
        exact hfirst w hw hvw
      · exact ih (stricterMinVersion initial d) htrans2 v (List.mem_cons_of_mem _ h1)

/-! ## Demands during the frontier loop -/

theorem tightenNodes_minVersion (nodes : List DependencyGraphNode) (d : Dependency)
    (m : DependencyGraphNode) (hm : m ∈ tightenNodes nodes d) :
    ∃ n ∈ nodes, m.dependency.key = n.dependency.key ∧
      m.dependency.MinVersion
        = if n.dependency.key = d.key then
            stricterMinVersion n.dependency.MinVersion d.MinVersion
          else n.dependency.MinVersion := by
  simp only [tightenNodes, List.mem_map] at hm
  obtain ⟨n, hn, rfl⟩ := hm
  refine ⟨n, hn, ?_⟩
  by_cases h : n.dependency.key = d.key
  · have hb : (n.dependency.key == d.key) = true := by simpa using h
    simp only [hb, if_true]
    rw [if_pos h]
    exact ⟨rfl, rfl⟩
  · have hb : ¬ (n.dependency.key == d.key) = true := by simpa using h
    simp only [hb, if_false]
    rw [if_neg h]
    exact ⟨rfl, rfl⟩

theorem demandsOn_append (processed : List Dependency) (d : Dependency) (k : String) :
    demandsOn (processed ++ [d]) k
      = demandsOn processed k ++ (if d.key = k then [d.MinVersion] else []) := by
  unfold demandsOn
  rw [List.filter_append, List.map_append]
  by_cases h : d.key = k
  · simp [h]
  · simp [h]

theorem tightenAll_append (initial : Option String) (demands : List (Option String))
    (d : Option String) :
    tightenAll initial (demands ++ [d]) = stricterMinVersion (tightenAll initial demands) d := by
  unfold tightenAll
  rw [List.foldl_append]
  rfl

theorem demandsOn_nil_of_not_mem (graph : DependencyGraph) (processed : List Dependency)
    (k : String) (hkeys : ∀ d ∈ processed, d.key ∈ graph.nodeKeys) (hk : k ∉ graph.nodeKeys) :
    demandsOn processed k = [] := by
  unfold demandsOn
  rw [List.map_eq_nil_iff, List.filter_eq_nil_iff]
  intro d hd hdk
  have : d.key = k := by simpa using hdk
  exact hk (this ▸ hkeys d hd)

theorem discoveredEdges_append (getDeps : Dependency → DependencyList × String)
    (rootDeps : DependencyList) (calls : List Dependency) (child : Dependency) :
    discoveredEdges getDeps rootDeps (calls ++ [child])
      = discoveredEdges getDeps rootDeps calls ++ (getDeps child).1 := by
  unfold discoveredEdges
  simp [List.append_assoc]

theorem DemandInv_create (getDeps : Dependency → DependencyList × String) (root : Dependency)
    (rootDeps : DependencyList) :
    DemandInv getDeps rootDeps (DependencyGraph.create root rootDeps) [] [] where
  callKeysNodup := by simp
  callKeys := by intro d hd; simp at hd
  edges := by simp [discoveredEdges, DependencyGraph.create]
  processedKeys := by intro d hd; simp at hd
  inserted := by
    intro n hn
    simp only [DependencyGraph.create, List.mem_singleton] at hn
    subst hn
    exact Or.inl rfl
  tightened := by
    intro n hn
    simp only [DependencyGraph.create, List.mem_singleton] at hn
    subst hn
    simp [tightenAll, demandsOn, initialMinVersion, DependencyGraph.create]

theorem DemandInv_tighten (getDeps : Dependency → DependencyList × String)
    (rootDeps : DependencyList) (g : DependencyGraph) (calls processed : List Dependency)
    (child : Dependency) (rest : List Dependency)
    (hinv : DemandInv getDeps rootDeps g calls processed) (htc : g.toCheck = child :: rest)
    (hhas : g.HasNode child = true) (g1 : DependencyGraph) (hroot : g1.m_root = g.m_root)
    (hnodes : g1.nodes = tightenNodes g.nodes child) (hcheck : g1.toCheck = rest) :
    DemandInv getDeps rootDeps g1 calls (processed ++ [child]) := by
  have hkeys : g1.nodeKeys = g.nodeKeys := by
    unfold DependencyGraph.nodeKeys
    rw [hnodes]
    exact tightenNodes_keys g.nodes child
  have hinit : ∀ k, initialMinVersion g1 k = initialMinVersion g k := by
    intro k; unfold initialMinVersion; rw [hroot]
  refine ⟨hinv.callKeysNodup, ?_, ?_, ?_, ?_, ?_⟩
  · rw [hkeys]; exact hinv.callKeys
  · rw [hcheck, List.append_assoc, ← hinv.edges, htc]
    rfl
  · intro d hd
    rw [hkeys]
    rcases List.mem_append.mp hd with h | h
    · exact hinv.processedKeys d h
    · have : d = child := by simpa using h
      subst this
      exact (HasNode_iff g d).mp hhas
  · intro m hm
    rw [hnodes] at hm
    obtain ⟨n, hn, hmk, _⟩ := tightenNodes_mem g.nodes child m hm
    rw [hmk, hroot]
    rcases hinv.inserted n hn with h | ⟨d, hd, hdk⟩
    · exact Or.inl h
    · exact Or.inr ⟨d, List.mem_append_left _ hd, hdk⟩
  · intro m hm
    rw [hnodes] at hm
    obtain ⟨n, hn, hmk, hmv⟩ := tightenNodes_minVersion g.nodes child m hm
    rw [hmv, hmk, hinit, demandsOn_append]
    by_cases h : n.dependency.key = child.key
    · rw [if_pos h, if_pos h.symm, tightenAll_append, ← hinv.tightened n hn]
    · have h2 : ¬ child.key = n.dependency.key := fun e => h e.symm
      rw [if_neg h, if_neg h2, List.append_nil]
      exact hinv.tightened n hn

theorem DemandInv_insert (getDeps : Dependency → DependencyList × String)
    (rootDeps : DependencyList) (g : DependencyGraph) (calls processed : List Dependency)
    (child : Dependency) (rest : List Dependency)
    (hbuild : BuildInv getDeps rootDeps g calls)
    (hinv : DemandInv getDeps rootDeps g calls processed) (htc : g.toCheck = child :: rest)
    (hnew : ¬ g.HasNode child = true) (g1 : DependencyGraph) (hroot : g1.m_root = g.m_root)
    (hnodes : g1.nodes = g.nodes ++ [{ dependency := child, adjacents := (getDeps child).1 }])
    (hcheck : g1.toCheck = rest ++ (getDeps child).1) :
    DemandInv getDeps rootDeps g1 (calls ++ [child]) (processed ++ [child]) := by
  have hkeys : g1.nodeKeys = g.nodeKeys ++ [child.key] := by
    simp [DependencyGraph.nodeKeys, hnodes]
  have hnk : child.key ∉ g.nodeKeys := fun h => hnew ((HasNode_iff g child).mpr h)
  have hinit : ∀ k, initialMinVersion g1 k = initialMinVersion g k := by
    intro k; unfold initialMinVersion; rw [hroot]
  have hrootkey : g.m_root.key ∈ g.nodeKeys := by
    obtain ⟨n, hn, hnk2, _⟩ := hbuild.rootAdjacents
    rw [← hnk2]
    exact List.mem_map_of_mem _ hn
  have hchildroot : child.key ≠ g.m_root.key := fun e => hnk (e ▸ hrootkey)
  refine ⟨?_, ?_, ?_, ?_, ?_, ?_⟩
  · rw [List.map_append, List.nodup_append]
    refine ⟨hinv.callKeysNodup, List.nodup_singleton _, ?_⟩
    intro a ha hb
    have hak : a = child.key := by simpa using hb
    obtain ⟨d, hd, hda⟩ := List.mem_map.mp ha
    exact hnk (hak ▸ hda ▸ hinv.callKeys d hd)
  · intro d hd
    rw [hkeys]
    rcases List.mem_append.mp hd with h | h
    · exact List.mem_append_left _ (hinv.callKeys d h)
    · have : d = child := by simpa using h
      subst this
      simp
  · rw [hcheck, discoveredEdges_append, ← hinv.edges, htc]
    simp [List.append_assoc]
  · intro d hd
    rw [hkeys]
    rcases List.mem_append.mp hd with h | h
    · exact List.mem_append_left _ (hinv.processedKeys d h)
    · have : d = child := by simpa using h
      subst this
      simp
  · intro m hm
    rw [hnodes] at hm
    rw [hroot]
    rcases List.mem_append.mp hm with h | h
    · rcases hinv.inserted m h with h1 | ⟨d, hd, hdk⟩
      · exact Or.inl h1
      · exact Or.inr ⟨d, List.mem_append_left _ hd, hdk⟩
    · have : m = { dependency := child, adjacents := (getDeps child).1 } := by simpa using h
      subst this
      exact Or.inr ⟨child, List.mem_append_right _ (List.mem_singleton_self _), rfl⟩
  · intro m hm
    rw [hnodes] at hm
    rw [hinit, demandsOn_append]
    rcases List.mem_append.mp hm with h | h
    · have hmk : m.dependency.key ∈ g.nodeKeys := List.mem_map_of_mem _ h
      have hne : ¬ child.key = m.dependency.key := fun e => hnk (e ▸ hmk)
      rw [if_neg hne, List.append_nil]
      exact hinv.tightened m h
    · have : m = { dependency := child, adjacents := (getDeps child).1 } := by simpa using h
      subst this
      show child.MinVersion = _
      rw [if_pos rfl, demandsOn_nil_of_not_mem g processed child.key hinv.processedKeys hnk]
      unfold initialMinVersion
      rw [if_neg hchildroot]
      rfl

theorem expand_demand (getDeps : Dependency → DependencyList × String)
    (rootDeps : DependencyList) (fuel : Nat) :
    ∀ (g : DependencyGraph) (calls : List Dependency) (written : String)
      (processed : List Dependency)
      (g1 : DependencyGraph) (calls1 : List Dependency) (written1 : String),
      DependencyGraph.expand getDeps fuel g calls written = some (g1, calls1, written1) →
      BuildInv getDeps rootDeps g calls →
      DemandInv getDeps rootDeps g calls processed →
      ∃ processed1, DemandInv getDeps rootDeps g1 calls1 processed1 := by
  induction fuel with
  | zero =>
    intro g calls written processed g1 calls1 written1 h _ hinv
    unfold DependencyGraph.expand at h
    split at h
    · simp only [Option.some.injEq, Prod.mk.injEq] at h
      obtain ⟨h1, h2, _⟩ := h
      subst h1; subst h2
      exact ⟨processed, hinv⟩
    · simp at h
    · rename_i hf; simp at hf
  | succ fuel ih =>
    intro g calls written processed g1 calls1 written1 h hbuild hinv
    unfold DependencyGraph.expand at h
    split at h
    · simp only [Option.some.injEq, Prod.mk.injEq] at h
      obtain ⟨h1, h2, _⟩ := h
      subst h1; subst h2
      exact ⟨processed, hinv⟩
    · rename_i hf; simp at hf
    · rename_i child rest fuel2 htc hf
      have hfe : fuel2 = fuel := by omega
      subst hfe
      split at h
      · rename_i hhas
        exact ih _ _ _ _ _ _ _ h
          (BuildInv_tighten getDeps rootDeps g calls child rest hbuild htc hhas _ rfl rfl rfl)
          (DemandInv_tighten getDeps rootDeps g calls processed child rest hinv htc hhas _
            rfl rfl rfl)
      · rename_i hnew
        exact ih _ _ _ _ _ _ _ h
          (BuildInv_insert getDeps rootDeps g calls child rest hbuild htc hnew _ rfl rfl rfl)
          (DemandInv_insert getDeps rootDeps g calls processed child rest hbuild hinv htc hnew
            _ rfl rfl rfl)

/-- Facts about the resolver invocations and the minimum versions of a graph that `BuildGraph`
produced. -/
theorem BuildGraph_demand (getDeps : Dependency → DependencyList × String) (fuel : Nat)
    (root : Dependency) (rootDeps : DependencyList) (g : DependencyGraph)
    (calls : List Dependency) (written : String)
    (h : (DependencyGraph.create root rootDeps).BuildGraph getDeps fuel
      = some (g, calls, written)) :
    DemandInv getDeps rootDeps g calls (discoveredEdges getDeps rootDeps calls) := by
  obtain ⟨_, hdone, _⟩ := BuildGraph_inv getDeps fuel root rootDeps g calls written h
  obtain ⟨processed, hinv⟩ := expand_demand getDeps rootDeps fuel _ _ _ [] _ _ _ h
    (BuildInv_create getDeps root rootDeps) (DemandInv_create getDeps root rootDeps)
  have hp : processed = discoveredEdges getDeps rootDeps calls := by
    have := hinv.edges
    rw [hdone, List.append_nil] at this
    exact this
  rw [← hp]
  exact hinv

/-! ## Resolver invocations, tightening and the place of the root -/

/-- C12: during one `BuildGraph` the dependencies the resolver is invoked for have pairwise
different keys, hence pairwise different Ids, however many edges lead to a node; and when no
loop was found the installation order has no key and no entry twice.  Under
`DependencyAlreadyInStackButNoLoop`, where both `C` and `F` require `B`, the resolver is invoked
for `C`, `F` and `B` once each and the order is `B, C, F` and the root. -/
theorem resolver_invoked_once_per_node :
    (∀ (getDependencies : Dependency → DependencyList × String) (fuel : Nat)
        (root : Dependency) (rootDependencies : DependencyList) (graph : DependencyGraph)
        (calls : List Dependency) (written : String),
      (DependencyGraph.create root rootDependencies).BuildGraph getDependencies fuel
        = some (graph, calls, written) →
      (calls.map Dependency.key).Nodup ∧ (calls.map (fun d => d.Id)).Nodup ∧
      (graph.HasLoop = some false →
        ∃ order, graph.GetInstallationOrder = some order ∧
          (order.map Dependency.key).Nodup ∧ order.Nodup)) ∧
    (DependencyGraph.create (rootAsDependency alreadyInStackManifest)
        [packageDependency "C", packageDependency "F"]).BuildGraph
      (resolver (DependenciesTestSource testYaml)) 20
        = some (alreadyInStackGraph,
            [packageDependency "C", packageDependency "F", packageDependency "B"], "") ∧
    alreadyInStackGraph.GetInstallationOrder
      = some [packageDependency "B", packageDependency "C", packageDependency "F",
          rootAsDependency alreadyInStackManifest] := by
  refine ⟨?_, by decide, by decide⟩
  intro getDependencies fuel root rootDependencies graph calls written hbuild
  have hinv := BuildGraph_demand getDependencies fuel root rootDependencies graph calls written
    hbuild
  refine ⟨hinv.callKeysNodup, ?_, ?_⟩
  · have h := hinv.callKeysNodup
    have hmap : calls.map Dependency.key = (calls.map (fun d => d.Id)).map normalizeId := by
      rw [List.map_map]; rfl
    rw [hmap] at h
    exact List.Nodup.of_map _ h
  · intro hacyclic
    by_cases hdeps : rootDependencies = []
    · subst hdeps
      rw [BuildGraph_of_no_dependencies] at hbuild
      simp only [Option.some.injEq, Prod.mk.injEq] at hbuild
      obtain ⟨hg, _, _⟩ := hbuild
      subst hg
      exact ⟨[], GetInstallationOrder_of_no_dependencies root, List.nodup_nil, List.nodup_nil⟩
    obtain ⟨o, order, _, horder, hkeys, htopo, _, _⟩ :=
      built_graph_order getDependencies fuel root rootDependencies graph calls written hbuild
        hacyclic hdeps
    have hnd : (order.map Dependency.key).Nodup := by
      rw [hkeys]; exact Topo_nodup graph.adjacentKeys o htopo
    exact ⟨order, horder, hnd, List.Nodup.of_map _ hnd⟩

/-- Witness for C12: the build for `DependencyAlreadyInStackButNoLoop` from the test source. -/
theorem resolver_invoked_once_per_node_witness :
    (DependencyGraph.create (rootAsDependency alreadyInStackManifest)
        [packageDependency "C", packageDependency "F"]).BuildGraph
      (resolver (DependenciesTestSource testYaml)) 20
        = some (alreadyInStackGraph,
            [packageDependency "C", packageDependency "F", packageDependency "B"], "") ∧
    ([packageDependency "C", packageDependency "F", packageDependency "B"].map
      Dependency.key).Nodup ∧
    ([packageDependency "C", packageDependency "F", packageDependency "B"].map
      (fun d => d.Id)).Nodup :=
  ⟨by decide,
   (resolver_invoked_once_per_node.1 (resolver (DependenciesTestSource testYaml)) 20
      (rootAsDependency alreadyInStackManifest) [packageDependency "C", packageDependency "F"]
      alreadyInStackGraph [packageDependency "C", packageDependency "F", packageDependency "B"]
      "" (by decide)).1,
   (resolver_invoked_once_per_node.1 (resolver (DependenciesTestSource testYaml)) 20
      (rootAsDependency alreadyInStackManifest) [packageDependency "C", packageDependency "F"]
      alreadyInStackGraph [packageDependency "C", packageDependency "F", packageDependency "B"]
      "" (by decide)).2.1⟩

/-- C13, counterexample: `minVersion` is demanded from 2 on by the root, from 10 on by `first`
and from 1a on by `second`.  When the root lists its own demand first the node ends with 1a,
which does not reach the demand 2; when the root lists it last the node ends with 10, which
does not reach the demand 1a: what the node records depends on the order of discovery and is
not at least every demand. -/
theorem strictest_demand_counterexample :
    carriedMinVersion
        ((DependencyGraph.create (packageDependency "root")
          [minVersionDependency "2", packageDependency "first",
           packageDependency "second"]).BuildGraph demandsResolver 20) "minversion"
      = some (some "1a") ∧
    versionLe "2" "1a" = false ∧
    carriedMinVersion
        ((DependencyGraph.create (packageDependency "root")
          [packageDependency "second", packageDependency "first",
           minVersionDependency "2"]).BuildGraph demandsResolver 20) "minversion"
      = some (some "10") ∧
    versionLe "1a" "10" = false := by
  decide

/-- C13, amended: in a graph that `BuildGraph` produced, a node other than the root carries the
tightening of the minimum versions demanded by the edges towards it, which is one of those
demands; and wherever the comparison of versions is transitive on the demanded versions, it is
at least every one of them, in whatever order they were discovered.  In the fixture
`DependenciesValidMinVersionsMultiple` the node `minVersion`, demanded from 1.0 on and then from
1.5 on, carries 1.5, and so it does when 1.5 is demanded first and 1.0 second. -/
theorem node_carries_strictest_demand :
    (∀ (getDependencies : Dependency → DependencyList × String) (fuel : Nat)
        (root : Dependency) (rootDependencies : DependencyList) (graph : DependencyGraph)
        (calls : List Dependency) (written : String),
      (DependencyGraph.create root rootDependencies).BuildGraph getDependencies fuel
        = some (graph, calls, written) →
      ∀ node ∈ graph.nodes, node.dependency.key ≠ root.key →
        node.dependency.MinVersion
          = tightenAll none
              (demandsOn (discoveredEdges getDependencies rootDependencies calls)
                node.dependency.key) ∧
        node.dependency.MinVersion
          ∈ demandsOn (discoveredEdges getDependencies rootDependencies calls)
              node.dependency.key ∧
        ((∀ a ∈ (demandsOn (discoveredEdges getDependencies rootDependencies calls)
              node.dependency.key).reduceOption,
            ∀ b ∈ (demandsOn (discoveredEdges getDependencies rootDependencies calls)
              node.dependency.key).reduceOption,
            ∀ c ∈ (demandsOn (discoveredEdges getDependencies rootDependencies calls)
              node.dependency.key).reduceOption,
            versionLe a b = true → versionLe b c = true → versionLe a c = true) →
          ∀ v,
            some v ∈ demandsOn (discoveredEdges getDependencies rootDependencies calls)
              node.dependency.key →
            ∃ m, node.dependency.MinVersion = some m ∧ versionLe v m = true)) ∧
    (dependencyTestGraph 20 "DependenciesValidMinVersionsMultiple"
        = some minVersionsMultipleGraph ∧
      (minVersionsMultipleGraph.findNode "minversion").map (fun n => n.dependency.MinVersion)
        = some (some "1.5")) ∧
    ((DependencyGraph.create (rootAsDependency minVersionsMultipleManifest)
        [minVersionDependency "1.5", minVersionDependency "1.0"]).BuildGraph
      (resolver (DependenciesTestSource testYaml)) 20
        = some (minVersionsReversedGraph, [minVersionDependency "1.5"],
            "Minimum required version not available") ∧
      (minVersionsReversedGraph.findNode "minversion").map (fun n => n.dependency.MinVersion)
        = some (some "1.5")) := by
  refine ⟨?_, ⟨by decide, by decide⟩, ⟨by decide, by decide⟩⟩
  intro getDependencies fuel root rootDependencies graph calls written hbuild node hnode hkey
  obtain ⟨_, _, hroot⟩ :=
    BuildGraph_inv getDependencies fuel root rootDependencies graph calls written hbuild
  have hinv := BuildGraph_demand getDependencies fuel root rootDependencies graph calls written
    hbuild
  have hinit : initialMinVersion graph node.dependency.key = none := by
    unfold initialMinVersion
    rw [hroot, if_neg hkey]
  have hfold := hinv.tightened node hnode
  rw [hinit] at hfold
  have hne : demandsOn (discoveredEdges getDependencies rootDependencies calls)
      node.dependency.key ≠ [] := by
    rcases hinv.inserted node hnode with h | ⟨d, hd, hdk⟩
    · rw [hroot] at h; exact absurd h hkey
    · intro hnil
      have hmem : d.MinVersion ∈ demandsOn
          (discoveredEdges getDependencies rootDependencies calls) node.dependency.key := by
        unfold demandsOn
        exact List.mem_map_of_mem _ (List.mem_filter.mpr ⟨hd, by simpa using hdk⟩)
      rw [hnil] at hmem
      simp at hmem
  refine ⟨hfold, ?_, ?_⟩
  · rw [hfold]
    exact tightenAll_none_mem _ hne
  · intro htrans v hv
    rw [hfold]
    have hsome : ∀ x : String, some x ∈ (none : Option String) ::
        demandsOn (discoveredEdges getDependencies rootDependencies calls)
          node.dependency.key →
        some x ∈ demandsOn (discoveredEdges getDependencies rootDependencies calls)
          node.dependency.key := by
      intro x hx
      rcases List.mem_cons.mp hx with h | h
      · exact absurd h (by simp)
      · exact h
    exact tightenAll_ge _ none
      (fun a b c ha hb hc => htrans a (List.reduceOption_mem_iff.mpr (hsome a ha))
        b (List.reduceOption_mem_iff.mpr (hsome b hb))
        c (List.reduceOption_mem_iff.mpr (hsome c hc))) v
      (List.mem_cons_of_mem _ hv)

/-- Witness for C13: the node `minVersion` of the graph built for
`DependenciesValidMinVersionsMultiple`: its demands are 1.0 and 1.5, on which the comparison is
transitive, and it carries a version that is at least 1.0 and at least 1.5. -/
theorem node_carries_strictest_demand_witness :
    (DependencyGraph.create (rootAsDependency minVersionsMultipleManifest)
        [minVersionDependency "1.0", packageDependency "requires1.5"]).BuildGraph
      (resolver (DependenciesTestSource testYaml)) 20
        = some (minVersionsMultipleGraph,
            [minVersionDependency "1.0", packageDependency "requires1.5"], "") ∧
    demandsOn (discoveredEdges (resolver (DependenciesTestSource testYaml))
        [minVersionDependency "1.0", packageDependency "requires1.5"]
        [minVersionDependency "1.0", packageDependency "requires1.5"]) "minversion"
      = [some "1.0", some "1.5"] ∧
    (∃ m, (minVersionDependency "1.5").MinVersion = some m ∧ versionLe "1.0" m = true) ∧
    (∃ m, (minVersionDependency "1.5").MinVersion = some m ∧ versionLe "1.5" m = true) :=
  ⟨by decide, by decide,
   (node_carries_strictest_demand.1 (resolver (DependenciesTestSource testYaml)) 20
      (rootAsDependency minVersionsMultipleManifest)
      [minVersionDependency "1.0", packageDependency "requires1.5"] minVersionsMultipleGraph
      [minVersionDependency "1.0", packageDependency "requires1.5"] "" (by decide)
      { dependency := minVersionDependency "1.5", adjacents := [] } (by decide)
      (by decide)).2.2 (by decide) "1.0" (by decide),
   (node_carries_strictest_demand.1 (resolver (DependenciesTestSource testYaml)) 20
      (rootAsDependency minVersionsMultipleManifest)
      [minVersionDependency "1.0", packageDependency "requires1.5"] minVersionsMultipleGraph
      [minVersionDependency "1.0", packageDependency "requires1.5"] "" (by decide)
      { dependency := minVersionDependency "1.5", adjacents := [] } (by decide)
      (by decide)).2.2 (by decide) "1.5" (by decide)⟩

/-- C20, counterexample: for the root `StackOrderIsOk` of the test source the graph has no loop
and the sequence `GetInstallationOrder` returns is `B, C, StackOrderIsOk`: it contains the
root. -/
theorem installation_order_excludes_root_counterexample :
    dependencyTestGraph 20 "StackOrderIsOk" = some stackOrderIsOkGraph ∧
    stackOrderIsOkGraph.HasLoop = some false ∧
    stackOrderIsOkGraph.GetInstallationOrder
      = some [packageDependency "B", packageDependency "C",
          rootAsDependency stackOrderIsOkManifest] ∧
    stackOrderIsOkGraph.m_root
      ∈ [packageDependency "B", packageDependency "C",
          rootAsDependency stackOrderIsOkManifest] := by
  decide

/-- C20, amended: for every graph that `BuildGraph` produced from a root that declares a
dependency and in which no loop was found, the sequence `GetInstallationOrder` returns ends with
the root node, which occurs nowhere else in it, and every other entry is a direct or transitive
dependency of the root. -/
theorem installation_order_ends_with_root
    (getDependencies : Dependency → DependencyList × String) (fuel : Nat) (root : Dependency)
    (rootDependencies : DependencyList) (graph : DependencyGraph) (calls : List Dependency)
    (written : String)
    (hbuild : (DependencyGraph.create root rootDependencies).BuildGraph getDependencies fuel
      = some (graph, calls, written))
    (hacyclic : graph.HasLoop = some false) (hdeps : rootDependencies ≠ []) :
    ∃ dependencies rootNode,
      graph.GetInstallationOrder = some (dependencies ++ [rootNode]) ∧
      rootNode.Id = root.Id ∧
      ∀ d ∈ dependencies, d.key ≠ root.key ∧
        Relation.TransGen (Edge graph.adjacentKeys) root.key d.key := by
  obtain ⟨hinv, _, hroot⟩ :=
    BuildGraph_inv getDependencies fuel root rootDependencies graph calls written hbuild
  obtain ⟨o, order, ho, horder, hkeys, htopo, _, hlast⟩ :=
    built_graph_order getDependencies fuel root rootDependencies graph calls written hbuild
      hacyclic hdeps
  obtain ⟨r, hr⟩ := hasLoopDFS_root_last graph.adjacentKeys _ graph.m_root.key o ho
  have hsplit : order.map Dependency.key = r ++ [graph.m_root.key] := by rw [hkeys, hr]
  obtain ⟨l1, l2, hl, h1, h2⟩ := List.map_eq_append_iff.mp hsplit
  obtain ⟨x, hx⟩ : ∃ x, l2 = [x] := by
    cases l2 with
    | nil => simp at h2
    | cons x xs =>
      cases xs with
      | nil => exact ⟨x, rfl⟩
      | cons y ys => simp at h2
  subst hx
  subst hl
  have hnd : (r ++ [graph.m_root.key]).Nodup := by
    rw [← hr]; exact Topo_nodup graph.adjacentKeys o htopo
  refine ⟨l1, x, horder, ?_, ?_⟩
  · rw [List.getLast?_append] at hlast
    simpa using hlast
  · intro d hd
    have hdr : d.key ∈ r := by rw [← h1]; exact List.mem_map_of_mem _ hd
    have hne : d.key ≠ graph.m_root.key := by
      intro e
      rw [List.nodup_append] at hnd
      exact hnd.2.2 hdr (by rw [e]; exact List.mem_singleton_self _)
    have hdo : d.key ∈ o := by rw [hr]; exact List.mem_append_left _ hdr
    obtain ⟨n, hn, hnk⟩ := built_graph_order_keys getDependencies fuel root rootDependencies
      graph calls written hbuild false o ho d.key hdo
    have hreach := hinv.reach n hn
    rw [hnk] at hreach
    rw [← hroot]
    refine ⟨hne, ?_⟩
    rcases Relation.reflTransGen_iff_eq_or_transGen.mp hreach with h | h
    · exact absurd h hne
    · exact h

/-- Witness for C20: the graph of `StackOrderIsOk`, built from the test source. -/
theorem installation_order_ends_with_root_witness :
    ∃ dependencies rootNode,
      stackOrderIsOkGraph.GetInstallationOrder = some (dependencies ++ [rootNode]) ∧
      rootNode.Id = (rootAsDependency stackOrderIsOkManifest).Id ∧
      ∀ d ∈ dependencies, d.key ≠ (rootAsDependency stackOrderIsOkManifest).key ∧
        Relation.TransGen (Edge stackOrderIsOkGraph.adjacentKeys)
          (rootAsDependency stackOrderIsOkManifest).key d.key :=
  installation_order_ends_with_root (resolver (DependenciesTestSource testYaml)) 20
    (rootAsDependency stackOrderIsOkManifest) [packageDependency "C"] stackOrderIsOkGraph
    [packageDependency "C", packageDependency "B"] "" (by decide) (by decide) (by decide)


/-! ## A root without dependencies -/

/-- C21: for a root whose declared dependency list is empty, `BuildGraph` returns the seeded
graph without invoking the resolver, whatever the fuel, `HasLoop()` is false and
`GetInstallationOrder()` returns the empty sequence.  In `BuildPackageDependenciesGraph` such a
root gets no graph at all: the flow sets the `Dependencies` slot and returns without a call. -/
theorem no_dependency_root_has_empty_order :
    (∀ (getDependencies : Dependency → DependencyList × String) (fuel : Nat)
        (root : Dependency),
      (DependencyGraph.create root []).BuildGraph getDependencies fuel
        = some (DependencyGraph.create root [], [], "") ∧
      (DependencyGraph.create root []).HasLoop = some false ∧
      (DependencyGraph.create root []).GetInstallationOrder = some []) ∧
    (∀ (env : Environment) (fuel : Nat) (context : TestContext) (rootManifest : Manifest)
        (installer : ManifestInstaller),
      context.Manifest = some rootManifest →
      context.Installer = some (some installer) →
      installer.Dependencies = [] →
      BuildPackageDependenciesGraph env fuel context
        = Except.ok (({ context with Dependencies := some [] } : TestContext), [])) := by
  constructor
  · intro getDependencies fuel root
    refine ⟨BuildGraph_of_no_dependencies getDependencies fuel root, ?_,
      GetInstallationOrder_of_no_dependencies root⟩
    simp [DependencyGraph.HasLoop, graphHasLoop, DependencyGraph.create,
      DependencyGraph.allKeys, hasLoopDFS, visitAdjacents, DependencyGraph.adjacentKeys,
      DependencyGraph.findNode]
  · intro env fuel context rootManifest installer hmanifest hinstaller hnil
    unfold BuildPackageDependenciesGraph prepareDependencies
    simp only [hmanifest, hinstaller, hnil, DependencyList.Empty, List.isEmpty, if_true,
      rootDependenciesAdded]

/-- Witness for C21: the root `B` of the test source, which declares no dependency: the graph
has no loop and an empty order, and the flow makes no call. -/
theorem no_dependency_root_has_empty_order_witness :
    (DependencyGraph.create (packageDependency "B") []).BuildGraph
      (resolver (DependenciesTestSource testYaml)) 0
        = some (DependencyGraph.create (packageDependency "B") [], [], "") ∧
    (DependencyGraph.create (packageDependency "B") []).HasLoop = some false ∧
    (DependencyGraph.create (packageDependency "B") []).GetInstallationOrder = some [] ∧
    callsAfter (BuildPackageDependenciesGraph (plainEnvironment true) 0
      (dependencyTestContext "B")) = some [] :=
  ⟨(no_dependency_root_has_empty_order.1 (resolver (DependenciesTestSource testYaml)) 0
      (packageDependency "B")).1,
   (no_dependency_root_has_empty_order.1 (resolver (DependenciesTestSource testYaml)) 0
      (packageDependency "B")).2.1,
   (no_dependency_root_has_empty_order.1 (resolver (DependenciesTestSource testYaml)) 0
      (packageDependency "B")).2.2,
   by rw [no_dependency_root_has_empty_order.2 (plainEnvironment true) 0
      (dependencyTestContext "B") _ _ rfl rfl rfl]; rfl⟩

/-! ## The version check -/

/-- C25: `IsVersionOk(candidate)` is true if and only if the dependency has no minimum version
or the candidate does not compare below it; segments that are numeric are compared by value.  A
dependency without minimum version accepts every candidate, 1.0 accepts 1.5, 1.5 rejects 1.0
and 1.9 accepts 1.10. -/
theorem isVersionOk_iff_min_version_reached :
    (∀ (d : Dependency) (candidate : String),
      d.IsVersionOk candidate = true ↔
        d.MinVersion = none ∨
          ∃ minVersion, d.MinVersion = some minVersion ∧
            compareVersion candidate minVersion ≠ Ordering.lt) ∧
    (∀ a b : List Char, isNumericPart a = true → isNumericPart b = true →
      comparePart a b = compare (partValue a) (partValue b)) ∧
    (∀ (kind : DependencyType) (id candidate : String),
      ({ Kind := kind, Id := id, MinVersion := none } : Dependency).IsVersionOk candidate
        = true) ∧
    (minVersionDependency "1.0").IsVersionOk "1.5" = true ∧
    (minVersionDependency "1.5").IsVersionOk "1.0" = false ∧
    (minVersionDependency "1.9").IsVersionOk "1.10" = true ∧
    compareVersion "1.10" "1.9" = Ordering.gt := by
  refine ⟨?_, ?_, fun _ _ _ => rfl, by decide, by decide, by decide, by decide⟩
  · intro d candidate
    unfold Dependency.IsVersionOk
    cases hm : d.MinVersion with
    | none => simp
    | some minVersion =>
      have hswap : (compareVersion minVersion candidate).swap
          = compareVersion candidate minVersion :=
        compareParts_swap (splitOnDot minVersion.data) (splitOnDot candidate.data)
      simp only [false_or, reduceCtorEq, Option.some.injEq, exists_eq_left']
      rw [← hswap]
      unfold versionLe
      cases compareVersion minVersion candidate <;> simp [Ordering.swap]
  · intro a b ha hb
    unfold comparePart
    simp [ha, hb]

/-! ## The resolver, check by check -/

/-- The resolver on a node whose search found nothing. -/
theorem resolver_of_no_match (source : Source) (node : Dependency)
    (h : (source.Search (idSearchRequest node)).Matches = []) :
    resolver source node = ([], "No matches") := by
  unfold resolver
  rw [h]

/-- The resolver on a node whose search found more than one package. -/
theorem resolver_of_many_matches (source : Source) (node : Dependency)
    (h : 1 < (source.Search (idSearchRequest node)).Matches.length) :
    resolver source node = ([], "Too many matches") := by
  unfold resolver
  cases hm : (source.Search (idSearchRequest node)).Matches with
  | nil => rw [hm] at h; simp at h
  | cons first others =>
    rw [hm] at h
    simp only [if_pos h]

/-- The resolver on a node whose single match is not installed at a satisfying version: the
latest available version decides. -/
theorem resolver_of_latest (source : Source) (node : Dependency) (found : ResultMatch)
    (hfound : (source.Search (idSearchRequest node)).Matches = [found])
    (hinstalled : installedVersionOk node found.Package = false) :
    resolver source node =
      match found.Package.GetLatestAvailableVersion with
      | none => ([], "No package version found")
      | some latest =>
        match latest.GetManifest.Installers with
        | [] => ([], "No installers found")
        | installer :: _ =>
          if node.IsVersionOk latest.GetManifest.Version then (installer.Dependencies, "")
          else ([], "Minimum required version not available") := by
  unfold resolver
  rw [hfound]
  simp only [List.length_singleton, lt_self_iff_false, if_false, hinstalled,
    Bool.false_eq_true]
  cases found.Package.GetLatestAvailableVersion with
  | none => rfl
  | some latest =>
    simp only
    cases latest.GetManifest.Installers with
    | nil => rfl
    | cons installer others =>
      simp only
      cases node.IsVersionOk latest.GetManifest.Version <;> simp

/-- C29: when the single matched package is installed at a version that fails
`node.IsVersionOk`, the resolver returns and writes what it does for the same package when it
is not installed; the result is decided by the latest available version alone: empty when that
version is missing, has no installer or fails `node.IsVersionOk`, and otherwise the dependency
list of its first installer. -/
theorem unsatisfying_installed_version_is_ignored (source notInstalled : Source)
    (node : Dependency) (found other : ResultMatch) (installed : PackageVersion)
    (hfound : (source.Search (idSearchRequest node)).Matches = [found])
    (hinstalled : found.Package.GetInstalledVersion = some installed)
    (hfails : node.IsVersionOk installed.GetManifest.Version = false)
    (hother : (notInstalled.Search (idSearchRequest node)).Matches = [other])
    (hnone : other.Package.GetInstalledVersion = none)
    (hsame : other.Package.GetLatestAvailableVersion
      = found.Package.GetLatestAvailableVersion) :
    resolver source node = resolver notInstalled node ∧
    (found.Package.GetLatestAvailableVersion = none → (resolver source node).1 = []) ∧
    (∀ latest, found.Package.GetLatestAvailableVersion = some latest →
      (latest.GetManifest.Installers = [] → (resolver source node).1 = []) ∧
      (node.IsVersionOk latest.GetManifest.Version = false → (resolver source node).1 = []) ∧
      (∀ installer others, latest.GetManifest.Installers = installer :: others →
        node.IsVersionOk latest.GetManifest.Version = true →
        (resolver source node).1 = installer.Dependencies)) := by
  have h1 : installedVersionOk node found.Package = false := by
    unfold installedVersionOk
    rw [hinstalled]
    exact hfails
  have h2 : installedVersionOk node other.Package = false := by
    unfold installedVersionOk
    rw [hnone]
  rw [resolver_of_latest source node found hfound h1,
    resolver_of_latest notInstalled node other hother h2, hsame]
  refine ⟨rfl, ?_, ?_⟩
  · intro hl
    rw [hl]
  · intro latest hl
    rw [hl]
    refine ⟨?_, ?_, ?_⟩
    · intro hi
      simp only [hi]
    · intro hv
      cases hi : latest.GetManifest.Installers with
      | nil => simp only [hi]
      | cons installer others => simp [hi, hv]
    · intro installer others hi hv
      simp [hi, hv]

/-- Witness for C29: `Library` is installed at 1.0 and available at 2.0, whose installer
requires `B`; for a node that demands 1.5 the resolver returns `B` whether `Library` is
installed or not. -/
theorem unsatisfying_installed_version_is_ignored_witness :
    resolver (packageSource outdatedPackage) libraryDependency
      = resolver (packageSource availablePackage) libraryDependency ∧
    (resolver (packageSource outdatedPackage) libraryDependency).1 = [packageDependency "B"] :=
  ⟨(unsatisfying_installed_version_is_ignored (packageSource outdatedPackage)
      (packageSource availablePackage) libraryDependency _ _ _ rfl rfl (by decide) rfl rfl
      rfl).1,
   ((unsatisfying_installed_version_is_ignored (packageSource outdatedPackage)
      (packageSource availablePackage) libraryDependency _ _ _ rfl rfl (by decide) rfl rfl
      rfl).2.2 _ rfl).2.2 _ _ rfl (by decide)⟩

/-- C30: the resolver writes exactly one of its five diagnostics, and returns the empty list,
when a check fails, the checks being made in this order: no match, more than one match, no
latest available version, no installer, latest version below the minimum; the three last ones
are made only when the single match is not installed at a satisfying version.  It writes
nothing when the match is installed at a satisfying version and when it returns the dependency
list of the first installer. -/
theorem resolver_writes_one_diagnostic (source : Source) (node : Dependency) :
    ((source.Search (idSearchRequest node)).Matches = [] →
      resolver source node = ([], "No matches")) ∧
    (1 < (source.Search (idSearchRequest node)).Matches.length →
      resolver source node = ([], "Too many matches")) ∧
    (∀ found, (source.Search (idSearchRequest node)).Matches = [found] →
      (installedVersionOk node found.Package = true → resolver source node = ([], "")) ∧
      (installedVersionOk node found.Package = false →
        (found.Package.GetLatestAvailableVersion = none →
          resolver source node = ([], "No package version found")) ∧
        (∀ latest, found.Package.GetLatestAvailableVersion = some latest →
          (latest.GetManifest.Installers = [] →
            resolver source node = ([], "No installers found")) ∧
          (∀ installer others, latest.GetManifest.Installers = installer :: others →
            (node.IsVersionOk latest.GetManifest.Version = false →
              resolver source node = ([], "Minimum required version not available")) ∧
            (node.IsVersionOk latest.GetManifest.Version = true →
              resolver source node = (installer.Dependencies, "")))))) ∧
    (resolver source node).2 ∈
      ["", "No matches", "Too many matches", "No package version found", "No installers found",
       "Minimum required version not available"] ∧
    ((resolver source node).2 ≠ "" → (resolver source node).1 = []) := by
  have hcases : ∀ found, (source.Search (idSearchRequest node)).Matches = [found] →
      (installedVersionOk node found.Package = true → resolver source node = ([], "")) ∧
      (installedVersionOk node found.Package = false →
        (found.Package.GetLatestAvailableVersion = none →
          resolver source node = ([], "No package version found")) ∧
        (∀ latest, found.Package.GetLatestAvailableVersion = some latest →
          (latest.GetManifest.Installers = [] →
            resolver source node = ([], "No installers found")) ∧
          (∀ installer others, latest.GetManifest.Installers = installer :: others →
            (node.IsVersionOk latest.GetManifest.Version = false →
              resolver source node = ([], "Minimum required version not available")) ∧
            (node.IsVersionOk latest.GetManifest.Version = true →
              resolver source node = (installer.Dependencies, ""))))) := by
    intro found hfound
    constructor
    · intro hok
      unfold resolver
      rw [hfound]
      simp [hok]
    · intro hno
      rw [resolver_of_latest source node found hfound hno]
      constructor
      · intro hl
        rw [hl]
      · intro latest hl
        rw [hl]
        constructor
        · intro hi
          simp only [hi]
        · intro installer others hi
          simp only [hi]
          constructor
          · intro hv
            simp [hv]
          · intro hv
            simp [hv]
  have hshape : (resolver source node).2 ∈
      ["", "No matches", "Too many matches", "No package version found",
       "No installers found", "Minimum required version not available"] ∧
      ((resolver source node).2 ≠ "" → (resolver source node).1 = []) := by
    cases hm : (source.Search (idSearchRequest node)).Matches with
    | nil =>
      rw [resolver_of_no_match source node hm]
      simp
    | cons first others =>
      cases others with
      | cons second more =>
        rw [resolver_of_many_matches source node (by rw [hm]; simp)]
        simp
      | nil =>
        obtain ⟨hyes, hno⟩ := hcases first hm
        cases hok : installedVersionOk node first.Package with
        | true =>
          rw [hyes hok]
          simp
        | false =>
          obtain ⟨hnone, hsome⟩ := hno hok
          cases hl : first.Package.GetLatestAvailableVersion with
          | none =>
            rw [hnone hl]
            simp
          | some latest =>
            obtain ⟨hnil, hcons⟩ := hsome latest hl
            cases hi : latest.GetManifest.Installers with
            | nil =>
              rw [hnil hi]
              simp
            | cons installer rest =>
              obtain ⟨hbad, hgood⟩ := hcons installer rest hi
              cases hv : node.IsVersionOk latest.GetManifest.Version with
              | false =>
                rw [hbad hv]
                simp
              | true =>
                rw [hgood hv]
                simp
  exact ⟨resolver_of_no_match source node, resolver_of_many_matches source node, hcases,
    hshape.1, hshape.2⟩

/-- Witness for C30: over the test source and the two fixed sources, the resolver writes `No
matches`, `Too many matches`, `Minimum required version not available`, nothing for the
installed `installed1` and nothing for `H`, whose dependencies it returns. -/
theorem resolver_writes_one_diagnostic_witness :
    resolver noMatchSource (packageDependency "B") = ([], "No matches") ∧
    resolver twoMatchSource (packageDependency "H") = ([], "Too many matches") ∧
    resolver (DependenciesTestSource testYaml)
      { Kind := DependencyType.Package, Id := "minVersion1.5", MinVersion := some "2.0" }
        = ([], "Minimum required version not available") ∧
    resolver (DependenciesTestSource testYaml) (packageDependency "installed1") = ([], "") ∧
    resolver (DependenciesTestSource testYaml) (packageDependency "H")
      = ([packageDependency "G", packageDependency "B"], "") :=
  ⟨(resolver_writes_one_diagnostic noMatchSource (packageDependency "B")).1 rfl,
   (resolver_writes_one_diagnostic twoMatchSource (packageDependency "H")).2.1 (by decide),
   (((((resolver_writes_one_diagnostic (DependenciesTestSource testYaml)
      { Kind := DependencyType.Package, Id := "minVersion1.5", MinVersion := some "2.0" }).2.2.1
        _ rfl).2 (by decide)).2 _ rfl).2 _ _ rfl).1 (by decide),
   ((resolver_writes_one_diagnostic (DependenciesTestSource testYaml)
      (packageDependency "installed1")).2.2.1 _ rfl).1 (by decide),
   (((((resolver_writes_one_diagnostic (DependenciesTestSource testYaml)
      (packageDependency "H")).2.2.1 _ rfl).2 (by decide)).2 _ rfl).2 _ _ rfl).2 (by decide)⟩

/-! ## The report -/

theorem write_write (context : TestContext) (a b : String) :
    (context.write a).write b = context.write (a ++ b) := by
  simp [TestContext.write, String.append_assoc]

theorem write_empty (context : TestContext) : context.write "" = context := by
  simp [TestContext.write]

theorem write_lines (line : Dependency → String) (entries : List Dependency) :
    ∀ context : TestContext,
      entries.foldl (fun c dependency => c.write (line dependency)) context
        = context.write (joinLines (entries.map line)) := by
  induction entries with
  | nil =>
    intro context
    exact (write_empty context).symm
  | cons d rest ih =>
    intro context
    rw [List.foldl_cons, ih, write_write]
    rfl

theorem writeDependencySection_eq (context : TestContext) (dependencies : DependencyList)
    (kind : DependencyType) (title : String) (line : Dependency → String) :
    writeDependencySection context dependencies kind title line
      = context.write (sectionText dependencies kind title line) := by
  unfold writeDependencySection sectionText
  by_cases h : dependencies.HasAnyOf kind = true
  · rw [if_pos h, if_pos h, write_lines, write_write]
    rfl
  · rw [if_neg h, if_neg h, write_empty]

/-- The task `ReportDependencies` with the feature enabled, on a list that has an entry. -/
theorem ReportDependencies_enabled (titles : DependencyTitles) (message : String)
    (context : TestContext) (dependencies : DependencyList)
    (hdeps : context.Dependencies = some dependencies) (hany : dependencies.HasAny = true) :
    ReportDependencies true titles message context
      = Except.ok (context.write (message ++ "\n" ++
          sectionText dependencies DependencyType.WindowsFeature
            titles.WindowsFeaturesDependencies plainDependencyLine ++
          sectionText dependencies DependencyType.WindowsLibrary
            titles.WindowsLibrariesDependencies plainDependencyLine ++
          sectionText dependencies DependencyType.Package
            titles.PackageDependencies packageDependencyLine ++
          sectionText dependencies DependencyType.External
            titles.ExternalDependencies plainDependencyLine)) := by
  unfold ReportDependencies
  simp only [Bool.not_true, Bool.false_eq_true, if_false, hdeps, hany, if_true]
  rw [writeDependencySection_eq, writeDependencySection_eq, writeDependencySection_eq,
    writeDependencySection_eq, write_write, write_write, write_write, write_write]
  simp only [String.append_assoc]

theorem sectionText_congr (dependencies : DependencyList) (kind : DependencyType)
    (title : String) (line1 line2 : Dependency → String)
    (h : ∀ d : Dependency, d.Kind = kind → line1 d = line2 d) :
    sectionText dependencies kind title line1 = sectionText dependencies kind title line2 := by
  unfold sectionText
  have hmap : (dependencies.filter (fun d => d.Kind = kind)).map line1
      = (dependencies.filter (fun d => d.Kind = kind)).map line2 := by
    apply List.map_congr_left
    intro d hd
    have hk := (List.mem_filter.mp hd).2
    exact h d (by simpa using hk)
  rw [hmap]

theorem plainDependencyLine_eq (d : Dependency) (h : d.Kind ≠ DependencyType.Package) :
    plainDependencyLine d = reportedLine d := by
  unfold plainDependencyLine reportedLine minVersionSuffix
  rw [if_neg h, String.append_empty]

theorem packageDependencyLine_eq (d : Dependency) (h : d.Kind = DependencyType.Package) :
    packageDependencyLine d = reportedLine d := by
  unfold packageDependencyLine reportedLine minVersionSuffix
  rw [if_pos h]
  cases d.MinVersion with
  | none => simp only [String.append_empty]
  | some minVersion => simp only [String.append_assoc]

/-- C23: with the feature enabled, the report is the message line and the four sections in
which every line is the Id of the dependency followed by its suffix: ` [>= MinVersion]` for a
package dependency that has a minimum version, nothing for a package dependency without one
and nothing for a dependency of another kind, whether it carries a minimum version or not.  On
the list with all four kinds the text is the one the validate test looks into. -/
theorem report_brackets_min_version_of_packages :
    (∀ (titles : DependencyTitles) (message : String) (context : TestContext)
        (dependencies : DependencyList),
      context.Dependencies = some dependencies → dependencies.HasAny = true →
      reporterAfter (ReportDependencies true titles message context)
        = some (context.Reporter ++ reportText titles message dependencies)) ∧
    (∀ (d : Dependency) (minVersion : String),
      d.Kind = DependencyType.Package → d.MinVersion = some minVersion →
      reportedLine d = "      " ++ d.Id ++ " [>= " ++ minVersion ++ "]" ++ "\n") ∧
    (∀ d : Dependency, d.Kind = DependencyType.Package → d.MinVersion = none →
      reportedLine d = "      " ++ d.Id ++ "\n") ∧
    (∀ d : Dependency, d.Kind ≠ DependencyType.Package →
      reportedLine d = "      " ++ d.Id ++ "\n") ∧
    reporterAfter (ReportDependencies true sampleTitles "Dependencies:"
        (reportTestContext allDependencyTypes))
      = some ("Dependencies:\n" ++
          "  - Windows Features\n      WindowsFeaturesDep\n" ++
          "  - Windows Libraries\n      WindowsLibrariesDep\n" ++
          "  - Package Dependencies\n      Package.Dep1-x64 [>= 1.0]\n      Package.Dep2-x64\n" ++
          "  - External Dependencies\n      ExternalDep\n") := by
  refine ⟨?_, ?_, ?_, ?_, by rfl⟩
  · intro titles message context dependencies hdeps hany
    rw [ReportDependencies_enabled titles message context dependencies hdeps hany]
    unfold reportText
    rw [sectionText_congr dependencies DependencyType.WindowsFeature _ plainDependencyLine
        reportedLine (fun d hd => plainDependencyLine_eq d (by rw [hd]; decide)),
      sectionText_congr dependencies DependencyType.WindowsLibrary _ plainDependencyLine
        reportedLine (fun d hd => plainDependencyLine_eq d (by rw [hd]; decide)),
      sectionText_congr dependencies DependencyType.Package _ packageDependencyLine
        reportedLine (fun d hd => packageDependencyLine_eq d hd),
      sectionText_congr dependencies DependencyType.External _ plainDependencyLine
        reportedLine (fun d hd => plainDependencyLine_eq d (by rw [hd]; decide))]
    rfl
  · intro d minVersion hk hm
    unfold reportedLine minVersionSuffix
    rw [if_pos hk, hm]
    simp only [String.append_assoc]
  · intro d hk hm
    unfold reportedLine minVersionSuffix
    rw [if_pos hk, hm]
    simp only [String.append_empty]
  · intro d hk
    unfold reportedLine minVersionSuffix
    rw [if_neg hk, String.append_empty]

/-- Witness for C23: the report of the list with all four kinds holds `Package.Dep1-x64 [>=
1.0]` and `Package.Dep2-x64`, the latter without a bracket, and the external dependency, which
carries the minimum version 3.0, without a bracket either. -/
theorem report_brackets_min_version_of_packages_witness :
    reporterAfter (ReportDependencies true sampleTitles "Dependencies:"
        (reportTestContext allDependencyTypes))
      = some ((reportTestContext allDependencyTypes).Reporter ++
          reportText sampleTitles "Dependencies:" allDependencyTypes) ∧
    occursIn "Package.Dep1-x64 [>= 1.0]"
      (reportText sampleTitles "Dependencies:" allDependencyTypes) = true ∧
    occursIn "Package.Dep2-x64"
      (reportText sampleTitles "Dependencies:" allDependencyTypes) = true ∧
    occursIn "Package.Dep2-x64 ["
      (reportText sampleTitles "Dependencies:" allDependencyTypes) = false ∧
    occursIn "ExternalDep ["
      (reportText sampleTitles "Dependencies:" allDependencyTypes) = false :=
  ⟨report_brackets_min_version_of_packages.1 sampleTitles "Dependencies:"
      (reportTestContext allDependencyTypes) allDependencyTypes rfl (by decide),
   by decide, by decide, by decide, by decide⟩

/-- C24: with the feature enabled, `ReportDependencies` returns the context as it received it
when the `Dependencies` list has no entry; otherwise it returns the context with the message
line and then the sections of `WindowsFeature`, `WindowsLibrary`, `Package` and `External`, in
this order, written to the reporter.  A section is empty when the list has no dependency of its
kind, and is otherwise the title line and one line for each entry of that kind: an entry of the
kind is listed as often as it is in the list, an entry of another kind is not listed.  Writing
to the reporter changes no slot, nor the termination state. -/
theorem report_lists_each_kind_in_order :
    (∀ (titles : DependencyTitles) (message : String) (context : TestContext)
        (dependencies : DependencyList),
      context.Dependencies = some dependencies →
      (dependencies = [] →
        ReportDependencies true titles message context = Except.ok context) ∧
      (dependencies ≠ [] →
        ReportDependencies true titles message context
          = Except.ok (context.write (message ++ "\n" ++
              sectionText dependencies DependencyType.WindowsFeature
                titles.WindowsFeaturesDependencies plainDependencyLine ++
              sectionText dependencies DependencyType.WindowsLibrary
                titles.WindowsLibrariesDependencies plainDependencyLine ++
              sectionText dependencies DependencyType.Package
                titles.PackageDependencies packageDependencyLine ++
              sectionText dependencies DependencyType.External
                titles.ExternalDependencies plainDependencyLine)))) ∧
    (∀ (dependencies : DependencyList) (kind : DependencyType) (title : String)
        (line : Dependency → String),
      ((∀ d ∈ dependencies, d.Kind ≠ kind) → sectionText dependencies kind title line = "") ∧
      ((∃ d ∈ dependencies, d.Kind = kind) →
        sectionText dependencies kind title line
          = "  - " ++ title ++ "\n" ++
              joinLines ((dependencies.filter (fun d => d.Kind = kind)).map line))) ∧
    (∀ (dependencies : DependencyList) (kind : DependencyType) (d : Dependency),
      (dependencies.filter (fun e => e.Kind = kind)).count d
        = if d.Kind = kind then dependencies.count d else 0) ∧
    (∀ (context : TestContext) (text : String),
      (context.write text).Manifest = context.Manifest ∧
      (context.write text).Installer = context.Installer ∧
      (context.write text).Dependencies = context.Dependencies ∧
      (context.write text).DependencySource = context.DependencySource ∧
      (context.write text).PackageVersion = context.PackageVersion ∧
      (context.write text).Source = context.Source ∧
      (context.write text).terminationHR = context.terminationHR ∧
      (context.write text).flags = context.flags) := by
  refine ⟨?_, ?_, ?_, fun _ _ => ⟨rfl, rfl, rfl, rfl, rfl, rfl, rfl, rfl⟩⟩
  · intro titles message context dependencies hdeps
    constructor
    · intro hnil
      unfold ReportDependencies
      simp [hdeps, hnil, DependencyList.HasAny]
    · intro hne
      apply ReportDependencies_enabled titles message context dependencies hdeps
      cases dependencies with
      | nil => exact absurd rfl hne
      | cons d rest => rfl
  · intro dependencies kind title line
    constructor
    · intro hnone
      unfold sectionText
      rw [if_neg]
      unfold DependencyList.HasAnyOf
      simpa using hnone
    · intro hsome
      unfold sectionText
      rw [if_pos]
      unfold DependencyList.HasAnyOf
      simpa using hsome
  · intro dependencies kind d
    by_cases h : d.Kind = kind
    · rw [if_pos h, List.count_filter]
      simpa using h
    · rw [if_neg h, List.count_eq_zero]
      intro hmem
      have hk := (List.mem_filter.mp hmem).2
      exact h (by simpa using hk)

/-- Witness for C24: the report of the empty list writes nothing, and the report of the list
with all four kinds, given in another order, has the four sections in the fixed order. -/
theorem report_lists_each_kind_in_order_witness :
    reporterAfter (ReportDependencies true sampleTitles "Dependencies:" (reportTestContext []))
      = some "" ∧
    reporterAfter (ReportDependencies true sampleTitles "Dependencies:"
        (reportTestContext allDependencyTypes))
      = some ("Dependencies:\n" ++
          "  - Windows Features\n      WindowsFeaturesDep\n" ++
          "  - Windows Libraries\n      WindowsLibrariesDep\n" ++
          "  - Package Dependencies\n      Package.Dep1-x64 [>= 1.0]\n      Package.Dep2-x64\n" ++
          "  - External Dependencies\n      ExternalDep\n") :=
  ⟨by rw [(report_lists_each_kind_in_order.1 sampleTitles "Dependencies:"
        (reportTestContext []) [] rfl).1 rfl]; rfl,
   by rw [(report_lists_each_kind_in_order.1 sampleTitles "Dependencies:"
        (reportTestContext allDependencyTypes) allDependencyTypes rfl).2 (by decide)]; rfl⟩

/-! ## The installers handed over -/

theorem collectInstallers_length (table : List (String × PackagesAndInstallers))
    (order : List Dependency) : (collectInstallers table order).length = order.length := by
  unfold collectInstallers
  exact List.length_map _ _

/-- C26, the code at the failing input: whenever the flow reaches `InstallPackages`, the
installation order is not empty and the lookup of every node of it in `dependenciesInstallers`
found nothing, the table being empty; for the root `StackOrderIsOk` of the test source the three
lookups, for `B`, `C` and `StackOrderIsOk`, all fail. -/
theorem installer_lookups_find_nothing :
    (∀ (env : Environment) (fuel : Nat) (context context1 : TestContext)
        (installationOrder : List Dependency)
        (installers : List (Option PackagesAndInstallers)) (calls : List Call),
      prepareDependencies env fuel context
        = Except.ok (Prepared.install context1 installationOrder installers calls) →
      installationOrder ≠ [] ∧
      installers.length = installationOrder.length ∧
      ∀ entry ∈ installers, entry = none) ∧
    (∀ env : Environment,
      handedOver (prepareDependencies env 20 (dependencyTestContext "StackOrderIsOk"))
        = some [("B", none), ("C", none), ("StackOrderIsOk", none)]) := by
  refine ⟨?_, fun _ => rfl⟩
  intro env fuel context context1 installationOrder installers calls h
  obtain ⟨rootManifest, installer, source, graph, resolved, written, _, _, _, hb, hl, ho, _,
    hi, _, hdeps⟩ := prepareDependencies_install env fuel context context1 installationOrder
      installers calls h
  obtain ⟨o, order, _, horder, _, _, _, hlast⟩ :=
    built_graph_order (resolver source) fuel (rootAsDependency rootManifest)
      installer.Dependencies graph resolved written hb hl hdeps
  have heq : order = installationOrder := by
    rw [horder] at ho
    exact Option.some.inj ho
  subst heq
  refine ⟨?_, ?_, ?_⟩
  · intro hnil
    rw [hnil] at hlast
    simp at hlast
  · rw [hi]
    exact collectInstallers_length [] order
  · intro entry hentry
    rw [hi] at hentry
    unfold collectInstallers at hentry
    obtain ⟨node, _, hnode⟩ := List.mem_map.mp hentry
    rw [← hnode]
    rfl

/-! ## A missing dependency source -/

/-- C28, counterexample: an install of `StackOrderIsOk` from a manifest file whose `OpenSource`
fails and terminates the context with the code 7: the `DependencySource` slot stays absent, the
flow makes the one call and returns, and the context is terminated with 7, not with
`APPINSTALLER_CLI_ERROR_INTERNAL_ERROR`, `Terminate` keeping the code recorded first. -/
theorem missing_dependency_source_code_counterexample :
    (dependencySourceOpened failingSourceEnvironment
        (rootDependenciesAdded manifestInstallContext [packageDependency "C"])).DependencySource.isNone
      = true ∧
    terminationAfter (BuildPackageDependenciesGraph failingSourceEnvironment 20
        manifestInstallContext)
      = some (some (HRESULT.other 7)) ∧
    callsAfter (BuildPackageDependenciesGraph failingSourceEnvironment 20
        manifestInstallContext)
      = some [Call.OpenDependencySource] := by
  decide

/-- C28, amended: when the root installer declares a dependency and the `DependencySource` slot
is absent after `OpenDependencySource` has run, `BuildPackageDependenciesGraph` writes
`dependency source not found`, calls `Terminate` with `APPINSTALLER_CLI_ERROR_INTERNAL_ERROR`
and returns: the context it returns is terminated, with that code when `OpenDependencySource`
left it running and with the code recorded before otherwise, and `OpenDependencySource` is the
only call made, whatever the fuel: no graph is built and neither the resolver, `HasLoop`,
`GetInstallationOrder` nor `InstallPackages` is invoked. -/
theorem missing_dependency_source_terminates (env : Environment) (fuel : Nat)
    (context : TestContext) (rootManifest : Manifest) (installer : ManifestInstaller)
    (hmanifest : context.Manifest = some rootManifest)
    (hinstaller : context.Installer = some (some installer))
    (hdeps : installer.Dependencies.Empty = false)
    (hsource : (dependencySourceOpened env
      (rootDependenciesAdded context installer.Dependencies)).DependencySource = none) :
    ∃ final calls, BuildPackageDependenciesGraph env fuel context = Except.ok (final, calls) ∧
      final = ((dependencySourceOpened env
        (rootDependenciesAdded context installer.Dependencies)).write
          "dependency source not found\n").Terminate
            HRESULT.APPINSTALLER_CLI_ERROR_INTERNAL_ERROR ∧
      final.IsTerminated = true ∧
      ((dependencySourceOpened env
        (rootDependenciesAdded context installer.Dependencies)).terminationHR = none →
        final.terminationHR = some HRESULT.APPINSTALLER_CLI_ERROR_INTERNAL_ERROR) ∧
      (∀ hr, (dependencySourceOpened env
        (rootDependenciesAdded context installer.Dependencies)).terminationHR = some hr →
        final.terminationHR = some hr) ∧
      calls = [Call.OpenDependencySource] ∧
      Call.BuildGraph ∉ calls ∧
      (∀ node, Call.Resolver node ∉ calls) ∧
      Call.HasLoop ∉ calls ∧
      Call.GetInstallationOrder ∉ calls ∧
      ∀ installers, Call.InstallPackages installers ∉ calls := by
  refine ⟨_, [Call.OpenDependencySource], ?_, rfl, ?_, ?_, ?_, rfl, by simp, by simp, by simp,
    by simp, by simp⟩
  · unfold BuildPackageDependenciesGraph prepareDependencies
    simp only [hmanifest, hinstaller, hdeps, hsource]
    rfl
  · unfold TestContext.Terminate TestContext.IsTerminated
    cases h : ((dependencySourceOpened env
        (rootDependenciesAdded context installer.Dependencies)).write
          "dependency source not found\n").terminationHR with
    | none => rfl
    | some hr => simp [h]
  · intro hrun
    have hnone : ((dependencySourceOpened env
        (rootDependenciesAdded context installer.Dependencies)).write
          "dependency source not found\n").terminationHR = none := hrun
    unfold TestContext.Terminate
    rw [hnone]
  · intro hr hsome
    have h : ((dependencySourceOpened env
        (rootDependenciesAdded context installer.Dependencies)).write
          "dependency source not found\n").terminationHR = some hr := hsome
    unfold TestContext.Terminate
    rw [h]
    exact hsome

/-- Witness for C28: an install of `StackOrderIsOk` from a manifest file, with source tasks that
open nothing and leave the context running: the flow ends terminated with the internal error
after the one call. -/
theorem missing_dependency_source_terminates_witness :
    ∃ final calls,
      BuildPackageDependenciesGraph (plainEnvironment true) 0 manifestInstallContext
        = Except.ok (final, calls) ∧
      final.Reporter = "dependency source not found\n" ∧
      final.terminationHR = some HRESULT.APPINSTALLER_CLI_ERROR_INTERNAL_ERROR ∧
      calls = [Call.OpenDependencySource] :=
  match missing_dependency_source_terminates (plainEnvironment true) 0 manifestInstallContext
      stackOrderIsOkManifest
      { ProductId := "StackOrderIsOk", Dependencies := [packageDependency "C"] }
      rfl rfl (by decide) rfl with
  | ⟨final, calls, h1, h2, _, h4, _, h6, _⟩ =>
    ⟨final, calls, h1, by rw [h2]; decide, h4 rfl, h6⟩

/-! ## A dependency that could not be resolved -/

/-- The resolver on a node for which no version could be found that satisfies it. -/
theorem resolver_empty_of_unresolved (source : Source) (node : Dependency)
    (h : (source.Search (idSearchRequest node)).Matches = [] ∨
      1 < (source.Search (idSearchRequest node)).Matches.length ∨
      ∃ found, (source.Search (idSearchRequest node)).Matches = [found] ∧
        installedVersionOk node found.Package = false ∧
        ∀ latest, found.Package.GetLatestAvailableVersion = some latest →
          node.IsVersionOk latest.GetManifest.Version = false) :
    (resolver source node).1 = [] ∧ (resolver source node).2 ≠ "" := by
  rcases h with h | h | ⟨found, hfound, hinstalled, hlatest⟩
  · rw [resolver_of_no_match source node h]
    exact ⟨rfl, by decide⟩
  · rw [resolver_of_many_matches source node h]
    exact ⟨rfl, by decide⟩
  · rw [resolver_of_latest source node found hfound hinstalled]
    cases hl : found.Package.GetLatestAvailableVersion with
    | none => simp
    | some latest =>
      cases hi : latest.GetManifest.Installers with
      | nil => simp [hi]
      | cons installer others => simp [hi, hlatest latest hl]

/-- C22, counterexample: `StackOrderIsOk` requires `C` and the source finds no package for
`C`: the resolver returns the empty list and writes `No matches`, the graph has no loop, and
`C` is in the installation order. -/
theorem unresolved_dependency_dropped_counterexample :
    resolver noMatchSource (packageDependency "C") = ([], "No matches") ∧
    (DependencyGraph.create (rootAsDependency stackOrderIsOkManifest)
        [packageDependency "C"]).BuildGraph (resolver noMatchSource) 20
      = some (unresolvedDependencyGraph, [packageDependency "C"], "No matches") ∧
    unresolvedDependencyGraph.HasLoop = some false ∧
    unresolvedDependencyGraph.GetInstallationOrder
      = some [packageDependency "C", rootAsDependency stackOrderIsOkManifest] ∧
    packageDependency "C"
      ∈ [packageDependency "C", rootAsDependency stackOrderIsOkManifest] := by
  decide

/-- C22, amended: a dependency the resolver was invoked for and could not resolve (no match,
more than one match, or neither the installed nor the latest available version satisfies it)
gets the empty list and a diagnostic from the resolver and is kept in the graph as a node
without adjacents, as an installed dependency is; when no loop is found it is in the
installation order, before the root. -/
theorem unresolved_dependency_stays_in_order (source : Source) (fuel : Nat) (root : Dependency)
    (rootDependencies : DependencyList) (graph : DependencyGraph) (calls : List Dependency)
    (written : String)
    (hbuild : (DependencyGraph.create root rootDependencies).BuildGraph (resolver source) fuel
      = some (graph, calls, written))
    (hacyclic : graph.HasLoop = some false)
    (node : Dependency) (hnode : node ∈ calls)
    (hfail : (source.Search (idSearchRequest node)).Matches = [] ∨
      1 < (source.Search (idSearchRequest node)).Matches.length ∨
      ∃ found, (source.Search (idSearchRequest node)).Matches = [found] ∧
        installedVersionOk node found.Package = false ∧
        ∀ latest, found.Package.GetLatestAvailableVersion = some latest →
          node.IsVersionOk latest.GetManifest.Version = false) :
    (resolver source node).1 = [] ∧ (resolver source node).2 ≠ "" ∧
    (∃ n ∈ graph.nodes, n.dependency.key = node.key ∧ n.adjacents = []) ∧
    ∃ order, graph.GetInstallationOrder = some order ∧
      node.key ∈ order.map Dependency.key ∧
      node.key ≠ root.key ∧
      (order.map Dependency.key).indexOf node.key
        < (order.map Dependency.key).indexOf root.key := by
  have hdeps : rootDependencies ≠ [] := by
    intro hnil
    subst hnil
    rw [BuildGraph_of_no_dependencies] at hbuild
    simp only [Option.some.injEq, Prod.mk.injEq] at hbuild
    obtain ⟨_, hc, _⟩ := hbuild
    rw [← hc] at hnode
    simp at hnode
  obtain ⟨hinv, _, hroot⟩ :=
    BuildGraph_inv (resolver source) fuel root rootDependencies graph calls written hbuild
  obtain ⟨o, order, ho, horder, hkeys, htopo, hall, _⟩ :=
    built_graph_order (resolver source) fuel root rootDependencies graph calls written hbuild
      hacyclic hdeps
  have hnodes := BuildGraph_nodeKeys (resolver source) fuel root rootDependencies graph calls
    written hbuild
  obtain ⟨hempty, hwritten⟩ := resolver_empty_of_unresolved source node hfail
  obtain ⟨n, hn, hnk, hna⟩ := hinv.resolved node hnode
  have hk : node.key ≠ root.key := by
    intro e
    have hnd := hinv.nodup
    rw [hnodes, hroot, List.nodup_cons] at hnd
    exact hnd.1 (by rw [← e]; exact List.mem_map_of_mem _ hnode)
  refine ⟨hempty, hwritten, ⟨n, hn, hnk, by rw [hna, hempty]⟩, order, horder, ?_, hk, ?_⟩
  · rw [hkeys, ← hnk]
    exact hall n hn
  · rw [hkeys]
    obtain ⟨r, hr⟩ := hasLoopDFS_root_last graph.adjacentKeys _ graph.m_root.key o ho
    have hmem : node.key ∈ o := by rw [← hnk]; exact hall n hn
    have hnd : (r ++ [graph.m_root.key]).Nodup := by
      rw [← hr]; exact Topo_nodup graph.adjacentKeys o htopo
    rw [hr] at hmem
    have hinr : node.key ∈ r := by
      rcases List.mem_append.mp hmem with h | h
      · exact h
      · rw [List.mem_singleton, hroot] at h
        exact absurd h hk
    have hrootnot : root.key ∉ r := by
      intro hin
      rw [List.nodup_append] at hnd
      exact hnd.2.2 hin (by rw [hroot]; exact List.mem_singleton_self _)
    rw [hr, hroot, List.indexOf_append_of_mem hinr,
      List.indexOf_append_of_not_mem hrootnot]
    have h1 := List.indexOf_lt_length.mpr hinr
    omega

/-- Witness for C22: the graph of `StackOrderIsOk` built over the source without matches keeps
`C` as a node without adjacents, and `C` is in the order, before the root. -/
theorem unresolved_dependency_stays_in_order_witness :
    (resolver noMatchSource (packageDependency "C")).1 = [] ∧
    (resolver noMatchSource (packageDependency "C")).2 ≠ "" ∧
    (∃ n ∈ unresolvedDependencyGraph.nodes,
      n.dependency.key = (packageDependency "C").key ∧ n.adjacents = []) ∧
    ∃ order, unresolvedDependencyGraph.GetInstallationOrder = some order ∧
      (packageDependency "C").key ∈ order.map Dependency.key ∧
      (packageDependency "C").key ≠ (rootAsDependency stackOrderIsOkManifest).key ∧
      (order.map Dependency.key).indexOf (packageDependency "C").key
        < (order.map Dependency.key).indexOf (rootAsDependency stackOrderIsOkManifest).key :=
  unresolved_dependency_stays_in_order noMatchSource 20
    (rootAsDependency stackOrderIsOkManifest) [packageDependency "C"]
    unresolvedDependencyGraph [packageDependency "C"] "No matches" (by decide) (by decide)
    (packageDependency "C") (by decide) (Or.inl rfl)

end AppInstaller
